import Mathlib

/-!
# Todd–Coxeter coset enumeration for Coxeter presentations (`cpu-opt/main.cpp`)

A shallow embedding of the enumeration engine: the group description
(`Coxeter`, `make_coxeter`, `torus`, `hypercube`), the relation tables
(`RelTable`, `add_row`, `rem_row`), the coset table (`CosetTable`), the
definer `add_coset`, the learner `learn` and the driver `solve_tc`.

Modelling conventions.

* `std::vector<int>` is a `List Int` that holds every slot the vector has
  constructed so far. `operator[]` does not check its index and `pop_back`
  lowers the size and leaves the element where it is, so `v[i]` reads and
  writes slot `i` also when `i` is at or past `size()`. The five row arrays of
  a relation table always have the same size, which the source keeps in
  `num_rows`; `push_back` fills slot `size()`. An index that names no slot at
  all (negative, or past the last slot ever constructed) yields `Err.oob`.
* The `int` arithmetic that builds the group description (`<<1`, `>>1`,
  `size - 1`) wraps at 32 bits (`wrap32`), as the compiled program computes
  it, and `nrels` is an `int`, which the `unsigned` loop of `learn` reads
  modulo `2^32`. Cosets, indices and table positions are unbounded integers:
  the engine never computes one that is larger than the number of table
  entries.
* The `omp parallel for` over relations is run sequentially, `r = 0 .. nrels-1`
  (`learn`, through `learn_order`).
* Loops that the source bounds by data are structural recursions on that
  bound; the driver loop, which need not terminate, takes a fuel argument and
  yields `Err.fuel` when it runs out.
-/

namespace ToddCox

/-- Reasons for which a run of the model yields no result. -/
inductive Err where
  | oob
  | fuel
  deriving DecidableEq

deriving instance DecidableEq for Except

/-- Read `v[i]`: slot `i` of the vector, whatever its size. -/
def rd (v : List Int) (i : Int) : Except Err Int :=
  if i < 0 then .error .oob
  else match v[i.toNat]? with
    | some x => .ok x
    | none => .error .oob

/-- Write `v[i] = x`: slot `i` of the vector, whatever its size. -/
def wr (v : List Int) (i : Int) (x : Int) : Except Err (List Int) :=
  if i < 0 then .error .oob
  else if i.toNat < v.length then .ok (v.set i.toNat x)
  else .error .oob

/-- The value of an `int` expression whose mathematical value is `x`, on a
two's-complement machine: `x` reduced to `-2^31 .. 2^31 - 1`. -/
def wrap32 (x : Int) : Int :=
  (x + 2147483648) % 4294967296 - 2147483648

/-! ## Group description -/

/-- `struct Coxeter`: the relation slots as three parallel arrays. -/
structure Coxeter where
  gen0 : List Nat
  gen1 : List Nat
  size : List Int
  ngens : Nat
  nrels : Int
  deriving DecidableEq

/-- `struct Mult`. -/
structure Mult where
  from_gen : Nat
  to_gen : Nat
  multiplicity : Int
  deriving DecidableEq

/-- The two writes `mults[m.from][m.to] = mults[m.to][m.from] = m.multiplicity`. -/
def set_mult (mults : Nat → Nat → Int) (m : Mult) : Nat → Nat → Int :=
  fun i j =>
    if i = m.to_gen ∧ j = m.from_gen then m.multiplicity
    else if i = m.from_gen ∧ j = m.to_gen then m.multiplicity
    else mults i j

/-- The matrix `mults` of `make_coxeter` after both of its filling loops. -/
def mult_matrix (ms : List Mult) : Nat → Nat → Int :=
  ms.foldl set_mult (fun _ _ => 2)

/-- The pairs `(i, j)` in the order of the slot loop of `make_coxeter`. -/
def slot_pairs (ngens : Nat) : List (Nat × Nat) :=
  (List.range ngens).flatMap fun i =>
    (List.range' (i + 1) (ngens - (i + 1))).map fun j => (i, j)

/-- `make_coxeter(ngens, ms)`; `size = mults[i][j]<<1` and
`nrels = (ngens*(ngens-1))>>1` are `int` expressions. -/
def make_coxeter (ngens : Nat) (ms : List Mult) : Coxeter :=
  let mults := mult_matrix ms
  let ps := slot_pairs ngens
  { gen0 := ps.map fun p => p.1
    gen1 := ps.map fun p => p.2
    size := ps.map fun p => wrap32 (2 * mults p.1 p.2)
    ngens := ngens
    nrels := wrap32 ((ngens : Int) * ((ngens : Int) - 1)) >>> (1 : Nat) }

/-- `torus(res)`. -/
def torus (res : Int) : Coxeter :=
  make_coxeter 4 [⟨0, 1, res⟩, ⟨2, 3, res⟩]

/-- `hypercube(dim)`. -/
def hypercube (dim : Nat) : Coxeter :=
  make_coxeter dim
    (⟨0, 1, 4⟩ :: (List.range' 2 (dim - 2)).map fun i => ⟨i - 1, i, 3⟩)

/-! ## Relation tables -/

/-- `struct RelTable`: the scan rows of one relation, as parallel arrays. The
five row arrays `init_cosets .. end_inds` have size `num_rows`; the slots from
`num_rows` on are the ones that `pop_back` has left behind.

`stale` is a history variable that the source does not have: it counts the
assignments `v[i] = x` made so far to a row array at an index `i >= v.size()`.
No function of the model reads it. -/
structure RelTable where
  coset_poss : List Int
  init_cosets : List Int
  start_cosets : List Int
  end_cosets : List Int
  start_inds : List Int
  end_inds : List Int
  num_rows : Nat
  gen0 : Nat
  gen1 : Nat
  end_ind : Int
  stale : Nat
  deriving DecidableEq

/-- The constructor `RelTable(gen0, gen1, end_ind)`. -/
def RelTable.mk0 (gen0 gen1 : Nat) (end_ind : Int) : RelTable :=
  { coset_poss := [], init_cosets := [], start_cosets := [], end_cosets := [],
    start_inds := [], end_inds := [], num_rows := 0,
    gen0 := gen0, gen1 := gen1, end_ind := end_ind, stale := 0 }

/-- `gens[i & 1]` for the generator pair of a relation table. -/
def RelTable.gens (rt : RelTable) (i : Int) : Nat :=
  if i % 2 = 0 then rt.gen0 else rt.gen1

/-- `v.push_back(x)` on a row array of `size` elements: the new element takes
slot `size`, a slot that `pop_back` left behind or else a new one. -/
def push_back (v : List Int) (size : Nat) (x : Int) : List Int :=
  if size < v.length then v.set size x else v ++ [x]

/-- `RelTable::add_row(new_coset)`. -/
def RelTable.add_row (rt : RelTable) (new_coset : Int) : RelTable :=
  { rt with
    coset_poss := rt.coset_poss ++ [(rt.num_rows : Int)]
    init_cosets := push_back rt.init_cosets rt.num_rows new_coset
    start_cosets := push_back rt.start_cosets rt.num_rows new_coset
    end_cosets := push_back rt.end_cosets rt.num_rows new_coset
    start_inds := push_back rt.start_inds rt.num_rows 0
    end_inds := push_back rt.end_inds rt.num_rows rt.end_ind
    num_rows := rt.num_rows + 1 }

/-- The pair `v[idx] = v[n]; v.pop_back();` of `rem_row`, where `n` is the new
size: `pop_back` leaves slot `n` in place. -/
def move_last (v : List Int) (idx n : Nat) : Except Err (List Int) := do
  let x ← rd v n
  wr v idx x

/-- `RelTable::rem_row(idx)`. With `num_rows == 0` the source indexes at `-1`.
When `idx` is past the new last row, the five assignments `v[idx] = v[num_rows]`
go to a slot at or past the size. -/
def RelTable.rem_row (rt : RelTable) (idx : Nat) : Except Err RelTable := do
  if rt.num_rows = 0 then .error .oob else
  let n := rt.num_rows - 1
  let a ← rd rt.init_cosets n
  let cp1 ← wr rt.coset_poss a idx
  let b ← rd rt.init_cosets idx
  let cp2 ← wr cp1 b (-1)
  let ic ← move_last rt.init_cosets idx n
  let sc ← move_last rt.start_cosets idx n
  let ec ← move_last rt.end_cosets idx n
  let si ← move_last rt.start_inds idx n
  let ei ← move_last rt.end_inds idx n
  .ok { rt with
    coset_poss := cp2, init_cosets := ic, start_cosets := sc, end_cosets := ec,
    start_inds := si, end_inds := ei, num_rows := n,
    stale := if idx ≤ n then rt.stale else rt.stale + 5 }

/-! ## Coset table -/

/-- `struct CosetTable`: the table in row-major order, `ngens` entries a row.

`overwrites` is a history variable that the source does not have: it counts
the assignments `cosets[idx] = v` made so far whose slot held a defined value
different from `v`. No function of the model reads it. -/
structure CosetTable where
  table : List Int
  num_cosets : Nat
  ngens : Nat
  overwrites : Nat
  deriving DecidableEq

/-- `CosetTable::add_row()`. -/
def CosetTable.add_row (ct : CosetTable) : CosetTable :=
  { ct with
    num_cosets := ct.num_cosets + 1
    table := ct.table ++ List.replicate ct.ngens (-1) }

/-- The assignment `cosets[idx] = v`. -/
def CosetTable.set (ct : CosetTable) (idx : Int) (v : Int) : Except Err CosetTable := do
  let old ← rd ct.table idx
  let t ← wr ct.table idx v
  .ok { ct with
    table := t
    overwrites := if old ≠ -1 ∧ old ≠ v then ct.overwrites + 1 else ct.overwrites }

/-- The state the driver owns: the coset table and one table per relation. -/
structure State where
  cosets : CosetTable
  reltables : List RelTable
  deriving DecidableEq

/-- The free function `add_row(cox, cosets, reltables)`. -/
def add_row (st : State) : State :=
  let C : Int := st.cosets.num_cosets
  { cosets := st.cosets.add_row
    reltables := st.reltables.map fun rt => rt.add_row C }

/-! ## Definer -/

/-- Inner loop of `add_coset`: `g` and `idx` advance together over `k` columns;
the result is the first `(g, idx)` with `cosets[idx] == -1`. -/
def scan_gens (table : List Int) : Nat → Nat → Nat → Except Err (Option (Nat × Nat))
  | 0, _, _ => .ok none
  | k + 1, g, idx =>
    match rd table idx with
    | .error e => .error e
    | .ok v => if v = -1 then .ok (some (g, idx)) else scan_gens table k (g + 1) (idx + 1)

/-- Outer loop of `add_coset` over `k` rows starting at row `c`; the result is
the first `(c, g, idx)` with `cosets[idx] == -1`. -/
def scan_rows (table : List Int) (ngens : Nat) :
    Nat → Nat → Nat → Except Err (Option (Nat × Nat × Nat))
  | 0, _, _ => .ok none
  | k + 1, c, idx =>
    match scan_gens table ngens 0 idx with
    | .error e => .error e
    | .ok (some (g, i)) => .ok (some (c, g, i))
    | .ok none => scan_rows table ngens k (c + 1) (idx + ngens)

/-- `add_coset(cox, cosets, reltables, coset_scan_hint)`: the returned integer
and the updated state. -/
def add_coset (cox : Coxeter) (st : State) (coset_scan_hint : Nat) :
    Except Err (Int × State) :=
  let C := st.cosets.num_cosets
  let ngens := cox.ngens
  match scan_rows st.cosets.table ngens (C - coset_scan_hint) coset_scan_hint
      (coset_scan_hint * ngens) with
  | .error e => .error e
  | .ok none => .ok (-1, st)
  | .ok (some (c, g, idx)) =>
    match st.cosets.set idx C with
    | .error e => .error e
    | .ok ct1 =>
      let st1 := add_row { st with cosets := ct1 }
      match st1.cosets.set ((C : Int) * ngens + g) c with
      | .error e => .error e
      | .ok ct2 => .ok ((c : Int), { st1 with cosets := ct2 })

/-! ## Learner -/

/-- The pruning step
`if (x > i_c) { idx = coset_poss[x]; if (idx >= 0) table.rem_row(idx); }`. -/
def prune (rt : RelTable) (x i_c : Int) : Except Err RelTable :=
  if x > i_c then
    match rd rt.coset_poss x with
    | .error e => .error e
    | .ok idx => if idx ≥ 0 then rt.rem_row idx.toNat else .ok rt
  else .ok rt

/-- The forward scan `while (s_i < e_i)`; the first argument is `e_i - s_i`. -/
def scan_fwd (table : List Int) (ngens : Nat) (i_c : Int) :
    Nat → Int → Int → RelTable → Except Err (Int × Int × RelTable)
  | 0, s_i, s_c, rt => .ok (s_i, s_c, rt)
  | d + 1, s_i, s_c, rt =>
    match rd table ((rt.gens s_i : Int) + s_c * ngens) with
    | .error e => .error e
    | .ok lookup =>
      if lookup < 0 then .ok (s_i, s_c, rt)
      else
        match prune rt lookup i_c with
        | .error e => .error e
        | .ok rt1 => scan_fwd table ngens i_c d (s_i + 1) lookup rt1

/-- The backward scan `while (s_i < e_i)`; the first argument is `e_i - s_i`. -/
def scan_bwd (table : List Int) (ngens : Nat) (i_c : Int) :
    Nat → Int → Int → RelTable → Except Err (Int × Int × RelTable)
  | 0, e_i, e_c, rt => .ok (e_i, e_c, rt)
  | d + 1, e_i, e_c, rt =>
    match rd table ((rt.gens e_i : Int) + e_c * ngens) with
    | .error e => .error e
    | .ok lookup =>
      if lookup < 0 then .ok (e_i, e_c, rt)
      else
        match prune rt lookup i_c with
        | .error e => .error e
        | .ok rt1 => scan_bwd table ngens i_c d (e_i - 1) lookup rt1

/-- The closure `if (s_i == e_i)` of the row loop of `learn`: the two writes
to the coset table and `rem_row(c)`. -/
def close_row (ngens : Nat) (ct : CosetTable) (rt : RelTable) (c : Nat)
    (s_i s_c e_c : Int) : Except Err (CosetTable × RelTable) := do
  let g := rt.gens s_i
  let ct1 ← ct.set (s_c * ngens + g) e_c
  let ct2 ← ct1.set (e_c * ngens + g) s_c
  let rt1 ← rt.rem_row c
  .ok (ct2, rt1)

/-- One iteration of the row loop of `learn` at row `c`: the coset table, the
relation table and whether the row was closed (and `rem_row(c)` called). The
write-backs `start_inds[c] = s_i` .. `end_cosets[c] = e_c` and `rem_row(c)` use
the index `c` as it is, also when the pruning of the two scans has lowered
`num_rows` to `c` or below. -/
def learn_row (ngens : Nat) (ct : CosetTable) (rt : RelTable) (c : Nat) :
    Except Err (CosetTable × RelTable × Bool) := do
  let s_i ← rd rt.start_inds c
  let e_i ← rd rt.end_inds c
  let s_c ← rd rt.start_cosets c
  let e_c ← rd rt.end_cosets c
  let i_c ← rd rt.init_cosets c
  let (s_i, s_c, rt) ← scan_fwd ct.table ngens i_c (e_i - s_i).toNat s_i s_c rt
  let si ← wr rt.start_inds c s_i
  let sc ← wr rt.start_cosets c s_c
  let rt := { rt with
    start_inds := si, start_cosets := sc,
    stale := if c < rt.num_rows then rt.stale else rt.stale + 2 }
  let (e_i, e_c, rt) ← scan_bwd ct.table ngens i_c (e_i - s_i).toNat e_i e_c rt
  let ei ← wr rt.end_inds c e_i
  let ec ← wr rt.end_cosets c e_c
  let rt := { rt with
    end_inds := ei, end_cosets := ec,
    stale := if c < rt.num_rows then rt.stale else rt.stale + 2 }
  if s_i = e_i then
    let (ct1, rt1) ← close_row ngens ct rt c s_i s_c e_c
    .ok (ct1, rt1, true)
  else .ok (ct, rt, false)

/-- The row loop `for (c = 0; c < table.num_rows; c++)` of `learn`, from row
`c` on. Every iteration lowers `num_rows - c`; the first argument bounds the
number of iterations. -/
def learn_rows (ngens : Nat) : Nat → Nat → CosetTable → RelTable →
    Except Err (CosetTable × RelTable)
  | 0, c, ct, rt => if c < rt.num_rows then .error .fuel else .ok (ct, rt)
  | k + 1, c, ct, rt =>
    if c < rt.num_rows then
      match learn_row ngens ct rt c with
      | .error e => .error e
      | .ok (ct1, rt1, closed) =>
        learn_rows ngens k (if closed then c else c + 1) ct1 rt1
    else .ok (ct, rt)

/-- The body of the relation loop of `learn` for relation `r`. -/
def learn_rel (cox : Coxeter) (st : State) (r : Nat) : Except Err State :=
  match st.reltables[r]? with
  | none => .error .oob
  | some rt =>
    match learn_rows cox.ngens rt.num_rows 0 st.cosets rt with
    | .error e => .error e
    | .ok (ct1, rt1) => .ok { cosets := ct1, reltables := st.reltables.set r rt1 }

/-- The relation loop of `learn`, visiting the relations in the given order. -/
def learn_order (cox : Coxeter) : List Nat → State → Except Err State
  | [], st => .ok st
  | r :: rs, st =>
    match learn_rel cox st r with
    | .error e => .error e
    | .ok st1 => learn_order cox rs st1

/-- `learn(cox, cosets, reltables)`: relations `r = 0 .. nrels-1` in order. The
loop counter `r` is `unsigned`, so `r < nrels` compares it with `nrels` modulo
`2^32`. -/
def learn (cox : Coxeter) (st : State) : Except Err State :=
  learn_order cox (List.range (cox.nrels % 4294967296).toNat) st

/-! ## Driver -/

/-- The loop of `solve_tc` building `reltables` from the slots `i, i+1, ...`;
`cox.size[i]-1` is an `int` expression. -/
def make_reltables (cox : Coxeter) : Nat → Nat → Except Err (List RelTable)
  | 0, _ => .ok []
  | k + 1, i =>
    match cox.gen0[i]?, cox.gen1[i]?, cox.size[i]? with
    | some a, some b, some s =>
      match make_reltables cox k (i + 1) with
      | .error e => .error e
      | .ok rts => .ok (RelTable.mk0 a b (wrap32 (s - 1)) :: rts)
    | _, _, _ => .error .oob

/-- The loop `for (gen : subgens) cosets[gen] = 0;`. -/
def set_subgens : List Nat → CosetTable → Except Err CosetTable
  | [], ct => .ok ct
  | gen :: rest, ct =>
    match ct.set gen 0 with
    | .error e => .error e
    | .ok ct1 => set_subgens rest ct1

/-- The state of `solve_tc` when it enters its main loop: the relation tables
of the loop `for (int i = 0; i < cox.nrels; i++)`, the first coset and the
subgroup entries. -/
def init_state (cox : Coxeter) (subgens : List Nat) : Except Err State :=
  match make_reltables cox cox.nrels.toNat 0 with
  | .error e => .error e
  | .ok rts =>
    let st := add_row { cosets := ⟨[], 0, cox.ngens, 0⟩, reltables := rts }
    match set_subgens subgens st.cosets with
    | .error e => .error e
    | .ok ct => .ok { st with cosets := ct }

/-- The main loop `while (coset_scan_hint >= 0)` of `solve_tc`, at most `fuel`
iterations. -/
def solve_loop (cox : Coxeter) : Nat → State → Nat → Except Err State
  | 0, _, _ => .error .fuel
  | fuel + 1, st, coset_scan_hint =>
    match learn cox st with
    | .error e => .error e
    | .ok st1 =>
      match add_coset cox st1 coset_scan_hint with
      | .error e => .error e
      | .ok (h, st2) =>
        if h ≥ 0 then solve_loop cox fuel st2 h.toNat else .ok st2

/-- The state in which `solve_tc` leaves its main loop. -/
def solve_state (fuel : Nat) (cox : Coxeter) (subgens : List Nat) : Except Err State :=
  match init_state cox subgens with
  | .error e => .error e
  | .ok st => solve_loop cox fuel st 0

/-- `solve_tc(cox, subgens)`, with at most `fuel` iterations of its loop. -/
def solve_tc (fuel : Nat) (cox : Coxeter) (subgens : List Nat) : Except Err CosetTable :=
  match solve_state fuel cox subgens with
  | .error e => .error e
  | .ok st => .ok st.cosets

/-- One iteration of the main loop of `solve_tc`: `learn`, then `add_coset`. -/
def loop_body (cox : Coxeter) (st : State) (coset_scan_hint : Nat) :
    Except Err (Int × State) :=
  match learn cox st with
  | .error e => .error e
  | .ok st1 => add_coset cox st1 coset_scan_hint

/-- At most `k` iterations of `while (coset_scan_hint >= 0)`, from the hint `h`
and the state `st`: the hint and the state they end in. -/
def iterate_loop (cox : Coxeter) : Nat → Int → State → Except Err (Int × State)
  | 0, h, st => .ok (h, st)
  | k + 1, h, st =>
    if h ≥ 0 then
      match loop_body cox st h.toNat with
      | .error e => .error e
      | .ok (h1, st1) => iterate_loop cox k h1 st1
    else .ok (h, st)

/-- The main loop of `solve_tc` taken up again, with `fuel` iterations left,
after a partial run. -/
def resume (cox : Coxeter) (fuel : Nat) : Except Err (Int × State) → Except Err State
  | .error e => .error e
  | .ok (h, st) => if h ≥ 0 then solve_loop cox fuel st h.toNat else .ok st

/-- Entry `T[c, g]` of a coset table (`-1` also outside the table). -/
def CosetTable.entry (ct : CosetTable) (c g : Nat) : Int :=
  ct.table.getD (c * ct.ngens + g) (-1)

/-- `T[c, g]` for an integer row `c`; `-1` when `c` is not a row. -/
def CosetTable.get (ct : CosetTable) (c : Int) (g : Nat) : Int :=
  if c < 0 then -1 else ct.entry c.toNat g

/-- Apply the letters `i, i+1, ..., i+k-1` of the alternating word `a b a b ...`
to `c` through the table: `c ← T[c, w_i]`, where `w_i` is `a` for even `i` and
`b` for odd `i`. -/
def apply_word (ct : CosetTable) (a b : Nat) : Nat → Nat → Int → Int
  | 0, _, c => c
  | k + 1, i, c => apply_word ct a b k (i + 1) (ct.get c (if i % 2 = 0 then a else b))

/-- A state on which `add_coset` is exercised: two cosets, two generators, one
relation table. -/
def sample_state : State :=
  { cosets := ⟨[1, -1, 0, -1], 2, 2, 0⟩
    reltables := [⟨[0, 1], [0, 1], [0, 1], [0, 1], [0, 0], [3, 3], 2, 0, 1, 3, 0⟩] }

/-- The defined entries of a table form an involution for every generator:
`T[c, g] = v` with `v` defined implies `T[v, g] = c`. -/
def Involutive (ct : CosetTable) : Prop :=
  ∀ (c g : Nat) (v : Int), g < ct.ngens → ct.table[c * ct.ngens + g]? = some v → 0 ≤ v →
    ct.table[v.toNat * ct.ngens + g]? = some (c : Int)

/-! ## Invariants -/

/-- Row invariant of a relation table: the frontier cosets stored in its scan
rows are nonnegative, and its two generators satisfy `G`. -/
def RelTable.RowsOk (G : Nat → Prop) (rt : RelTable) : Prop :=
  (∀ x ∈ rt.start_cosets, 0 ≤ x) ∧ (∀ x ∈ rt.end_cosets, 0 ≤ x) ∧ G rt.gen0 ∧ G rt.gen1

/-- The effect of a pass of `learn` on the coset table: a sequence of
closures, each writing `T[x, g] = y` and `T[y, g] = x` for nonnegative `x`, `y`
and a generator `g` satisfying `G`. -/
inductive Closes (G : Nat → Prop) (ngens : Nat) : CosetTable → CosetTable → Prop
  | refl (ct : CosetTable) : Closes G ngens ct ct
  | step {ct ct1 ct2 ct3 : CosetTable} (x y : Int) (g : Nat) :
      Closes G ngens ct ct1 → 0 ≤ x → 0 ≤ y → G g →
      ct1.set (x * ngens + g) y = .ok ct2 → ct2.set (y * ngens + g) x = .ok ct3 →
      Closes G ngens ct ct3

/-- The row invariant for every relation table of a state. -/
def State.RowsOk (G : Nat → Prop) (st : State) : Prop :=
  ∀ rt ∈ st.reltables, rt.RowsOk G

/-- Slot `i` of a table holds a defined entry. -/
def Defined (t : List Int) (i : Nat) : Prop :=
  ∃ v, t[i]? = some v ∧ v ≠ -1

/-- Shape of a coset table: `num_cosets` rows of `ngens` entries, each entry
undefined or a coset index. -/
def CosetTable.WF (ct : CosetTable) : Prop :=
  ct.table.length = ct.num_cosets * ct.ngens ∧
    ∀ v ∈ ct.table, v = -1 ∨ (0 ≤ v ∧ v < (ct.num_cosets : Int))

/-- The invariant of the main loop of `solve_tc`: the table has the right
shape, the rows of the relation tables hold nonnegative cosets and generators
satisfying `G`, and every row of the coset table below the scan hint is fully
defined. -/
structure Inv (G : Nat → Prop) (cox : Coxeter) (st : State) (hint : Nat) : Prop where
  ngens_eq : st.cosets.ngens = cox.ngens
  wf : st.cosets.WF
  rows : st.RowsOk G
  below : ∀ i < hint * cox.ngens, Defined st.cosets.table i

/-- The table `ct1` comes from `ct` by writes; if its history counter is zero,
no write changed a defined entry of `ct`. -/
def Keeps (ct ct1 : CosetTable) : Prop :=
  ct.overwrites ≤ ct1.overwrites ∧
    (ct1.overwrites = 0 →
      ∀ (i : Nat) (v : Int), ct.table[i]? = some v → v ≠ -1 → ct1.table[i]? = some v)

/-- The table `ct1` extends `ct`: same row width, and every defined entry of
`ct` is the same in `ct1`. -/
def Ext (ct ct1 : CosetTable) : Prop :=
  ct1.ngens = ct.ngens ∧
    ∀ (c : Int) (g : Nat), g < ct.ngens → 0 ≤ ct.get c g → ct1.get c g = ct.get c g

/-- The coset `y` is reached from `x` through defined entries of the
generators `a` and `b`. -/
inductive Conn (ct : CosetTable) (a b : Nat) : Int → Int → Prop
  | refl (x : Int) : Conn ct a b x x
  | first {x y : Int} : Conn ct a b x y → 0 ≤ ct.get y a → Conn ct a b x (ct.get y a)
  | second {x y : Int} : Conn ct a b x y → 0 ≤ ct.get y b → Conn ct a b x (ct.get y b)

/-- Scan row `k < num_rows` of a relation table:
`(init, start_index, start_coset, end_index, end_coset)`. -/
def RelTable.row (rt : RelTable) (k : Nat) : Option (Int × Int × Int × Int × Int) :=
  if k < rt.num_rows then
    match rt.init_cosets[k]?, rt.start_inds[k]?, rt.start_cosets[k]?, rt.end_inds[k]?,
      rt.end_cosets[k]? with
    | some i, some s_i, some s_c, some e_i, some e_c => some (i, s_i, s_c, e_i, e_c)
    | _, _, _, _, _ => none
  else none

/-- The five row arrays of a relation table hold their `num_rows` entries: each
has at least `num_rows` slots. -/
structure RelTable.Lens (rt : RelTable) : Prop where
  init : rt.num_rows ≤ rt.init_cosets.length
  si : rt.num_rows ≤ rt.start_inds.length
  sc : rt.num_rows ≤ rt.start_cosets.length
  ei : rt.num_rows ≤ rt.end_inds.length
  ec : rt.num_rows ≤ rt.end_cosets.length

/-- The state after the first call of `learn` on the second state of the run
of `solve_tc` on three generators, all multiplicities 2, modulo the generators
0 and 1. -/
def unscanned_state : State :=
  { cosets := ⟨[0, 0, 1, 1, 1, 0], 2, 3, 0⟩
    reltables :=
      [⟨[-1, 0], [1], [1], [1], [0], [3], 1, 0, 1, 3, 0⟩,
       ⟨[-1, -1], [0, 1], [1, 1], [1, 1], [2, 0], [2, 3], 0, 0, 2, 3, 0⟩,
       ⟨[-1, -1], [0, 1], [1, 1], [1, 1], [2, 0], [2, 3], 0, 1, 2, 3, 0⟩] }

/-- A state with three cosets and one relation table, `(0, 1, 4)`: the scan
row of coset 2 is row 0 and the scan row of coset 1 is row 1, the last. -/
def stale_state : State :=
  { cosets := ⟨[-1, -1, 2, -1, 1, -1], 3, 2, 0⟩
    reltables := [⟨[-1, 1, 0], [2, 1], [2, 1], [2, 1], [0, 0], [3, 3], 2, 0, 1, 3, 0⟩] }

/-! ## Scan rows, side index and sample tables -/

/-- The side index of a relation table is exact: `coset_poss[c] = k` holds
exactly when scan row `k` (`k < num_rows`) has `init = c`, and
`coset_poss[c] = -1` when no scan row has `init = c`. -/
structure RelTable.Exact (rt : RelTable) : Prop where
  lens : rt.Lens
  init_nonneg : ∀ (k : Nat) (x : Int), k < rt.num_rows → rt.init_cosets[k]? = some x → 0 ≤ x
  pos : ∀ (c k : Nat),
    rt.coset_poss[c]? = some (k : Int) ↔
      (k < rt.num_rows ∧ rt.init_cosets[k]? = some (c : Int))
  absent : ∀ c : Nat, c < rt.coset_poss.length →
    (∀ k : Nat, k < rt.num_rows → rt.init_cosets[k]? ≠ some (c : Int)) →
    rt.coset_poss[c]? = some (-1)

/-- A relation table for one coset, which has no scan row. -/
def closed_table : RelTable := ⟨[-1], [], [], [], [], [], 0, 0, 1, 3, 0⟩

/-- A relation table with three scan rows, for the cosets 0, 1 and 2. -/
def three_rows : RelTable :=
  ⟨[0, 1, 2], [0, 1, 2], [0, 1, 2], [0, 1, 2], [0, 0, 0], [3, 3, 3], 3, 0, 1, 3, 0⟩

/-- A complete table of two cosets and two generators: generator 0 fixes both
cosets, generator 1 exchanges them. -/
def swap_table : CosetTable := ⟨[0, 1, 1, 0], 2, 2, 0⟩

/-- A relation table for the relation `(0, 1, 6)` whose only scan row, of coset
0, has reached coset 1 from both ends and stands at letter 3 on both sides. -/
def meeting_row : RelTable := ⟨[0, -1], [0], [1], [1], [3], [3], 1, 0, 1, 5, 0⟩

/-- A table of two cosets in which generator 0 exchanges them and generator 1
is UNDEFINED. -/
def half_table : CosetTable := ⟨[1, -1, 0, -1], 2, 2, 0⟩

/-- A relation table for the relation `(0, 1, 2)` whose only scan row, of coset
0, has followed letter 0 to coset 1 and stands at letter 1 on both sides. -/
def last_letter_row : RelTable := ⟨[0, -1], [0], [1], [0], [1], [1], 1, 0, 1, 1, 0⟩

/-- A relation table is well formed for a coset table of `C` rows and `ngens`
columns: the row arrays hold the scan rows, the side index is exact and has one
entry per coset, the two generators are columns of the table, and the frontier
cosets of the scan rows are cosets. -/
structure RelTable.WellFormed (C ngens : Nat) (rt : RelTable) : Prop where
  exact : rt.Exact
  poss_len : rt.coset_poss.length = C
  ga : rt.gen0 < ngens
  gb : rt.gen1 < ngens
  cosets : ∀ k r, rt.row k = some r →
    0 ≤ r.2.2.1 ∧ r.2.2.1 < (C : Int) ∧ 0 ≤ r.2.2.2.2 ∧ r.2.2.2.2 < (C : Int)

/-- A well-formed state for `learn`: the coset table has `num_cosets` rows of
`ngens` entries, each `-1` or a coset index; there is a relation table for each
relation that `learn` visits; and every relation table is well formed. -/
structure WellFormed (cox : Coxeter) (st : State) : Prop where
  ngens_eq : st.cosets.ngens = cox.ngens
  wf : st.cosets.WF
  nrels : (cox.nrels % 4294967296).toNat ≤ st.reltables.length
  rts : ∀ rt ∈ st.reltables, rt.WellFormed st.cosets.num_cosets st.cosets.ngens

/-- What the pruning steps of one scan leave of a well-formed relation table:
a well-formed table with the same generators and the same slots in its row
arrays, in which the scan row of `i_c` is still a row, at its index as long as
that index is below `num_rows`, and the slot that held `i_c` still holds it. -/
structure Scanned (C ngens : Nat) (i_c : Int) (rt rt1 : RelTable) : Prop where
  wf : rt1.WellFormed C ngens
  g0 : rt1.gen0 = rt.gen0
  g1 : rt1.gen1 = rt.gen1
  e : rt1.end_ind = rt.end_ind
  le : rt1.num_rows ≤ rt.num_rows
  stay : ∀ c r, c < rt1.num_rows → rt.row c = some r → r.1 = i_c → rt1.row c = some r
  has : (∃ k, k < rt.num_rows ∧ rt.init_cosets[k]? = some i_c) →
    ∃ k, k < rt1.num_rows ∧ rt1.init_cosets[k]? = some i_c
  buf : ∀ c : Nat, rt.init_cosets[c]? = some i_c → rt1.init_cosets[c]? = some i_c
  len_init : rt1.init_cosets.length = rt.init_cosets.length
  len_si : rt1.start_inds.length = rt.start_inds.length
  len_sc : rt1.start_cosets.length = rt.start_cosets.length
  len_ei : rt1.end_inds.length = rt.end_inds.length
  len_ec : rt1.end_cosets.length = rt.end_cosets.length

/-- A table of three cosets in which generator 0 exchanges the cosets 0 and 1
and nothing else is defined. -/
def one_edge_table : CosetTable := ⟨[1, -1, 0, -1, -1, -1], 3, 2, 0⟩

/-! ## States of concrete runs -/

/-- The state of the run of `solve_tc` on `hypercube(3)` after 0 iterations of its loop. -/
def hypercube3_state_0 : State :=
  { cosets := ⟨[-1, -1, -1],
      1, 3, 0⟩
    reltables := [
      ⟨[0],
        [0],
        [0],
        [0],
        [0],
        [7],
        1, 0, 1, 7, 0⟩,
      ⟨[0],
        [0],
        [0],
        [0],
        [0],
        [3],
        1, 0, 2, 3, 0⟩,
      ⟨[0],
        [0],
        [0],
        [0],
        [0],
        [5],
        1, 1, 2, 5, 0⟩] }

/-- The state of the run of `solve_tc` on `hypercube(3)` after 4 iterations of its loop. -/
def hypercube3_state_4 : State :=
  { cosets := ⟨[1, 2, 3, 0, 4, -1, -1, 0, -1, -1, -1, 0, -1, 1, -1],
      5, 3, 0⟩
    reltables := [
      ⟨[0, -1, -1, 1, 2],
        [0, 3, 4],
        [1, 3, 4],
        [2, 3, 4],
        [1, 0, 0],
        [6, 7, 7],
        3, 0, 1, 7, 0⟩,
      ⟨[0, -1, 1, -1, 2],
        [0, 2, 4],
        [1, 2, 4],
        [3, 2, 4],
        [1, 0, 0],
        [2, 3, 3],
        3, 0, 2, 3, 0⟩,
      ⟨[0, 1, -1, -1, 2],
        [0, 1, 4],
        [2, 1, 4],
        [3, 1, 4],
        [1, 0, 0],
        [4, 5, 5],
        3, 1, 2, 5, 0⟩] }

/-- The state of the run of `solve_tc` on `hypercube(3)` after 8 iterations of its loop. -/
def hypercube3_state_8 : State :=
  { cosets := ⟨[1, 2, 3, 0, 4, 5, 6, 0, 7, 5, 8, 0, -1, 1, -1, 3, -1, 1, 2, -1, -1, -1, -1, 2, -1, 3, -1],
      9, 3, 0⟩
    reltables := [
      ⟨[0, -1, -1, 1, -1, -1, -1, 2, 3],
        [0, 3, 7, 8],
        [4, 5, 7, 8],
        [6, 3, 7, 8],
        [2, 1, 0, 0],
        [5, 7, 7, 7],
        4, 0, 1, 7, 0⟩,
      ⟨[-1, -1, 1, -1, 0, -1, -1, -1, 2],
        [4, 2, 8, 5],
        [4, 6, 8, 5],
        [4, 7, 8, 5],
        [0, 1, 0, 0],
        [3, 2, 3, 3],
        3, 0, 2, 3, 0⟩,
      ⟨[0, 1, -1, -1, -1, -1, 2, -1, 3],
        [0, 1, 6, 8],
        [7, 4, 6, 8],
        [3, 5, 6, 8],
        [2, 1, 0, 0],
        [4, 4, 5, 5],
        4, 1, 2, 5, 0⟩] }

/-- The state of the run of `solve_tc` on `hypercube(3)` after 12 iterations of its loop. -/
def hypercube3_state_12 : State :=
  { cosets := ⟨[1, 2, 3, 0, 4, 5, 6, 0, 7, 5, 8, 0, 9, 1, 10, 3, 11, 1, 2, 12, -1, -1, -1, 2, -1, 3, -1,
    4, -1, -1, -1, -1, 4, -1, 5, -1, -1, 6, -1],
      13, 3, 0⟩
    reltables := [
      ⟨[0, -1, -1, 1, -1, -1, -1, 2, -1, -1, 3, -1, 4],
        [0, 3, 7, 10, 12],
        [9, 11, 7, 10, 12],
        [6, 8, 7, 10, 12],
        [3, 2, 0, 0, 0],
        [5, 6, 7, 7, 7],
        5, 0, 1, 7, 0⟩,
      ⟨[-1, -1, 1, -1, 0, -1, -1, -1, 2, -1, -1, 3, 4],
        [4, 2, 8, 11, 12],
        [9, 6, 8, 11, 12],
        [10, 7, 8, 11, 12],
        [1, 1, 0, 0, 0],
        [2, 2, 3, 3, 3],
        5, 0, 2, 3, 0⟩,
      ⟨[0, 1, -1, -1, -1, -1, 2, -1, -1, 3, -1, -1, 4],
        [0, 1, 6, 9, 12],
        [7, 10, 6, 9, 12],
        [8, 11, 6, 9, 12],
        [2, 2, 0, 0, 0],
        [3, 3, 5, 5, 5],
        5, 1, 2, 5, 0⟩] }

/-- The state of the run of `solve_tc` on `hypercube(3)` after 16 iterations of its loop. -/
def hypercube3_state_16 : State :=
  { cosets := ⟨[1, 2, 3, 0, 4, 5, 6, 0, 7, 5, 8, 0, 9, 1, 10, 3, 11, 1, 2, 12, 13, 13, 14, 2, 15, 3, 14,
    4, 16, -1, -1, -1, 4, -1, 5, -1, -1, 6, -1, 7, -1, 6, -1, 7, 8, 8, -1, -1, -1, 9, -1],
      17, 3, 0⟩
    reltables := [
      ⟨[0, -1, -1, 1, -1, -1, -1, 2, -1, -1, 3, -1, -1, -1, -1, -1, 4],
        [0, 3, 7, 10, 16, 14],
        [9, 11, 13, 10, 16, 14],
        [12, 15, 14, 10, 16, 14],
        [3, 2, 1, 0, 0, 0],
        [4, 5, 6, 7, 7, 7],
        5, 0, 1, 7, 0⟩,
      ⟨[-1, -1, -1, -1, 0, -1, -1, -1, 2, -1, -1, 3, 1, -1, -1, -1, 4],
        [4, 12, 8, 11, 16, 15],
        [9, 12, 15, 11, 16, 15],
        [10, 12, 14, 11, 16, 15],
        [1, 0, 1, 0, 0, 0],
        [2, 3, 2, 3, 3, 3],
        5, 0, 2, 3, 0⟩,
      ⟨[-1, 1, -1, -1, -1, -1, 2, -1, -1, 0, -1, -1, -1, -1, -1, 3, 4],
        [9, 1, 6, 15, 16],
        [9, 10, 12, 15, 16],
        [9, 11, 13, 15, 16],
        [0, 2, 1, 0, 0],
        [5, 3, 4, 5, 5],
        5, 1, 2, 5, 0⟩] }

/-- The state of the run of `solve_tc` on `hypercube(3)` after 20 iterations of its loop. -/
def hypercube3_state_20 : State :=
  { cosets := ⟨[1, 2, 3, 0, 4, 5, 6, 0, 7, 5, 8, 0, 9, 1, 10, 3, 11, 1, 2, 12, 13, 13, 14, 2, 15, 3, 14,
    4, 16, 17, 17, 18, 4, 19, 5, 18, 16, 6, 20, 7, -1, 6, -1, 7, 8, 8, -1, -1, 12, 9, -1,
    10, -1, 9, -1, 10, 11, 11, -1, -1, -1, -1, 12],
      21, 3, 0⟩
    reltables := [
      ⟨[-1, -1, -1, 1, -1, -1, -1, 2, -1, -1, 0, -1, -1, -1, -1, -1, -1, -1, -1, -1, 3],
        [10, 3, 7, 20, 18, 14],
        [17, 19, 13, 20, 18, 14],
        [18, 15, 14, 20, 18, 14],
        [1, 3, 1, 0, 0, 0],
        [6, 5, 6, 7, 7, 7],
        4, 0, 1, 7, 0⟩,
      ⟨[-1, -1, -1, -1, -1, -1, -1, -1, 2, -1, -1, 0, 1, -1, -1, -1, -1, -1, -1, -1, 3],
        [11, 12, 8, 20, 19, 15],
        [19, 16, 15, 20, 19, 15],
        [18, 12, 14, 20, 19, 15],
        [1, 1, 1, 0, 0, 0],
        [2, 3, 2, 3, 3, 3],
        4, 0, 2, 3, 0⟩,
      ⟨[-1, -1, -1, -1, -1, -1, 2, -1, -1, 0, -1, -1, -1, -1, -1, 1, -1, -1, -1, 3, 4],
        [9, 15, 6, 19, 20],
        [16, 15, 12, 19, 20],
        [17, 15, 13, 19, 20],
        [1, 0, 1, 0, 0],
        [4, 5, 4, 5, 5],
        5, 1, 2, 5, 0⟩] }

/-- The state of the run of `solve_tc` on `hypercube(3)` after 24 iterations of its loop. -/
def hypercube3_state_24 : State :=
  { cosets := ⟨[1, 2, 3, 0, 4, 5, 6, 0, 7, 5, 8, 0, 9, 1, 10, 3, 11, 1, 2, 12, 13, 13, 14, 2, 15, 3, 14,
    4, 16, 17, 17, 18, 4, 19, 5, 18, 16, 6, 20, 7, 21, 6, 22, 7, 8, 8, 23, 22, 12, 9, 24,
    10, -1, 9, -1, 10, 11, 11, -1, -1, -1, -1, 12, -1, 13, -1, 14, -1, 15, -1, 15, -1,
    -1, -1, 16],
      25, 3, 0⟩
    reltables := [
      ⟨[-1, -1, -1, 1, -1, -1, -1, 2, -1, -1, 0, -1, -1, -1, -1, -1, -1, -1, -1, -1, 3, -1, -1,
        -1, 4],
        [10, 3, 7, 20, 24, 14],
        [17, 19, 21, 20, 24, 14],
        [18, 23, 22, 20, 24, 14],
        [1, 3, 2, 0, 0, 0],
        [6, 4, 5, 7, 7, 7],
        5, 0, 1, 7, 0⟩,
      ⟨[-1, -1, -1, -1, -1, -1, -1, -1, -1, -1, -1, 0, 1, -1, -1, -1, -1, -1, -1, -1, -1, 2, -1,
        3, 4],
        [11, 12, 21, 23, 24, 15],
        [19, 16, 21, 23, 24, 15],
        [18, 20, 21, 23, 24, 15],
        [1, 1, 0, 0, 0, 0],
        [2, 2, 3, 3, 3, 3],
        5, 0, 2, 3, 0⟩,
      ⟨[-1, -1, -1, -1, -1, -1, 2, -1, -1, 0, -1, -1, -1, -1, -1, 1, -1, -1, -1, 3, -1, -1, -1,
        -1, 4],
        [9, 15, 6, 19, 24],
        [16, 23, 20, 19, 24],
        [17, 22, 21, 19, 24],
        [1, 1, 2, 0, 0],
        [4, 4, 3, 5, 5],
        5, 1, 2, 5, 0⟩] }

/-- The state of the run of `solve_tc` on `hypercube(3)` after 28 iterations of its loop. -/
def hypercube3_state_28 : State :=
  { cosets := ⟨[1, 2, 3, 0, 4, 5, 6, 0, 7, 5, 8, 0, 9, 1, 10, 3, 11, 1, 2, 12, 13, 13, 14, 2, 15, 3, 14,
    4, 16, 17, 17, 18, 4, 19, 5, 18, 16, 6, 20, 7, 21, 6, 22, 7, 8, 8, 23, 22, 12, 9, 24,
    10, 25, 9, 26, 10, 11, 11, 27, 26, 24, 28, 12, -1, 13, -1, 14, -1, 15, 27, 15, -1,
    20, -1, 16, -1, 17, -1, 18, -1, 19, 23, 19, -1, -1, 20, -1],
      29, 3, 0⟩
    reltables := [
      ⟨[-1, -1, -1, -1, -1, -1, -1, 2, -1, -1, 0, -1, -1, -1, -1, -1, -1, -1, -1, -1, 1, -1, -1,
        -1, -1, -1, -1, -1, 3],
        [10, 20, 7, 28, 27, 25],
        [25, 24, 21, 28, 27, 25],
        [26, 20, 22, 28, 27, 25],
        [2, 1, 2, 0, 0, 0],
        [5, 7, 5, 7, 7, 7],
        4, 0, 1, 7, 0⟩,
      ⟨[-1, -1, -1, -1, -1, -1, -1, -1, -1, -1, -1, -1, -1, -1, -1, -1, -1, -1, -1, -1, -1, 2,
        -1, 1, -1, 0, -1, -1, 3],
        [25, 23, 21, 28, 26, 15],
        [25, 27, 21, 28, 26, 15],
        [25, 23, 21, 28, 26, 15],
        [0, 1, 0, 0, 0, 0],
        [3, 3, 3, 3, 3, 3],
        4, 0, 2, 3, 0⟩,
      ⟨[-1, -1, -1, -1, -1, -1, 2, -1, -1, 0, -1, -1, -1, -1, -1, 1, -1, -1, -1, 3, -1, -1, -1,
        -1, -1, -1, -1, -1, 4],
        [9, 15, 6, 19, 28],
        [24, 23, 20, 27, 28],
        [25, 22, 21, 26, 28],
        [2, 1, 2, 1, 0],
        [3, 4, 3, 4, 5],
        5, 1, 2, 5, 0⟩] }

/-- The state of the run of `solve_tc` on `hypercube(3)` after 32 iterations of its loop. -/
def hypercube3_state_32 : State :=
  { cosets := ⟨[1, 2, 3, 0, 4, 5, 6, 0, 7, 5, 8, 0, 9, 1, 10, 3, 11, 1, 2, 12, 13, 13, 14, 2, 15, 3, 14,
    4, 16, 17, 17, 18, 4, 19, 5, 18, 16, 6, 20, 7, 21, 6, 22, 7, 8, 8, 23, 22, 12, 9, 24,
    10, 25, 9, 26, 10, 11, 11, 27, 26, 24, 28, 12, 29, 13, 28, 14, 30, 15, 27, 15, 31,
    20, 32, 16, -1, 17, -1, 18, -1, 19, 23, 19, -1, -1, 20, 21, 21, -1, -1, -1, 22, -1,
    -1, -1, 23, -1, 24, -1],
      33, 3, 0⟩
    reltables := [
      ⟨[-1, -1, -1, -1, -1, -1, -1, 2, -1, -1, 0, -1, -1, -1, -1, -1, -1, -1, -1, -1, 1, -1, -1,
        -1, -1, -1, -1, -1, -1, -1, -1, 3, 4],
        [10, 20, 7, 31, 32, 25],
        [25, 24, 29, 31, 32, 25],
        [26, 28, 30, 31, 32, 25],
        [2, 1, 3, 0, 0, 0],
        [5, 6, 4, 7, 7, 7],
        5, 0, 1, 7, 0⟩,
      ⟨[-1, -1, -1, -1, -1, -1, -1, -1, -1, -1, -1, -1, -1, -1, -1, -1, -1, -1, -1, -1, -1, 2,
        -1, 1, -1, 0, -1, -1, -1, -1, 3, -1, 4],
        [25, 23, 21, 30, 32, 15],
        [25, 27, 29, 30, 32, 15],
        [25, 31, 28, 30, 32, 15],
        [0, 1, 1, 0, 0, 0],
        [3, 2, 2, 3, 3, 3],
        5, 0, 2, 3, 0⟩,
      ⟨[-1, -1, -1, -1, -1, -1, -1, -1, -1, 0, -1, -1, -1, -1, -1, 1, -1, -1, -1, 2, -1, -1, -1,
        -1, -1, -1, -1, -1, -1, 3, -1, -1, 4],
        [9, 15, 19, 29, 32],
        [24, 31, 27, 29, 32],
        [25, 30, 26, 29, 32],
        [2, 2, 1, 0, 0],
        [3, 3, 4, 5, 5],
        5, 1, 2, 5, 0⟩] }

/-- The state of the run of `solve_tc` on `hypercube(3)` after 36 iterations of its loop. -/
def hypercube3_state_36 : State :=
  { cosets := ⟨[1, 2, 3, 0, 4, 5, 6, 0, 7, 5, 8, 0, 9, 1, 10, 3, 11, 1, 2, 12, 13, 13, 14, 2, 15, 3, 14,
    4, 16, 17, 17, 18, 4, 19, 5, 18, 16, 6, 20, 7, 21, 6, 22, 7, 8, 8, 23, 22, 12, 9, 24,
    10, 25, 9, 26, 10, 11, 11, 27, 26, 24, 28, 12, 29, 13, 28, 14, 30, 15, 27, 15, 31,
    20, 32, 16, 33, 17, 32, 18, 34, 19, 23, 19, 35, 36, 20, 21, 21, -1, -1, -1, 22, -1,
    35, -1, 23, -1, 24, 25, 25, -1, -1, -1, 26, -1, 31, -1, 27, 28, -1, -1],
      37, 3, 0⟩
    reltables := [
      ⟨[-1, -1, -1, -1, -1, -1, -1, 2, -1, -1, 0, -1, -1, -1, -1, -1, -1, -1, -1, -1, 1, -1, -1,
        -1, -1, -1, -1, -1, -1, -1, -1, 3, -1, -1, -1, 4, 5],
        [10, 20, 7, 31, 35, 36],
        [33, 32, 29, 31, 35, 36],
        [34, 28, 30, 31, 35, 36],
        [3, 2, 3, 0, 0, 0],
        [4, 6, 4, 7, 7, 7],
        6, 0, 1, 7, 0⟩,
      ⟨[-1, -1, -1, -1, -1, -1, -1, -1, -1, -1, -1, -1, -1, -1, -1, -1, -1, -1, -1, -1, -1, 2,
        -1, -1, -1, 0, -1, -1, -1, -1, 3, -1, -1, -1, 1, -1, 4],
        [25, 34, 21, 30, 36, 35],
        [33, 34, 29, 30, 36, 35],
        [32, 34, 28, 30, 36, 35],
        [1, 0, 1, 0, 0, 0],
        [2, 3, 2, 3, 3, 3],
        5, 0, 2, 3, 0⟩,
      ⟨[-1, -1, -1, -1, -1, -1, -1, -1, -1, -1, -1, -1, -1, -1, -1, 1, -1, -1, -1, 2, -1, -1, -1,
        -1, -1, -1, -1, -1, -1, 0, -1, -1, -1, 3, -1, -1, 4],
        [29, 15, 19, 33, 36],
        [29, 31, 35, 33, 36],
        [29, 30, 34, 33, 36],
        [0, 2, 2, 0, 0],
        [5, 3, 3, 5, 5],
        5, 1, 2, 5, 0⟩] }

/-- The state of the run of `solve_tc` on `hypercube(3)` after 40 iterations of its loop. -/
def hypercube3_state_40 : State :=
  { cosets := ⟨[1, 2, 3, 0, 4, 5, 6, 0, 7, 5, 8, 0, 9, 1, 10, 3, 11, 1, 2, 12, 13, 13, 14, 2, 15, 3, 14,
    4, 16, 17, 17, 18, 4, 19, 5, 18, 16, 6, 20, 7, 21, 6, 22, 7, 8, 8, 23, 22, 12, 9, 24,
    10, 25, 9, 26, 10, 11, 11, 27, 26, 24, 28, 12, 29, 13, 28, 14, 30, 15, 27, 15, 31,
    20, 32, 16, 33, 17, 32, 18, 34, 19, 23, 19, 35, 36, 20, 21, 21, 37, 36, 37, 22, 38,
    35, 38, 23, 39, 24, 25, 25, 40, 39, -1, 26, -1, 31, -1, 27, 28, -1, 29, 30, 29, -1,
    -1, 31, 30, 32, -1, 33, -1, 33, -1],
      41, 3, 0⟩
    reltables := [
      ⟨[-1, -1, -1, -1, -1, -1, -1, -1, -1, -1, 0, -1, -1, -1, -1, -1, -1, -1, -1, -1, 1, -1, -1,
        -1, -1, -1, -1, -1, -1, -1, -1, 2, -1, -1, -1, -1, -1, -1, -1, -1, 3],
        [10, 20, 31, 40, 39, 36],
        [33, 39, 35, 40, 39, 36],
        [34, 36, 38, 40, 39, 36],
        [3, 3, 1, 0, 0, 0],
        [4, 5, 6, 7, 7, 7],
        4, 0, 1, 7, 0⟩,
      ⟨[-1, -1, -1, -1, -1, -1, -1, -1, -1, -1, -1, -1, -1, -1, -1, -1, -1, -1, -1, -1, -1, -1,
        -1, -1, -1, -1, -1, -1, -1, -1, 0, -1, -1, -1, 1, -1, -1, -1, -1, -1, 2],
        [30, 34, 40, 39, 36, 35],
        [37, 34, 40, 39, 36, 35],
        [38, 34, 40, 39, 36, 35],
        [1, 0, 0, 0, 0, 0],
        [2, 3, 3, 3, 3, 3],
        3, 0, 2, 3, 0⟩,
      ⟨[-1, -1, -1, -1, -1, -1, -1, -1, -1, -1, -1, -1, -1, -1, -1, -1, -1, -1, -1, 2, -1, -1,
        -1, -1, -1, -1, -1, -1, -1, 0, -1, -1, -1, 1, -1, -1, -1, -1, -1, -1, 3],
        [29, 33, 19, 40, 38],
        [37, 33, 35, 40, 38],
        [36, 39, 34, 40, 38],
        [1, 0, 2, 0, 0],
        [4, 4, 3, 5, 5],
        4, 1, 2, 5, 0⟩] }

/-- The state of the run of `solve_tc` on `hypercube(3)` after 44 iterations of its loop. -/
def hypercube3_state_44 : State :=
  { cosets := ⟨[1, 2, 3, 0, 4, 5, 6, 0, 7, 5, 8, 0, 9, 1, 10, 3, 11, 1, 2, 12, 13, 13, 14, 2, 15, 3, 14,
    4, 16, 17, 17, 18, 4, 19, 5, 18, 16, 6, 20, 7, 21, 6, 22, 7, 8, 8, 23, 22, 12, 9, 24,
    10, 25, 9, 26, 10, 11, 11, 27, 26, 24, 28, 12, 29, 13, 28, 14, 30, 15, 27, 15, 31,
    20, 32, 16, 33, 17, 32, 18, 34, 19, 23, 19, 35, 36, 20, 21, 21, 37, 36, 37, 22, 38,
    35, 38, 23, 39, 24, 25, 25, 40, 39, 40, 26, 41, 31, 41, 27, 28, 42, 29, 30, 29, 43,
    43, 31, 30, 32, 44, 33, 34, 33, -1, -1, 35, 34, -1, 36, -1, 38, -1, 37, -1, 39, -1],
      45, 3, 0⟩
    reltables := [
      ⟨[-1, -1, -1, -1, -1, -1, -1, -1, -1, -1, -1, -1, -1, -1, -1, -1, -1, -1, -1, -1, 1, -1,
        -1, -1, -1, -1, -1, -1, -1, -1, -1, 0, -1, -1, -1, -1, -1, -1, -1, -1, -1, -1,
        -1, 2, 3],
        [31, 20, 43, 44, 39, 36],
        [41, 39, 43, 44, 39, 36],
        [38, 42, 43, 44, 39, 36],
        [2, 3, 0, 0, 0, 0],
        [6, 4, 7, 7, 7, 7],
        4, 0, 1, 7, 0⟩,
      ⟨[-1, -1, -1, -1, -1, -1, -1, -1, -1, -1, -1, -1, -1, -1, -1, -1, -1, -1, -1, -1, -1, -1,
        -1, -1, -1, -1, -1, -1, -1, -1, -1, -1, -1, -1, 1, -1, -1, -1, -1, -1, -1, -1, 0,
        -1, 2],
        [42, 34, 44, 43, 36, 35],
        [42, 40, 44, 43, 36, 35],
        [42, 41, 44, 43, 36, 35],
        [0, 1, 0, 0, 0, 0],
        [3, 2, 3, 3, 3, 3],
        3, 0, 2, 3, 0⟩,
      ⟨[-1, -1, -1, -1, -1, -1, -1, -1, -1, -1, -1, -1, -1, -1, -1, -1, -1, -1, -1, -1, -1, -1,
        -1, -1, -1, -1, -1, -1, -1, 0, -1, -1, -1, 1, -1, -1, -1, -1, -1, -1, -1, -1, -1,
        -1, 2],
        [29, 33, 44, 41, 38],
        [43, 40, 44, 41, 38],
        [42, 39, 44, 41, 38],
        [2, 1, 0, 0, 0],
        [3, 4, 5, 5, 5],
        3, 1, 2, 5, 0⟩] }

/-- The state of the run of `solve_tc` on `hypercube(3)` after 48 iterations of its loop. -/
def hypercube3_state_48 : State :=
  { cosets := ⟨[1, 2, 3, 0, 4, 5, 6, 0, 7, 5, 8, 0, 9, 1, 10, 3, 11, 1, 2, 12, 13, 13, 14, 2, 15, 3, 14,
    4, 16, 17, 17, 18, 4, 19, 5, 18, 16, 6, 20, 7, 21, 6, 22, 7, 8, 8, 23, 22, 12, 9, 24,
    10, 25, 9, 26, 10, 11, 11, 27, 26, 24, 28, 12, 29, 13, 28, 14, 30, 15, 27, 15, 31,
    20, 32, 16, 33, 17, 32, 18, 34, 19, 23, 19, 35, 36, 20, 21, 21, 37, 36, 37, 22, 38,
    35, 38, 23, 39, 24, 25, 25, 40, 39, 40, 26, 41, 31, 41, 27, 28, 42, 29, 30, 29, 43,
    43, 31, 30, 32, 44, 33, 34, 33, 45, 45, 35, 34, 44, 36, 46, 38, 46, 37, 42, 39, 47,
    41, 47, 40, 47, 43, 42, 46, 45, 44],
      48, 3, 0⟩
    reltables := [
      ⟨[-1, -1, -1, -1, -1, -1, -1, -1, -1, -1, -1, -1, -1, -1, -1, -1, -1, -1, -1, -1, -1, -1,
        -1, -1, -1, -1, -1, -1, -1, -1, -1, 0, -1, -1, -1, -1, -1, -1, -1, -1, -1, -1,
        -1, -1, -1, -1, -1, 1],
        [31, 47, 47, 44, 39, 36],
        [45, 47, 47, 44, 39, 36],
        [46, 47, 47, 44, 39, 36],
        [3, 0, 0, 0, 0, 0],
        [4, 7, 7, 7, 7, 7],
        2, 0, 1, 7, 0⟩,
      ⟨[-1, -1, -1, -1, -1, -1, -1, -1, -1, -1, -1, -1, -1, -1, -1, -1, -1, -1, -1, -1, -1, -1,
        -1, -1, -1, -1, -1, -1, -1, -1, -1, -1, -1, -1, -1, -1, -1, -1, -1, -1, -1, -1,
        -1, -1, -1, -1, -1, -1],
        [42, 47, 45, 43, 36, 35],
        [47, 47, 45, 43, 36, 35],
        [46, 47, 45, 43, 36, 35],
        [2, 0, 0, 0, 0, 0],
        [2, 3, 3, 3, 3, 3],
        0, 0, 2, 3, 0⟩,
      ⟨[-1, -1, -1, -1, -1, -1, -1, -1, -1, -1, -1, -1, -1, -1, -1, -1, -1, -1, -1, -1, -1, -1,
        -1, -1, -1, -1, -1, -1, -1, -1, -1, -1, -1, -1, -1, -1, -1, -1, -1, -1, -1, -1,
        -1, -1, -1, -1, -1, -1],
        [33, 47, 46, 41, 38],
        [45, 47, 46, 41, 38],
        [47, 47, 46, 41, 38],
        [2, 0, 0, 0, 0],
        [2, 5, 5, 5, 5],
        0, 1, 2, 5, 0⟩] }

/-- The state of the run of `solve_tc` on `torus(2)` after 0 iterations of its loop. -/
def torus2_state_0 : State :=
  { cosets := ⟨[-1, -1, -1, -1],
      1, 4, 0⟩
    reltables := [
      ⟨[0],
        [0],
        [0],
        [0],
        [0],
        [3],
        1, 0, 1, 3, 0⟩,
      ⟨[0],
        [0],
        [0],
        [0],
        [0],
        [3],
        1, 0, 2, 3, 0⟩,
      ⟨[0],
        [0],
        [0],
        [0],
        [0],
        [3],
        1, 0, 3, 3, 0⟩,
      ⟨[0],
        [0],
        [0],
        [0],
        [0],
        [3],
        1, 1, 2, 3, 0⟩,
      ⟨[0],
        [0],
        [0],
        [0],
        [0],
        [3],
        1, 1, 3, 3, 0⟩,
      ⟨[0],
        [0],
        [0],
        [0],
        [0],
        [3],
        1, 2, 3, 3, 0⟩] }

/-- The state of the run of `solve_tc` on `torus(2)` after 6 iterations of its loop. -/
def torus2_state_6 : State :=
  { cosets := ⟨[1, 2, 3, 4, 0, 5, 6, -1, 5, 0, -1, -1, -1, -1, 0, -1, -1, -1, -1, 0, 2, 1, -1, -1, -1,
    -1, 1, -1],
      7, 4, 0⟩
    reltables := [
      ⟨[-1, -1, -1, 1, 0, -1, 2],
        [4, 3, 6, 5],
        [4, 3, 6, 5],
        [4, 3, 6, 5],
        [0, 0, 0, 0],
        [3, 3, 3, 3],
        3, 0, 1, 3, 0⟩,
      ⟨[0, -1, 1, -1, 2, -1, 3],
        [0, 2, 4, 6],
        [1, 5, 4, 6],
        [3, 2, 4, 6],
        [1, 1, 0, 0],
        [2, 3, 3, 3],
        4, 0, 2, 3, 0⟩,
      ⟨[0, -1, 1, 2, -1, -1, 3],
        [0, 2, 3, 6],
        [1, 5, 3, 6],
        [4, 2, 3, 6],
        [1, 1, 0, 0],
        [2, 3, 3, 3],
        4, 0, 3, 3, 0⟩,
      ⟨[0, 1, -1, -1, 2, -1, 3],
        [0, 1, 4, 6],
        [2, 5, 4, 6],
        [3, 1, 4, 6],
        [1, 1, 0, 0],
        [2, 3, 3, 3],
        4, 1, 2, 3, 0⟩,
      ⟨[0, 1, -1, 2, -1, -1, 3],
        [0, 1, 3, 6],
        [2, 5, 3, 6],
        [4, 1, 3, 6],
        [1, 1, 0, 0],
        [2, 3, 3, 3],
        4, 1, 3, 3, 0⟩,
      ⟨[0, 1, 2, -1, -1, 3, 4],
        [0, 1, 2, 5, 6],
        [3, 1, 2, 5, 6],
        [4, 1, 2, 5, 6],
        [1, 0, 0, 0, 0],
        [2, 3, 3, 3, 3],
        5, 2, 3, 3, 0⟩] }

/-- The state of the run of `solve_tc` on `torus(2)` after 11 iterations of its loop. -/
def torus2_state_11 : State :=
  { cosets := ⟨[1, 2, 3, 4, 0, 5, 6, 7, 5, 0, 8, 9, 6, 8, 0, 10, 7, 9, 10, 0, 2, 1, 11, -1, 3, -1, 1, -1,
    4, -1, -1, 1, -1, 3, 2, -1, -1, 4, -1, 2, -1, -1, 4, 3, -1, -1, 5, -1],
      12, 4, 0⟩
    reltables := [
      ⟨[-1, -1, -1, 1, 0, -1, -1, -1, -1, -1, 2, 3],
        [4, 3, 10, 11],
        [7, 6, 10, 11],
        [9, 8, 10, 11],
        [1, 1, 0, 0],
        [2, 2, 3, 3],
        4, 0, 1, 3, 0⟩,
      ⟨[-1, -1, 1, -1, 0, -1, -1, -1, -1, 2, 3, 4],
        [4, 2, 9, 10, 11],
        [7, 5, 9, 10, 11],
        [4, 8, 9, 10, 11],
        [1, 1, 0, 0, 0],
        [3, 2, 3, 3, 3],
        5, 0, 2, 3, 0⟩,
      ⟨[-1, -1, 1, 0, -1, -1, -1, -1, 2, -1, -1, 3],
        [3, 2, 8, 11],
        [6, 5, 8, 11],
        [10, 9, 8, 11],
        [1, 1, 0, 0],
        [2, 2, 3, 3],
        4, 0, 3, 3, 0⟩,
      ⟨[-1, 1, -1, -1, 2, -1, -1, 0, -1, -1, 3, 4],
        [7, 1, 4, 10, 11],
        [7, 5, 9, 10, 11],
        [7, 6, 4, 10, 11],
        [0, 1, 1, 0, 0],
        [3, 2, 3, 3, 3],
        5, 1, 2, 3, 0⟩,
      ⟨[-1, 1, -1, 2, -1, -1, 0, -1, -1, -1, -1, 3],
        [6, 1, 3, 11, 9],
        [6, 5, 8, 11, 9],
        [6, 7, 10, 11, 9],
        [0, 1, 1, 0, 0],
        [3, 2, 2, 3, 3],
        4, 1, 3, 3, 0⟩,
      ⟨[-1, 1, 2, -1, -1, 0, -1, -1, -1, -1, -1, 3],
        [5, 1, 2, 11, 10],
        [5, 6, 8, 11, 10],
        [5, 7, 9, 11, 10],
        [0, 1, 1, 0, 0],
        [3, 2, 2, 3, 3],
        4, 2, 3, 3, 0⟩] }

/-- The state of the run of `solve_tc` on `torus(2)` after 16 iterations of its
loop, the last one. -/
def torus2_state_16 : State :=
  { cosets := ⟨[1, 2, 3, 4, 0, 5, 6, 7, 5, 0, 8, 9, 6, 8, 0, 10, 7, 9, 10, 0, 2, 1, 11, 12, 3, 11, 1, 13,
    4, 12, 13, 1, 11, 3, 2, 14, 12, 4, 14, 2, 13, 14, 4, 3, 8, 6, 5, 15, 9, 7, 15, 5, 10,
    15, 7, 6, 15, 10, 9, 8, 14, 13, 12, 11],
      16, 4, 0⟩
    reltables := [
      ⟨[-1, -1, -1, -1, -1, -1, -1, -1, -1, -1, 0, -1, -1, -1, -1, 1],
        [10, 15, 15, 13, 12],
        [13, 15, 15, 13, 12],
        [14, 15, 15, 13, 12],
        [1, 0, 0, 0, 0],
        [2, 3, 3, 3, 3],
        2, 0, 1, 3, 0⟩,
      ⟨[-1, -1, -1, -1, -1, -1, -1, -1, -1, 1, -1, -1, -1, -1, -1, 0],
        [15, 9, 15, 14, 11],
        [15, 12, 15, 14, 11],
        [15, 14, 15, 14, 11],
        [0, 1, 0, 0, 0],
        [3, 2, 3, 3, 3],
        2, 0, 2, 3, 0⟩,
      ⟨[-1, -1, -1, -1, -1, -1, -1, -1, -1, -1, -1, -1, -1, -1, -1, -1],
        [8, 15, 13, 12],
        [15, 15, 13, 12],
        [14, 15, 13, 12],
        [2, 0, 0, 0],
        [2, 3, 3, 3],
        0, 0, 3, 3, 0⟩,
      ⟨[-1, -1, -1, -1, -1, -1, -1, 0, -1, -1, -1, -1, -1, -1, -1, 1],
        [7, 15, 15, 15, 11],
        [12, 15, 15, 15, 11],
        [13, 15, 15, 15, 11],
        [1, 0, 0, 0, 0],
        [2, 3, 3, 3, 3],
        2, 1, 2, 3, 2⟩,
      ⟨[-1, -1, -1, -1, -1, -1, -1, -1, -1, -1, -1, -1, -1, -1, -1, -1],
        [6, 15, 14, 12, 9],
        [15, 15, 14, 12, 9],
        [13, 15, 14, 12, 9],
        [2, 0, 0, 0, 0],
        [2, 3, 3, 3, 3],
        0, 1, 3, 3, 0⟩,
      ⟨[-1, -1, -1, -1, -1, -1, -1, -1, -1, -1, -1, -1, -1, -1, -1, -1],
        [5, 15, 14, 13, 10],
        [15, 15, 14, 13, 10],
        [12, 15, 14, 13, 10],
        [2, 0, 0, 0, 0],
        [2, 3, 3, 3, 3],
        0, 2, 3, 3, 0⟩] }

/-! ## Basic facts about the array primitives -/

theorem bind_eq_ok {α β : Type} {x : Except Err α} {f : α → Except Err β} {b : β} :
    x >>= f = .ok b ↔ ∃ a, x = .ok a ∧ f a = .ok b := by
  cases x with
  | error e => simp [bind, Except.bind]
  | ok a => simp [bind, Except.bind]

theorem rd_eq_ok {v : List Int} {i x : Int} :
    rd v i = .ok x ↔ 0 ≤ i ∧ v[i.toNat]? = some x := by
  unfold rd
  by_cases h : i < 0
  · simp [h]
  · simp only [h, if_false]
    cases hg : v[i.toNat]? with
    | none => simp
    | some y => simp; omega

theorem rd_nat_eq_ok {v : List Int} {i : Nat} {x : Int} :
    rd v (i : Int) = .ok x ↔ v[i]? = some x := by
  rw [rd_eq_ok]; simp

theorem wr_eq_ok {v w : List Int} {i x : Int} :
    wr v i x = .ok w ↔ 0 ≤ i ∧ i.toNat < v.length ∧ w = v.set i.toNat x := by
  unfold wr
  by_cases h : i < 0
  · simp [h]
  · by_cases h2 : i.toNat < v.length
    · simp [h, h2]; constructor
      · intro e; exact ⟨by omega, e.symm⟩
      · intro e; exact e.2.symm
    · simp [h, h2]

theorem wr_nat_eq_ok {v w : List Int} {i : Nat} {x : Int} :
    wr v (i : Int) x = .ok w ↔ i < v.length ∧ w = v.set i x := by
  rw [wr_eq_ok]; simp

theorem wr_length {v w : List Int} {i x : Int} (h : wr v i x = .ok w) :
    w.length = v.length := by
  rw [wr_eq_ok] at h; rw [h.2.2]; simp

theorem wr_mem {v w : List Int} {i x y : Int} (h : wr v i x = .ok w) (hy : y ∈ w) :
    y ∈ v ∨ y = x := by
  rw [wr_eq_ok] at h
  rw [h.2.2] at hy
  exact List.mem_or_eq_of_mem_set hy

theorem set_eq_ok {ct ct1 : CosetTable} {idx v : Int} :
    ct.set idx v = .ok ct1 ↔
      ∃ old, 0 ≤ idx ∧ ct.table[idx.toNat]? = some old ∧
        ct1 = { ct with
          table := ct.table.set idx.toNat v
          overwrites := if old ≠ -1 ∧ old ≠ v then ct.overwrites + 1 else ct.overwrites } := by
  unfold CosetTable.set
  simp only [bind_eq_ok, rd_eq_ok, wr_eq_ok]
  constructor
  · rintro ⟨old, ⟨h0, hg⟩, t, ⟨-, -, rfl⟩, h⟩
    refine ⟨old, h0, hg, ?_⟩
    simpa using h.symm
  · rintro ⟨old, h0, hg, rfl⟩
    refine ⟨old, ⟨h0, hg⟩, _, ⟨h0, ?_, rfl⟩, rfl⟩
    exact (List.getElem?_eq_some.1 hg).1

/-! ## What one pass of `learn` does to the two tables -/

theorem closes_trans {G : Nat → Prop} {ngens : Nat} {a b c : CosetTable}
    (h1 : Closes G ngens a b) (h2 : Closes G ngens b c) : Closes G ngens a c := by
  induction h2 with
  | refl => exact h1
  | step x y g _ hx hy hg hs1 hs2 ih => exact Closes.step x y g ih hx hy hg hs1 hs2

theorem move_last_mem {v w : List Int} {idx n : Nat} (h : move_last v idx n = .ok w)
    {x : Int} (hx : x ∈ w) : x ∈ v := by
  unfold move_last at h
  simp only [bind_eq_ok, rd_nat_eq_ok, wr_nat_eq_ok] at h
  obtain ⟨a, ha, -, rfl⟩ := h
  rcases List.mem_or_eq_of_mem_set hx with h1 | h1
  · exact h1
  · rw [h1]; exact List.getElem?_mem ha

theorem push_back_mem {v : List Int} {n : Nat} {y x : Int} (hx : x ∈ push_back v n y) :
    x ∈ v ∨ x = y := by
  unfold push_back at hx
  split at hx
  · exact List.mem_or_eq_of_mem_set hx
  · simpa using hx

theorem rem_row_rowsOk {G : Nat → Prop} {rt rt1 : RelTable} {idx : Nat}
    (h : rt.rem_row idx = .ok rt1) (hr : rt.RowsOk G) : rt1.RowsOk G := by
  unfold RelTable.rem_row at h
  split at h
  · cases h
  · simp only [bind_eq_ok] at h
    obtain ⟨a, -, cp1, -, b, -, cp2, -, ic, -, sc, hsc, ec, hec, si, -, ei, -, h⟩ := h
    cases h
    exact ⟨fun x hx => hr.1 x (move_last_mem hsc hx),
      fun x hx => hr.2.1 x (move_last_mem hec hx), hr.2.2.1, hr.2.2.2⟩

theorem prune_rowsOk {G : Nat → Prop} {rt rt1 : RelTable} {x i_c : Int}
    (h : prune rt x i_c = .ok rt1) (hr : rt.RowsOk G) : rt1.RowsOk G := by
  unfold prune at h
  split at h
  · split at h
    · cases h
    · split at h
      · exact rem_row_rowsOk h hr
      · cases h; exact hr
  · cases h; exact hr

theorem scan_fwd_rowsOk {G : Nat → Prop} {table : List Int} {ngens : Nat} {i_c : Int} :
    ∀ (d : Nat) {s_i s_c : Int} {rt : RelTable} {s_i1 s_c1 : Int} {rt1 : RelTable},
      scan_fwd table ngens i_c d s_i s_c rt = .ok (s_i1, s_c1, rt1) →
      0 ≤ s_c → rt.RowsOk G → 0 ≤ s_c1 ∧ rt1.RowsOk G
  | 0, _, _, _, _, _, _, h, hs, hr => by
    unfold scan_fwd at h; cases h; exact ⟨hs, hr⟩
  | d + 1, _, _, _, _, _, _, h, hs, hr => by
    unfold scan_fwd at h
    split at h
    · cases h
    · split at h
      · cases h; exact ⟨hs, hr⟩
      · split at h
        · cases h
        · rename_i hp
          exact scan_fwd_rowsOk d h (by omega) (prune_rowsOk hp hr)

theorem scan_bwd_rowsOk {G : Nat → Prop} {table : List Int} {ngens : Nat} {i_c : Int} :
    ∀ (d : Nat) {e_i e_c : Int} {rt : RelTable} {e_i1 e_c1 : Int} {rt1 : RelTable},
      scan_bwd table ngens i_c d e_i e_c rt = .ok (e_i1, e_c1, rt1) →
      0 ≤ e_c → rt.RowsOk G → 0 ≤ e_c1 ∧ rt1.RowsOk G
  | 0, _, _, _, _, _, _, h, hs, hr => by
    unfold scan_bwd at h; cases h; exact ⟨hs, hr⟩
  | d + 1, _, _, _, _, _, _, h, hs, hr => by
    unfold scan_bwd at h
    split at h
    · cases h
    · split at h
      · cases h; exact ⟨hs, hr⟩
      · split at h
        · cases h
        · rename_i hp
          exact scan_bwd_rowsOk d h (by omega) (prune_rowsOk hp hr)

theorem close_row_spec {G : Nat → Prop} {ngens : Nat} {ct ct1 : CosetTable}
    {rt rt1 : RelTable} {c : Nat} {s_i s_c e_c : Int}
    (h : close_row ngens ct rt c s_i s_c e_c = .ok (ct1, rt1))
    (hr : rt.RowsOk G) (hs : 0 ≤ s_c) (he : 0 ≤ e_c) :
    Closes G ngens ct ct1 ∧ rt1.RowsOk G := by
  unfold close_row at h
  simp only [bind_eq_ok] at h
  obtain ⟨ct2, h1, ct3, h2, rt2, h3, h4⟩ := h
  cases h4
  refine ⟨Closes.step s_c e_c (rt.gens s_i) (Closes.refl ct) hs he ?_ h1 h2,
    rem_row_rowsOk h3 hr⟩
  unfold RelTable.gens
  split
  · exact hr.2.2.1
  · exact hr.2.2.2

theorem learn_row_spec {G : Nat → Prop} {ngens : Nat} {ct ct1 : CosetTable}
    {rt rt1 : RelTable} {c : Nat} {closed : Bool}
    (h : learn_row ngens ct rt c = .ok (ct1, rt1, closed)) (hr : rt.RowsOk G) :
    Closes G ngens ct ct1 ∧ rt1.RowsOk G := by
  unfold learn_row at h
  simp only [bind_eq_ok, rd_nat_eq_ok] at h
  obtain ⟨s_i, -, e_i, -, s_c, hsc, e_c, hec, i_c, -, ⟨s_i1, s_c1, rta⟩, hf, h⟩ := h
  have hf1 := scan_fwd_rowsOk _ hf (hr.1 _ (List.getElem?_mem hsc)) hr
  simp only [bind_eq_ok, wr_nat_eq_ok] at h
  obtain ⟨si, ⟨-, rfl⟩, sc, ⟨-, rfl⟩, ⟨e_i1, e_c1, rtb⟩, hb, h⟩ := h
  have hra : RelTable.RowsOk G { rta with
      start_inds := rta.start_inds.set c s_i1,
      start_cosets := rta.start_cosets.set c s_c1 } := by
    refine ⟨fun x hx => ?_, hf1.2.2.1, hf1.2.2.2.1, hf1.2.2.2.2⟩
    rcases List.mem_or_eq_of_mem_set hx with h1 | h1
    · exact hf1.2.1 x h1
    · rw [h1]; exact hf1.1
  have hb1 := scan_bwd_rowsOk _ hb (hr.2.1 _ (List.getElem?_mem hec)) hra
  simp only [bind_eq_ok, wr_nat_eq_ok] at h
  obtain ⟨ei, ⟨-, rfl⟩, ec, ⟨-, rfl⟩, h⟩ := h
  have hrb : RelTable.RowsOk G { rtb with
      end_inds := rtb.end_inds.set c e_i1,
      end_cosets := rtb.end_cosets.set c e_c1 } := by
    refine ⟨hb1.2.1, fun x hx => ?_, hb1.2.2.2.1, hb1.2.2.2.2⟩
    rcases List.mem_or_eq_of_mem_set hx with h1 | h1
    · exact hb1.2.2.1 x h1
    · rw [h1]; exact hb1.1
  split at h
  · simp only [bind_eq_ok] at h
    obtain ⟨⟨ct2, rt2⟩, hc, h⟩ := h
    cases h
    exact close_row_spec hc hrb hf1.1 hb1.1
  · cases h
    exact ⟨Closes.refl _, hrb⟩

theorem learn_rows_spec {G : Nat → Prop} {ngens : Nat} :
    ∀ (k c : Nat) {ct ct1 : CosetTable} {rt rt1 : RelTable},
      learn_rows ngens k c ct rt = .ok (ct1, rt1) → rt.RowsOk G →
      Closes G ngens ct ct1 ∧ rt1.RowsOk G
  | 0, c, ct, ct1, rt, rt1, h, hr => by
    unfold learn_rows at h
    split at h
    · cases h
    · cases h; exact ⟨Closes.refl _, hr⟩
  | k + 1, c, ct, ct1, rt, rt1, h, hr => by
    unfold learn_rows at h
    split at h
    · split at h
      · cases h
      · rename_i ct2 rt2 closed hl
        have h1 := learn_row_spec hl hr
        have h2 := learn_rows_spec k _ h h1.2
        exact ⟨closes_trans h1.1 h2.1, h2.2⟩
    · cases h; exact ⟨Closes.refl _, hr⟩

theorem learn_rel_spec {G : Nat → Prop} {cox : Coxeter} {st st1 : State} {r : Nat}
    (h : learn_rel cox st r = .ok st1) (hr : st.RowsOk G) :
    Closes G cox.ngens st.cosets st1.cosets ∧ st1.RowsOk G ∧
      st1.reltables.length = st.reltables.length := by
  unfold learn_rel at h
  split at h
  · cases h
  · rename_i rt hrt
    split at h
    · cases h
    · rename_i ct1 rt1 hl
      cases h
      have h1 := learn_rows_spec _ _ hl (hr rt (List.getElem?_mem hrt))
      refine ⟨h1.1, fun x hx => ?_, by simp⟩
      rcases List.mem_or_eq_of_mem_set hx with h2 | h2
      · exact hr x h2
      · rw [h2]; exact h1.2

theorem learn_order_spec {G : Nat → Prop} {cox : Coxeter} :
    ∀ (rs : List Nat) {st st1 : State}, learn_order cox rs st = .ok st1 → st.RowsOk G →
      Closes G cox.ngens st.cosets st1.cosets ∧ st1.RowsOk G ∧
        st1.reltables.length = st.reltables.length
  | [], st, st1, h, hr => by
    unfold learn_order at h; cases h; exact ⟨Closes.refl _, hr, rfl⟩
  | r :: rs, st, st1, h, hr => by
    unfold learn_order at h
    split at h
    · cases h
    · rename_i st2 hl
      have h1 := learn_rel_spec hl hr
      have h2 := learn_order_spec rs h h1.2.1
      exact ⟨closes_trans h1.1 h2.1, h2.2.1, by rw [h2.2.2, h1.2.2]⟩

/-! ## Invariants of the coset table -/

theorem set_frame {ct ct1 : CosetTable} {idx v : Int} (h : ct.set idx v = .ok ct1) :
    ct1.num_cosets = ct.num_cosets ∧ ct1.ngens = ct.ngens ∧
      ct1.table.length = ct.table.length ∧ 0 ≤ idx ∧ idx.toNat < ct.table.length ∧
      ct1.table = ct.table.set idx.toNat v := by
  rw [set_eq_ok] at h
  obtain ⟨old, h0, hg, rfl⟩ := h
  exact ⟨rfl, rfl, by simp, h0, (List.getElem?_eq_some.1 hg).1, rfl⟩

theorem set_defined {ct ct1 : CosetTable} {idx v : Int} (h : ct.set idx v = .ok ct1)
    (hv : v ≠ -1) {i : Nat} (hi : Defined ct.table i) : Defined ct1.table i := by
  obtain ⟨-, -, -, -, hlt, ht⟩ := set_frame h
  obtain ⟨w, hw, hw1⟩ := hi
  rw [ht]
  by_cases hc : idx.toNat = i
  · subst hc
    exact ⟨v, List.getElem?_set_self hlt, hv⟩
  · exact ⟨w, by rw [List.getElem?_set_ne hc]; exact hw, hw1⟩

theorem row_lt_of_index_lt {y : Int} {g n C : Nat} (h : (y * n + g).toNat < C * n)
    (h0 : 0 ≤ y * n + g) : y < C := by
  have h1 : y * n + g < (C : Int) * n := by
    have : ((y * n + g).toNat : Int) < ((C * n : Nat) : Int) := by exact_mod_cast h
    rw [Int.toNat_of_nonneg h0] at this
    simpa using this
  have h2 : y * n < (C : Int) * n := by omega
  exact lt_of_mul_lt_mul_right h2 (by positivity)

theorem set_wf {ct ct1 : CosetTable} {idx v : Int} (h : ct.set idx v = .ok ct1)
    (hwf : ct.WF) (hv : v = -1 ∨ (0 ≤ v ∧ v < (ct.num_cosets : Int))) : ct1.WF := by
  obtain ⟨hc, hn, hl, -, -, ht⟩ := set_frame h
  refine ⟨by rw [hl, hc, hn]; exact hwf.1, fun w hw => ?_⟩
  rw [ht] at hw
  rw [hc]
  rcases List.mem_or_eq_of_mem_set hw with h1 | h1
  · exact hwf.2 w h1
  · rw [h1]; exact hv

theorem closes_wf {G : Nat → Prop} {n : Nat} {ct ct1 : CosetTable}
    (h : Closes G n ct ct1) (hn : ct.ngens = n) (hwf : ct.WF) :
    ct1.WF ∧ ct1.num_cosets = ct.num_cosets ∧ ct1.ngens = ct.ngens := by
  induction h with
  | refl => exact ⟨hwf, rfl, rfl⟩
  | @step cta ctb ctc x y g _ hx hy _ hs1 hs2 ih =>
    obtain ⟨hwa, hca, hna⟩ := ih
    obtain ⟨hc1, hn1, hl1, h01, hlt1, -⟩ := set_frame hs1
    obtain ⟨hc2, hn2, hl2, h02, hlt2, -⟩ := set_frame hs2
    have hyC : y < (cta.num_cosets : Int) := by
      rw [hl1, hwa.1, hna, hn] at hlt2
      exact row_lt_of_index_lt hlt2 h02
    have hxC : x < (cta.num_cosets : Int) := by
      rw [hwa.1, hna, hn] at hlt1
      exact row_lt_of_index_lt hlt1 h01
    have hwb := set_wf hs1 hwa (Or.inr ⟨hy, hyC⟩)
    have hwc := set_wf hs2 hwb (Or.inr ⟨hx, by rw [hc1]; exact hxC⟩)
    exact ⟨hwc, by rw [hc2, hc1, hca], by rw [hn2, hn1, hna]⟩

theorem closes_defined {G : Nat → Prop} {n : Nat} {ct ct1 : CosetTable}
    (h : Closes G n ct ct1) {i : Nat} (hi : Defined ct.table i) : Defined ct1.table i := by
  induction h with
  | refl => exact hi
  | step x y g _ hx hy _ hs1 hs2 ih =>
    exact set_defined hs2 (by omega) (set_defined hs1 (by omega) ih)

/-! ## The search loops of `add_coset` -/

theorem scan_gens_none {table : List Int} :
    ∀ (k g idx : Nat), scan_gens table k g idx = .ok none →
      ∀ j < k, Defined table (idx + j)
  | 0, _, _, _, j, hj => by omega
  | k + 1, g, idx, h, j, hj => by
    unfold scan_gens at h
    split at h
    · cases h
    · rename_i v hv
      rw [rd_nat_eq_ok] at hv
      split at h
      · cases h
      · rename_i hne
        rcases Nat.eq_zero_or_pos j with h0 | h0
        · subst h0; exact ⟨v, hv, hne⟩
        · have := scan_gens_none k (g + 1) (idx + 1) h (j - 1) (by omega)
          rwa [show idx + 1 + (j - 1) = idx + j by omega] at this

theorem scan_gens_some {table : List Int} :
    ∀ (k g idx : Nat) {g1 i1 : Nat}, scan_gens table k g idx = .ok (some (g1, i1)) →
      ∃ j < k, g1 = g + j ∧ i1 = idx + j ∧ table[i1]? = some (-1) ∧
        ∀ j1 < j, Defined table (idx + j1)
  | 0, _, _, _, _, h => by unfold scan_gens at h; cases h
  | k + 1, g, idx, g1, i1, h => by
    unfold scan_gens at h
    split at h
    · cases h
    · rename_i v hv
      rw [rd_nat_eq_ok] at hv
      split at h
      · rename_i hv1
        cases h
        exact ⟨0, by omega, rfl, rfl, by rw [← hv1]; exact hv, fun j1 hj1 => by omega⟩
      · rename_i hne
        obtain ⟨j, hj, hg, hi, ht, hd⟩ := scan_gens_some k (g + 1) (idx + 1) h
        refine ⟨j + 1, by omega, by omega, by omega, ht, fun j1 hj1 => ?_⟩
        rcases Nat.eq_zero_or_pos j1 with h0 | h0
        · subst h0; exact ⟨v, hv, hne⟩
        · have := hd (j1 - 1) (by omega)
          rwa [show idx + 1 + (j1 - 1) = idx + j1 by omega] at this

theorem scan_rows_none {table : List Int} {n : Nat} :
    ∀ (k c idx : Nat), scan_rows table n k c idx = .ok none →
      ∀ j < k * n, Defined table (idx + j)
  | 0, _, _, _, j, hj => by omega
  | k + 1, c, idx, h, j, hj => by
    unfold scan_rows at h
    split at h
    · cases h
    · cases h
    · rename_i hg
      by_cases hjn : j < n
      · exact scan_gens_none n 0 idx hg j hjn
      · have hk : j - n < k * n := by
          have : (k + 1) * n = k * n + n := by ring
          omega
        have := scan_rows_none k (c + 1) (idx + n) h (j - n) hk
        rwa [show idx + n + (j - n) = idx + j by omega] at this

theorem scan_rows_some {table : List Int} {n : Nat} :
    ∀ (k c idx : Nat) {c1 g1 i1 : Nat},
      scan_rows table n k c idx = .ok (some (c1, g1, i1)) →
      ∃ r < k, c1 = c + r ∧ g1 < n ∧ i1 = idx + r * n + g1 ∧ table[i1]? = some (-1) ∧
        ∀ j < r * n + g1, Defined table (idx + j)
  | 0, _, _, _, _, _, h => by unfold scan_rows at h; cases h
  | k + 1, c, idx, c1, g1, i1, h => by
    unfold scan_rows at h
    split at h
    · cases h
    · rename_i g2 i2 hg
      cases h
      obtain ⟨j, hj, hg1, hi, ht, hd⟩ := scan_gens_some n 0 idx hg
      refine ⟨0, by omega, rfl, by omega, by omega, ht, fun j1 hj1 => ?_⟩
      exact hd j1 (by omega)
    · rename_i hg
      obtain ⟨r, hr, hc, hg1, hi, ht, hd⟩ := scan_rows_some k (c + 1) (idx + n) h
      have hmul : (r + 1) * n = r * n + n := by ring
      refine ⟨r + 1, by omega, by omega, hg1, by omega, ht, fun j hj => ?_⟩
      by_cases hjn : j < n
      · exact scan_gens_none n 0 idx hg j hjn
      · have := hd (j - n) (by omega)
        rwa [show idx + n + (j - n) = idx + j by omega] at this

/-! ## The driver invariant -/

theorem add_coset_cases {cox : Coxeter} {st st2 : State} {hint : Nat} {h : Int}
    (hadd : add_coset cox st hint = .ok (h, st2)) :
    (h = -1 ∧ st2 = st ∧
      scan_rows st.cosets.table cox.ngens (st.cosets.num_cosets - hint) hint
        (hint * cox.ngens) = .ok none) ∨
    ∃ c g idx ct1 ct2,
      scan_rows st.cosets.table cox.ngens (st.cosets.num_cosets - hint) hint
        (hint * cox.ngens) = .ok (some (c, g, idx)) ∧
      st.cosets.set idx st.cosets.num_cosets = .ok ct1 ∧
      (add_row { st with cosets := ct1 }).cosets.set
        ((st.cosets.num_cosets : Int) * cox.ngens + g) c = .ok ct2 ∧
      h = c ∧ st2 = { add_row { st with cosets := ct1 } with cosets := ct2 } := by
  unfold add_coset at hadd
  simp only at hadd
  split at hadd
  · cases hadd
  · cases hadd
    rename_i hs
    exact Or.inl ⟨rfl, rfl, hs⟩
  · rename_i c g idx hs
    split at hadd
    · cases hadd
    · rename_i ct1 h1
      split at hadd
      · cases hadd
      · rename_i ct2 h2
        cases hadd
        exact Or.inr ⟨c, g, idx, ct1, ct2, hs, h1, h2, rfl, rfl⟩

theorem inv_learn_order {G : Nat → Prop} {cox : Coxeter} {rs : List Nat} {st st1 : State}
    {hint : Nat} (h : learn_order cox rs st = .ok st1) (hi : Inv G cox st hint) :
    Inv G cox st1 hint := by
  obtain ⟨hc, hr, -⟩ := learn_order_spec rs h hi.rows
  obtain ⟨hwf, -, hn⟩ := closes_wf hc hi.ngens_eq hi.wf
  exact ⟨by rw [hn]; exact hi.ngens_eq, hwf, hr, fun i hlt => closes_defined hc (hi.below i hlt)⟩

theorem add_row_rowsOk {G : Nat → Prop} {rt : RelTable} {C : Int} (hr : rt.RowsOk G)
    (hC : 0 ≤ C) : (rt.add_row C).RowsOk G := by
  refine ⟨fun x hx => ?_, fun x hx => ?_, hr.2.2.1, hr.2.2.2⟩
  · rcases push_back_mem hx with h1 | h1
    · exact hr.1 x h1
    · omega
  · rcases push_back_mem hx with h1 | h1
    · exact hr.2.1 x h1
    · omega

theorem defined_append {t u : List Int} {i : Nat} (h : Defined t i) : Defined (t ++ u) i := by
  obtain ⟨v, hv, hv1⟩ := h
  exact ⟨v, by rw [List.getElem?_append_left (List.getElem?_eq_some.1 hv).1]; exact hv, hv1⟩

theorem defined_set {t : List Int} {i k : Nat} {v : Int} (h : Defined t i) (hv : v ≠ -1) :
    Defined (t.set k v) i := by
  obtain ⟨w, hw, hw1⟩ := h
  by_cases hc : k = i
  · subst hc
    exact ⟨v, List.getElem?_set_self (List.getElem?_eq_some.1 hw).1, hv⟩
  · exact ⟨w, by rw [List.getElem?_set_ne hc]; exact hw, hw1⟩

theorem inv_add_coset {G : Nat → Prop} {cox : Coxeter} {st st2 : State} {hint : Nat}
    {h : Int} (hadd : add_coset cox st hint = .ok (h, st2)) (hi : Inv G cox st hint) :
    (0 ≤ h → Inv G cox st2 h.toNat) ∧
    (h < 0 → st2 = st ∧
      ∀ i < st.cosets.num_cosets * cox.ngens, Defined st.cosets.table i) := by
  rcases add_coset_cases hadd with ⟨rfl, rfl, hs⟩ | ⟨c, g, idx, ct1, ct2, hs, h1, h2, rfl, rfl⟩
  · refine ⟨fun h0 => by omega, fun _ => ⟨rfl, fun i hlt => ?_⟩⟩
    by_cases hb : i < hint * cox.ngens
    · exact hi.below i hb
    · have := scan_rows_none _ _ _ hs (i - hint * cox.ngens)
        (by rw [Nat.sub_mul]; omega)
      rwa [show hint * cox.ngens + (i - hint * cox.ngens) = i by omega] at this
  · refine ⟨fun _ => ?_, fun hneg => by omega⟩
    obtain ⟨r, hr, hc, hg, hidx, ht, hd⟩ := scan_rows_some _ _ _ hs
    obtain ⟨hc1, hn1, hl1, -, -, ht1⟩ := set_frame h1
    obtain ⟨hc2, hn2, hl2, -, -, ht2⟩ := set_frame h2
    simp only [add_row, CosetTable.add_row] at hc2 hn2 hl2 ht2
    simp only [Int.toNat_ofNat]
    have hcC : c < st.cosets.num_cosets := by omega
    refine ⟨?_, ⟨?_, ?_⟩, ?_, ?_⟩
    · show ct2.ngens = cox.ngens
      rw [hn2, hn1]; exact hi.ngens_eq
    · show ct2.table.length = ct2.num_cosets * ct2.ngens
      rw [hl2, hc2, hn2, hc1, hn1]
      simp only [List.length_append, List.length_replicate, hl1, hi.wf.1]
      ring
    · intro v hv
      show v = -1 ∨ (0 ≤ v ∧ v < (ct2.num_cosets : Int))
      rw [hc2, hc1]
      rw [ht2] at hv
      rcases List.mem_or_eq_of_mem_set hv with hv1 | hv1
      · rcases List.mem_append.1 hv1 with hv2 | hv2
        · rw [ht1] at hv2
          rcases List.mem_or_eq_of_mem_set hv2 with hv3 | hv3
          · rcases hi.wf.2 v hv3 with h5 | h5
            · exact Or.inl h5
            · right; push_cast; omega
          · right; push_cast; omega
        · exact Or.inl (List.eq_of_mem_replicate hv2)
      · right; push_cast; omega
    · intro rt hrt
      simp only [add_row, List.mem_map] at hrt
      obtain ⟨rt0, hrt0, rfl⟩ := hrt
      exact add_row_rowsOk (hi.rows rt0 hrt0) (by positivity)
    · intro i hlt
      show Defined ct2.table i
      rw [ht2]
      apply defined_set _ (by omega)
      apply defined_append
      rw [ht1]
      apply defined_set _ (by omega)
      by_cases hb : i < hint * cox.ngens
      · exact hi.below i hb
      · have hci : c * cox.ngens = hint * cox.ngens + r * cox.ngens := by rw [hc]; ring
        have := hd (i - hint * cox.ngens) (by omega)
        rwa [show hint * cox.ngens + (i - hint * cox.ngens) = i by omega] at this

theorem make_reltables_rowsOk {G : Nat → Prop} {cox : Coxeter}
    (h0 : ∀ g ∈ cox.gen0, G g) (h1 : ∀ g ∈ cox.gen1, G g) :
    ∀ (k i : Nat) {rts : List RelTable}, make_reltables cox k i = .ok rts →
      ∀ rt ∈ rts, rt.RowsOk G
  | 0, _, _, h, rt, hrt => by
    unfold make_reltables at h; cases h; simp at hrt
  | k + 1, i, rts, h, rt, hrt => by
    unfold make_reltables at h
    split at h
    · rename_i a b sz ha hb hs
      split at h
      · cases h
      · rename_i rts1 hm
        cases h
        rcases List.mem_cons.1 hrt with h2 | h2
        · subst h2
          exact ⟨by simp [RelTable.mk0], by simp [RelTable.mk0],
            h0 a (List.getElem?_mem ha), h1 b (List.getElem?_mem hb)⟩
        · exact make_reltables_rowsOk h0 h1 k (i + 1) hm rt h2
    · cases h

theorem set_subgens_spec : ∀ (subgens : List Nat) {ct ct1 : CosetTable},
    set_subgens subgens ct = .ok ct1 → ct.WF → 0 < ct.num_cosets →
      ct1.WF ∧ ct1.num_cosets = ct.num_cosets ∧ ct1.ngens = ct.ngens
  | [], ct, ct1, h, hwf, _ => by
    unfold set_subgens at h; cases h; exact ⟨hwf, rfl, rfl⟩
  | gen :: rest, ct, ct1, h, hwf, hpos => by
    unfold set_subgens at h
    split at h
    · cases h
    · rename_i ct2 hs
      obtain ⟨hc, hn, -⟩ := set_frame hs
      have hw2 := set_wf hs hwf (Or.inr ⟨le_refl 0, by exact_mod_cast hpos⟩)
      obtain ⟨h3, h4, h5⟩ := set_subgens_spec rest h hw2 (by omega)
      exact ⟨h3, by rw [h4, hc], by rw [h5, hn]⟩

theorem inv_init {G : Nat → Prop} {cox : Coxeter} {subgens : List Nat} {st : State}
    (h0 : ∀ g ∈ cox.gen0, G g) (h1 : ∀ g ∈ cox.gen1, G g)
    (h : init_state cox subgens = .ok st) : Inv G cox st 0 := by
  unfold init_state at h
  split at h
  · cases h
  · rename_i rts hm
    simp only at h
    split at h
    · cases h
    · rename_i ct hs
      cases h
      have hwf0 : (add_row { cosets := ⟨[], 0, cox.ngens, 0⟩, reltables := rts }).cosets.WF := by
        refine ⟨by simp [add_row, CosetTable.add_row], fun v hv => ?_⟩
        simp only [add_row, CosetTable.add_row, List.nil_append] at hv
        exact Or.inl (List.eq_of_mem_replicate hv)
      obtain ⟨hwf, -, hn⟩ := set_subgens_spec subgens hs hwf0 (by simp [add_row, CosetTable.add_row])
      refine ⟨by rw [hn]; rfl, hwf, ?_, fun i hi => by omega⟩
      intro rt hrt
      simp only [add_row, List.mem_map] at hrt
      obtain ⟨rt0, hrt0, rfl⟩ := hrt
      exact add_row_rowsOk (make_reltables_rowsOk h0 h1 _ _ hm rt0 hrt0) (by simp)

theorem solve_loop_inv {G : Nat → Prop} {cox : Coxeter} :
    ∀ (fuel : Nat) {st stf : State} {hint : Nat},
      solve_loop cox fuel st hint = .ok stf → Inv G cox st hint →
      (∃ hint1, Inv G cox stf hint1) ∧
        ∀ i < stf.cosets.num_cosets * cox.ngens, Defined stf.cosets.table i
  | 0, _, _, _, h, _ => by unfold solve_loop at h; cases h
  | fuel + 1, st, stf, hint, h, hi => by
    unfold solve_loop at h
    split at h
    · cases h
    · rename_i st1 hl
      have hi1 : Inv G cox st1 hint := inv_learn_order hl hi
      split at h
      · cases h
      · rename_i hh st2 ha
        have h2 := inv_add_coset ha hi1
        split at h
        · rename_i hge
          exact solve_loop_inv fuel h (h2.1 hge)
        · rename_i hlt
          cases h
          obtain ⟨rfl, hd⟩ := h2.2 (by omega)
          exact ⟨⟨hint, hi1⟩, hd⟩

theorem entry_of_defined {ct : CosetTable} (hwf : ct.WF) {c g : Nat}
    (hd : Defined ct.table (c * ct.ngens + g)) :
    0 ≤ ct.entry c g ∧ ct.entry c g < ct.num_cosets := by
  obtain ⟨v, hv, hne⟩ := hd
  have : ct.entry c g = v := by
    unfold CosetTable.entry
    rw [List.getD_eq_getElem?_getD, hv]; rfl
  rw [this]
  rcases hwf.2 v (List.getElem?_mem hv) with h1 | h1
  · exact absurd h1 hne
  · exact h1

theorem table_complete_of_solve {fuel : Nat} {cox : Coxeter} {subgens : List Nat}
    {T : CosetTable} (h : solve_tc fuel cox subgens = .ok T) :
    T.ngens = cox.ngens ∧ T.table.length = T.num_cosets * cox.ngens ∧
      ∀ c g, c < T.num_cosets → g < cox.ngens →
        0 ≤ T.entry c g ∧ T.entry c g < T.num_cosets := by
  unfold solve_tc at h
  split at h
  · cases h
  · rename_i st hs
    cases h
    unfold solve_state at hs
    split at hs
    · cases hs
    · rename_i st0 h0
      have hi0 : Inv (fun _ => True) cox st0 0 :=
        inv_init (fun _ _ => trivial) (fun _ _ => trivial) h0
      obtain ⟨⟨hint1, hi⟩, hd⟩ := solve_loop_inv fuel hs hi0
      refine ⟨hi.ngens_eq, by rw [← hi.ngens_eq]; exact hi.wf.1, fun c g hc hg => ?_⟩
      apply entry_of_defined hi.wf
      rw [hi.ngens_eq]
      apply hd
      calc c * cox.ngens + g < c * cox.ngens + cox.ngens := by omega
        _ = (c + 1) * cox.ngens := by ring
        _ ≤ st.cosets.num_cosets * cox.ngens := Nat.mul_le_mul_right _ hc

/-- C3. When `solve_tc` returns a table with `C = num_cosets` rows, the table
has exactly `C * ngens` entries, and every entry `T[c, g]` with `c < C` and
`g < ngens` is defined and is a coset index, `0 ≤ T[c, g] < C`. -/
theorem solve_tc_table_complete (fuel : Nat) (cox : Coxeter) (subgens : List Nat)
    (T : CosetTable) (h : solve_tc fuel cox subgens = .ok T) :
    T.ngens = cox.ngens ∧ T.table.length = T.num_cosets * cox.ngens ∧
      ∀ c g, c < T.num_cosets → g < cox.ngens →
        0 ≤ T.entry c g ∧ T.entry c g < T.num_cosets :=
  table_complete_of_solve h

/-- Witness for C3: the run on `torus(1)` with the trivial subgroup. -/
theorem solve_tc_table_complete_witness :
    solve_tc 4 (torus 1) [] =
        .ok ⟨[1, 1, 2, 2, 0, 0, 3, 3, 3, 3, 0, 0, 2, 2, 1, 1], 4, 4, 0⟩ ∧
      ((4 : Nat) = (torus 1).ngens ∧ (16 : Nat) = 4 * (torus 1).ngens ∧
        ∀ c g, c < 4 → g < (torus 1).ngens →
          0 ≤ CosetTable.entry ⟨[1, 1, 2, 2, 0, 0, 3, 3, 3, 3, 0, 0, 2, 2, 1, 1], 4, 4, 0⟩ c g ∧
          CosetTable.entry ⟨[1, 1, 2, 2, 0, 0, 3, 3, 3, 3, 0, 0, 2, 2, 1, 1], 4, 4, 0⟩ c g <
            (4 : Nat)) :=
  ⟨by decide!, solve_tc_table_complete 4 (torus 1) []
    ⟨[1, 1, 2, 2, 0, 0, 3, 3, 3, 3, 0, 0, 2, 2, 1, 1], 4, 4, 0⟩ (by decide!)⟩

/-! ## Fuel -/

theorem solve_loop_mono {cox : Coxeter} :
    ∀ (fuel : Nat) {st : State} {hint : Nat} {r : Except Err State},
      solve_loop cox fuel st hint = r → r ≠ .error .fuel →
      ∀ k, solve_loop cox (fuel + k) st hint = r
  | 0, _, _, _, h, hr, _ => by
    unfold solve_loop at h; exact absurd h.symm hr
  | fuel + 1, st, hint, r, h, hr, k => by
    rw [show fuel + 1 + k = (fuel + k) + 1 by omega]
    unfold solve_loop at h ⊢
    split
    · rename_i e hl
      rw [hl] at h; exact h
    · rename_i st1 hl
      rw [hl] at h
      simp only at h ⊢
      split
      · rename_i e ha
        rw [ha] at h; exact h
      · rename_i hh st2 ha
        rw [ha] at h
        simp only at h ⊢
        split
        · rename_i hge
          rw [if_pos hge] at h
          exact solve_loop_mono fuel h hr k
        · rename_i hlt
          rw [if_neg hlt] at h
          exact h

theorem solve_tc_mono {cox : Coxeter} {subgens : List Nat} {fuel : Nat}
    {r : Except Err CosetTable} (h : solve_tc fuel cox subgens = r) (hr : r ≠ .error .fuel)
    (k : Nat) : solve_tc (fuel + k) cox subgens = r := by
  unfold solve_tc solve_state at h ⊢
  cases hi : init_state cox subgens with
  | error e => rw [hi] at h; exact h
  | ok st =>
    rw [hi] at h
    simp only at h ⊢
    have hne : solve_loop cox fuel st 0 ≠ .error .fuel := by
      intro he
      rw [he] at h
      exact hr h.symm
    rw [solve_loop_mono fuel rfl hne k]
    exact h

theorem solve_tc_never_ok {cox : Coxeter} {subgens : List Nat} {n : Nat}
    (h : solve_tc n cox subgens = .error .oob) (fuel : Nat) (T : CosetTable) :
    solve_tc fuel cox subgens ≠ .ok T := by
  intro hT
  rcases Nat.le_total fuel n with hle | hle
  · have := solve_tc_mono hT (by simp) (n - fuel)
    rw [show fuel + (n - fuel) = n by omega, h] at this
    cases this
  · have := solve_tc_mono h (by simp) (fuel - n)
    rw [show n + (fuel - n) = fuel by omega, hT] at this
    cases this

theorem solve_loop_succ (cox : Coxeter) (fuel : Nat) (st : State) (hint : Nat) :
    solve_loop cox (fuel + 1) st hint = resume cox fuel (loop_body cox st hint) := by
  rw [solve_loop, loop_body]
  cases learn cox st with
  | error e => rfl
  | ok st1 =>
    simp only
    cases add_coset cox st1 hint with
    | error e => rfl
    | ok p => rfl

theorem resume_iterate (cox : Coxeter) (fuel : Nat) :
    ∀ (k : Nat) (h : Int) (st : State),
      resume cox (k + fuel) (.ok (h, st)) = resume cox fuel (iterate_loop cox k h st)
  | 0, h, st => by simp [iterate_loop]
  | k + 1, h, st => by
    unfold iterate_loop
    by_cases hh : h ≥ 0
    · simp only [hh, if_true]
      rw [show k + 1 + fuel = (k + fuel) + 1 by omega]
      have h1 : resume cox (k + fuel + 1) (.ok (h, st)) =
          solve_loop cox (k + fuel + 1) st h.toNat := by simp [resume, hh]
      rw [h1, solve_loop_succ]
      cases hb : loop_body cox st h.toNat with
      | error e => simp [resume]
      | ok p =>
        obtain ⟨h2, st2⟩ := p
        exact resume_iterate cox fuel k h2 st2
    · simp [hh, resume]

theorem solve_state_eq_resume {cox : Coxeter} {subgens : List Nat} {st : State}
    (hi : init_state cox subgens = .ok st) (fuel : Nat) :
    solve_state fuel cox subgens = resume cox fuel (.ok (0, st)) := by
  unfold solve_state
  rw [hi]
  simp [resume]

theorem solve_tc_of_state {cox : Coxeter} {subgens : List Nat} {fuel : Nat}
    {r : Except Err State} (h : solve_state fuel cox subgens = r) :
    solve_tc fuel cox subgens = r.map State.cosets := by
  unfold solve_tc
  rw [h]
  cases r <;> rfl

/-! ## The definer `add_coset` in full -/

theorem index_inj {n c g c1 g1 : Nat} (hg : g < n) (hg1 : g1 < n)
    (h : c * n + g = c1 * n + g1) : c = c1 ∧ g = g1 := by
  have hn : 0 < n := by omega
  have h1 : (c * n + g) / n = c := by
    rw [Nat.mul_comm, Nat.mul_add_div hn, Nat.div_eq_of_lt hg, Nat.add_zero]
  have h2 : (c1 * n + g1) / n = c1 := by
    rw [Nat.mul_comm, Nat.mul_add_div hn, Nat.div_eq_of_lt hg1, Nat.add_zero]
  have hc : c = c1 := by rw [← h1, ← h2, h]
  subst hc
  exact ⟨rfl, by omega⟩

theorem scan_gens_find {table : List Int} :
    ∀ (k g idx j : Nat), j < k → table[idx + j]? = some (-1) →
      (∀ j1 < j, Defined table (idx + j1)) →
      scan_gens table k g idx = .ok (some (g + j, idx + j))
  | 0, _, _, _, hj, _, _ => by omega
  | k + 1, g, idx, j, hj, hu, hd => by
    unfold scan_gens
    rcases Nat.eq_zero_or_pos j with h0 | h0
    · subst h0
      have : rd table (idx : Int) = .ok (-1) := rd_nat_eq_ok.2 hu
      rw [this]; simp
    · obtain ⟨v, hv, hne⟩ := hd 0 h0
      have : rd table (idx : Int) = .ok v := rd_nat_eq_ok.2 hv
      rw [this]
      simp only [hne, if_false]
      have := scan_gens_find k (g + 1) (idx + 1) (j - 1) (by omega)
        (by rw [show idx + 1 + (j - 1) = idx + j by omega]; exact hu)
        (fun j1 hj1 => by
          have := hd (j1 + 1) (by omega)
          rwa [show idx + (j1 + 1) = idx + 1 + j1 by omega] at this)
      rw [this, show g + 1 + (j - 1) = g + j by omega,
        show idx + 1 + (j - 1) = idx + j by omega]

theorem scan_gens_all {table : List Int} :
    ∀ (k g idx : Nat), (∀ j < k, Defined table (idx + j)) →
      scan_gens table k g idx = .ok none
  | 0, _, _, _ => by unfold scan_gens; rfl
  | k + 1, g, idx, hd => by
    unfold scan_gens
    obtain ⟨v, hv, hne⟩ := hd 0 (by omega)
    have : rd table (idx : Int) = .ok v := rd_nat_eq_ok.2 hv
    rw [this]
    simp only [hne, if_false]
    exact scan_gens_all k (g + 1) (idx + 1) (fun j hj => by
      have := hd (j + 1) (by omega)
      rwa [show idx + (j + 1) = idx + 1 + j by omega] at this)

theorem scan_rows_find {table : List Int} {n : Nat} :
    ∀ (k c idx r g : Nat), r < k → g < n → table[idx + r * n + g]? = some (-1) →
      (∀ j < r * n + g, Defined table (idx + j)) →
      scan_rows table n k c idx = .ok (some (c + r, g, idx + r * n + g))
  | 0, _, _, _, _, hr, _, _, _ => by omega
  | k + 1, c, idx, r, g, hr, hg, hu, hd => by
    unfold scan_rows
    rcases Nat.eq_zero_or_pos r with h0 | h0
    · subst h0
      simp only [Nat.zero_mul, Nat.add_zero, Nat.zero_add] at hu hd ⊢
      rw [scan_gens_find n 0 idx g hg hu hd]
      simp
    · have hmul : r * n = (r - 1) * n + n := by
        have : r = (r - 1) + 1 := by omega
        conv_lhs => rw [this]
        ring
      rw [scan_gens_all n 0 idx (fun j hj => hd j (by omega))]
      simp only
      have := scan_rows_find k (c + 1) (idx + n) (r - 1) g (by omega) hg
        (by rw [show idx + n + (r - 1) * n + g = idx + r * n + g by omega]; exact hu)
        (fun j hj => by
          have := hd (j + n) (by omega)
          rwa [show idx + (j + n) = idx + n + j by omega] at this)
      rw [this, show c + 1 + (r - 1) = c + r by omega,
        show idx + n + (r - 1) * n + g = idx + r * n + g by omega]

theorem set_undefined {ct : CosetTable} {i : Nat} {v : Int}
    (h : ct.table[i]? = some (-1)) :
    ct.set (i : Int) v = .ok { ct with table := ct.table.set i v } := by
  rw [set_eq_ok]
  exact ⟨-1, by omega, by simpa using h, by simp⟩

theorem entry_eq_of_lt {ct : CosetTable} {c g : Nat}
    (h : c * ct.ngens + g < ct.table.length) :
    ct.table[c * ct.ngens + g]? = some (ct.entry c g) := by
  unfold CosetTable.entry
  rw [List.getD_eq_getElem?_getD, List.getElem?_eq_getElem h]; rfl

theorem first_undefined_before {ct : CosetTable} {n hint cs gs : Nat}
    (hn : ct.ngens = n) (hlen : ct.table.length = ct.num_cosets * n)
    (hh : hint ≤ cs) (hcs : cs < ct.num_cosets) (hgs : gs < n)
    (hfirst : ∀ c g, hint ≤ c → g < n → (c < cs ∨ (c = cs ∧ g < gs)) →
      ct.entry c g ≠ -1) :
    ∀ j < (cs - hint) * n + gs, Defined ct.table (hint * n + j) := by
  intro j hj
  have hpos : 0 < n := by omega
  have hcsn : cs * n = hint * n + (cs - hint) * n := by
    rw [← Nat.add_mul]; congr 1; omega
  have hi : hint * n + j < cs * n + gs := by omega
  have hdm : (hint * n + j) / n * n + (hint * n + j) % n = hint * n + j := by
    rw [Nat.mul_comm]; exact Nat.div_add_mod _ _
  have hmod : (hint * n + j) % n < n := Nat.mod_lt _ hpos
  have hc1 : hint ≤ (hint * n + j) / n := by
    rw [Nat.le_div_iff_mul_le hpos]; omega
  have hc2 : (hint * n + j) / n ≤ cs := by
    have : (hint * n + j) / n ≤ (cs * n + gs) / n := Nat.div_le_div_right (by omega)
    have h2 : (cs * n + gs) / n = cs := by
      rw [Nat.mul_comm, Nat.mul_add_div hpos, Nat.div_eq_of_lt hgs, Nat.add_zero]
    omega
  have hcase : (hint * n + j) / n < cs ∨
      ((hint * n + j) / n = cs ∧ (hint * n + j) % n < gs) := by
    rcases Nat.lt_or_ge ((hint * n + j) / n) cs with h1 | h1
    · exact Or.inl h1
    · right
      have heq : (hint * n + j) / n = cs := by omega
      rw [heq] at hdm
      exact ⟨heq, by omega⟩
  have hne := hfirst _ _ hc1 hmod hcase
  have hlt : (hint * n + j) / n * ct.ngens + (hint * n + j) % n < ct.table.length := by
    rw [hn, hdm, hlen]
    calc hint * n + j < cs * n + n := by omega
      _ = (cs + 1) * n := by ring
      _ ≤ ct.num_cosets * n := Nat.mul_le_mul_right _ hcs
  have := entry_eq_of_lt hlt
  rw [hn, hdm] at this
  exact ⟨_, this, hne⟩

theorem add_coset_eq_of_first {cox : Coxeter} {st : State} {hint cs gs : Nat}
    (hn : st.cosets.ngens = cox.ngens)
    (hlen : st.cosets.table.length = st.cosets.num_cosets * cox.ngens)
    (hh : hint ≤ cs) (hcs : cs < st.cosets.num_cosets) (hgs : gs < cox.ngens)
    (hund : st.cosets.entry cs gs = -1)
    (hfirst : ∀ c g, hint ≤ c → g < cox.ngens → (c < cs ∨ (c = cs ∧ g < gs)) →
      st.cosets.entry c g ≠ -1) :
    add_coset cox st hint = .ok ((cs : Int),
      { cosets :=
          { st.cosets with
            table := ((st.cosets.table.set (cs * cox.ngens + gs) st.cosets.num_cosets) ++
              List.replicate cox.ngens (-1)).set (st.cosets.num_cosets * cox.ngens + gs) cs
            num_cosets := st.cosets.num_cosets + 1 }
        reltables := st.reltables.map fun rt => rt.add_row st.cosets.num_cosets }) := by
  have hidx : cs * cox.ngens + gs < st.cosets.table.length := by
    rw [hlen]
    calc cs * cox.ngens + gs < cs * cox.ngens + cox.ngens := by omega
      _ = (cs + 1) * cox.ngens := by ring
      _ ≤ st.cosets.num_cosets * cox.ngens := Nat.mul_le_mul_right _ hcs
  have hu : st.cosets.table[cs * cox.ngens + gs]? = some (-1) := by
    have := @entry_eq_of_lt st.cosets cs gs (by rw [hn]; exact hidx)
    rw [hn, hund] at this
    exact this
  have hcsn : cs * cox.ngens = hint * cox.ngens + (cs - hint) * cox.ngens := by
    rw [← Nat.add_mul]; congr 1; omega
  have hscan := @scan_rows_find st.cosets.table cox.ngens
    (st.cosets.num_cosets - hint) hint (hint * cox.ngens) (cs - hint) gs (by omega) hgs
    (by rw [← hcsn]; exact hu)
    (first_undefined_before hn hlen hh hcs hgs hfirst)
  rw [← hcsn, show hint + (cs - hint) = cs by omega] at hscan
  unfold add_coset
  simp only [hscan]
  rw [set_undefined hu]
  simp only [add_row, CosetTable.add_row]
  have hu2 : ((st.cosets.table.set (cs * cox.ngens + gs) st.cosets.num_cosets) ++
      List.replicate st.cosets.ngens (-1))[st.cosets.num_cosets * cox.ngens + gs]? =
        some (-1) := by
    rw [List.getElem?_append_right (by simp [hlen])]
    simp [hlen, hn, hgs]
  have hcast : (st.cosets.num_cosets : Int) * (cox.ngens : Int) + (gs : Int) =
      ((st.cosets.num_cosets * cox.ngens + gs : Nat) : Int) := by push_cast; ring
  rw [hcast, set_undefined (by simpa using hu2)]
  simp [hn]

theorem getD_new_table {t : List Int} {n C idx gs i : Nat} {cs : Int}
    (hlen : t.length = C * n) (hidx : idx < C * n) (hgs : gs < n) :
    (((t.set idx (C : Int)) ++ List.replicate n (-1)).set (C * n + gs) cs).getD i (-1) =
      if i = C * n + gs then cs
      else if i = idx then (C : Int)
      else if i < C * n then t.getD i (-1) else -1 := by
  rw [List.getD_eq_getElem?_getD, List.getElem?_set]
  by_cases h1 : C * n + gs = i
  · subst h1
    simp [hlen, hgs]
  · have h1a : ¬ i = C * n + gs := fun h => h1 h.symm
    simp only [h1, h1a, if_false]
    by_cases h2 : i < C * n
    · rw [List.getElem?_append_left (by simp [hlen, h2]), List.getElem?_set]
      by_cases h3 : idx = i
      · subst h3; simp [hlen, h2]
      · have h3a : ¬ i = idx := fun h => h3 h.symm
        simp [h3, h3a, h2, List.getD_eq_getElem?_getD]
    · rw [List.getElem?_append_right (by simp [hlen]; omega)]
      have h3a : ¬ i = idx := by omega
      simp only [h3a, h2, if_false, List.getElem?_replicate]
      split <;> rfl

theorem push_back_self {v : List Int} {n : Nat} (x : Int) (h : n ≤ v.length) :
    (push_back v n x)[n]? = some x := by
  unfold push_back
  split
  · rename_i hlt
    exact List.getElem?_set_self hlt
  · have : n = v.length := by omega
    subst this
    simp

theorem push_back_old {v : List Int} {n k : Nat} (x : Int) (h : n ≤ v.length) (hk : k < n) :
    (push_back v n x)[k]? = v[k]? := by
  unfold push_back
  split
  · exact List.getElem?_set_ne (by omega)
  · exact List.getElem?_append_left (by omega)

theorem push_back_length {v : List Int} {n : Nat} (x : Int) (h : n ≤ v.length) :
    n + 1 ≤ (push_back v n x).length := by
  unfold push_back
  split
  · rw [List.length_set]; omega
  · rw [List.length_append]; simp; omega

theorem add_row_lens {rt : RelTable} (hl : rt.Lens) (C : Int) : (rt.add_row C).Lens :=
  ⟨push_back_length _ hl.init, push_back_length _ hl.si, push_back_length _ hl.sc,
    push_back_length _ hl.ei, push_back_length _ hl.ec⟩

theorem add_row_new_row {rt : RelTable} (hl : rt.Lens) (C : Int) :
    (rt.add_row C).row rt.num_rows = some (C, 0, C, rt.end_ind, C) := by
  unfold RelTable.row
  rw [if_pos (show rt.num_rows < (rt.add_row C).num_rows from Nat.lt_succ_self _)]
  show (match (push_back rt.init_cosets rt.num_rows C)[rt.num_rows]?,
      (push_back rt.start_inds rt.num_rows 0)[rt.num_rows]?,
      (push_back rt.start_cosets rt.num_rows C)[rt.num_rows]?,
      (push_back rt.end_inds rt.num_rows rt.end_ind)[rt.num_rows]?,
      (push_back rt.end_cosets rt.num_rows C)[rt.num_rows]? with
    | some i, some s_i, some s_c, some e_i, some e_c => some (i, s_i, s_c, e_i, e_c)
    | _, _, _, _, _ => none) = _
  rw [push_back_self _ hl.init, push_back_self _ hl.si, push_back_self _ hl.sc,
    push_back_self _ hl.ei, push_back_self _ hl.ec]

theorem add_row_old_row {rt : RelTable} (hl : rt.Lens) (C : Int) {k : Nat}
    (hk : k < rt.num_rows) : (rt.add_row C).row k = rt.row k := by
  unfold RelTable.row
  rw [if_pos (show k < (rt.add_row C).num_rows from Nat.lt_succ_of_lt hk), if_pos hk]
  show (match (push_back rt.init_cosets rt.num_rows C)[k]?,
      (push_back rt.start_inds rt.num_rows 0)[k]?,
      (push_back rt.start_cosets rt.num_rows C)[k]?,
      (push_back rt.end_inds rt.num_rows rt.end_ind)[k]?,
      (push_back rt.end_cosets rt.num_rows C)[k]? with
    | some i, some s_i, some s_c, some e_i, some e_c => some (i, s_i, s_c, e_i, e_c)
    | _, _, _, _, _ => none) = _
  rw [push_back_old _ hl.init hk, push_back_old _ hl.si hk, push_back_old _ hl.sc hk,
    push_back_old _ hl.ei hk, push_back_old _ hl.ec hk]

/-- C10. In a coset table with `C` rows, let `(cs, gs)` be the first UNDEFINED
entry in row-major order among the rows `hint .. C-1`. Then `add_coset` returns
`cs`; `num_cosets` becomes `C + 1`; `T[cs, gs] = C` and `T[C, gs] = cs`;
`T[C, g]` is UNDEFINED for every other `g`; every other entry is unchanged; and
every relation table gains exactly one scan row, with
`init = start_coset = end_coset = C`, `start_index = 0` and `end_index` the
table's `end_ind` (which `solve_tc` sets to `L - 1`), recorded in `coset_poss`. -/
theorem add_coset_first_undefined (cox : Coxeter) (st : State) (hint cs gs : Nat)
    (hn : st.cosets.ngens = cox.ngens)
    (hlen : st.cosets.table.length = st.cosets.num_cosets * cox.ngens)
    (hh : hint ≤ cs) (hcs : cs < st.cosets.num_cosets) (hgs : gs < cox.ngens)
    (hund : st.cosets.entry cs gs = -1)
    (hfirst : ∀ c g, hint ≤ c → g < cox.ngens → (c < cs ∨ (c = cs ∧ g < gs)) →
      st.cosets.entry c g ≠ -1) :
    ∃ st2, add_coset cox st hint = .ok ((cs : Int), st2) ∧
      st2.cosets.num_cosets = st.cosets.num_cosets + 1 ∧
      st2.cosets.ngens = cox.ngens ∧
      st2.cosets.table.length = (st.cosets.num_cosets + 1) * cox.ngens ∧
      st2.cosets.entry cs gs = st.cosets.num_cosets ∧
      st2.cosets.entry st.cosets.num_cosets gs = cs ∧
      (∀ g, g < cox.ngens → g ≠ gs → st2.cosets.entry st.cosets.num_cosets g = -1) ∧
      (∀ c g, c < st.cosets.num_cosets → g < cox.ngens → ¬ (c = cs ∧ g = gs) →
        st2.cosets.entry c g = st.cosets.entry c g) ∧
      st2.reltables.length = st.reltables.length ∧
      ∀ (r : Nat) (rt : RelTable), st.reltables[r]? = some rt →
        ∃ rt2 : RelTable, st2.reltables[r]? = some rt2 ∧
          rt2.num_rows = rt.num_rows + 1 ∧
          rt2.init_cosets = push_back rt.init_cosets rt.num_rows (st.cosets.num_cosets : Int) ∧
          rt2.start_cosets = push_back rt.start_cosets rt.num_rows (st.cosets.num_cosets : Int) ∧
          rt2.end_cosets = push_back rt.end_cosets rt.num_rows (st.cosets.num_cosets : Int) ∧
          rt2.start_inds = push_back rt.start_inds rt.num_rows 0 ∧
          rt2.end_inds = push_back rt.end_inds rt.num_rows rt.end_ind ∧
          rt2.coset_poss = rt.coset_poss ++ [(rt.num_rows : Int)] ∧
          rt2.gen0 = rt.gen0 ∧ rt2.gen1 = rt.gen1 ∧ rt2.end_ind = rt.end_ind ∧
          (rt.Lens →
            rt2.row rt.num_rows =
              some ((st.cosets.num_cosets : Int), 0, (st.cosets.num_cosets : Int), rt.end_ind, (st.cosets.num_cosets : Int)) ∧
            ∀ k, k < rt.num_rows → rt2.row k = rt.row k) := by
  have hidx : cs * cox.ngens + gs < st.cosets.num_cosets * cox.ngens := by
    calc cs * cox.ngens + gs < cs * cox.ngens + cox.ngens := by omega
      _ = (cs + 1) * cox.ngens := by ring
      _ ≤ st.cosets.num_cosets * cox.ngens := Nat.mul_le_mul_right _ hcs
  refine ⟨_, add_coset_eq_of_first hn hlen hh hcs hgs hund hfirst, rfl, hn, ?_, ?_, ?_, ?_, ?_,
    by simp, ?_⟩
  · simp [hlen]; ring
  · show List.getD _ _ _ = _
    simp only [hn]
    rw [getD_new_table hlen hidx hgs]
    simp; omega
  · show List.getD _ _ _ = _
    simp only [hn]
    rw [getD_new_table hlen hidx hgs]
    simp
  · intro g hg hne
    show List.getD _ _ _ = _
    simp only [hn]
    rw [getD_new_table hlen hidx hgs]
    have h1 : ¬ st.cosets.num_cosets * cox.ngens + g = st.cosets.num_cosets * cox.ngens + gs := by
      omega
    have h2 : ¬ st.cosets.num_cosets * cox.ngens + g = cs * cox.ngens + gs := by omega
    simp [h1, h2]
  · intro c g hc hg hne
    show List.getD _ _ _ = List.getD _ _ _
    simp only [hn]
    rw [getD_new_table hlen hidx hgs]
    have hlt : c * cox.ngens + g < st.cosets.num_cosets * cox.ngens := by
      calc c * cox.ngens + g < c * cox.ngens + cox.ngens := by omega
        _ = (c + 1) * cox.ngens := by ring
        _ ≤ st.cosets.num_cosets * cox.ngens := Nat.mul_le_mul_right _ hc
    have h1 : ¬ c * cox.ngens + g = st.cosets.num_cosets * cox.ngens + gs := by omega
    have h2 : ¬ c * cox.ngens + g = cs * cox.ngens + gs := fun h => hne (index_inj hg hgs h)
    simp [h1, h2, hlt]
  · intro r rt hr
    refine ⟨rt.add_row st.cosets.num_cosets, ?_, rfl, rfl, rfl, rfl, rfl, rfl, rfl, rfl, rfl, rfl,
      fun hl => ⟨add_row_new_row hl _, fun k hk => add_row_old_row hl _ hk⟩⟩
    simp [List.getElem?_map, hr]

/-- Witness for C10: in `sample_state`, with hint 0, the first UNDEFINED entry
is `(0, 1)`. -/
theorem add_coset_first_undefined_witness :
    ∃ st2, add_coset (make_coxeter 2 []) sample_state 0 = .ok (((0 : Nat) : Int), st2) ∧
      st2.cosets.num_cosets = sample_state.cosets.num_cosets + 1 ∧
      st2.cosets.ngens = (make_coxeter 2 []).ngens ∧
      st2.cosets.table.length =
        (sample_state.cosets.num_cosets + 1) * (make_coxeter 2 []).ngens ∧
      st2.cosets.entry 0 1 = sample_state.cosets.num_cosets ∧
      st2.cosets.entry sample_state.cosets.num_cosets 1 = (0 : Nat) ∧
      (∀ g, g < (make_coxeter 2 []).ngens → g ≠ 1 →
        st2.cosets.entry sample_state.cosets.num_cosets g = -1) ∧
      (∀ c g, c < sample_state.cosets.num_cosets → g < (make_coxeter 2 []).ngens →
        ¬ (c = 0 ∧ g = 1) → st2.cosets.entry c g = sample_state.cosets.entry c g) ∧
      st2.reltables.length = sample_state.reltables.length ∧
      ∀ (r : Nat) (rt : RelTable), sample_state.reltables[r]? = some rt →
        ∃ rt2 : RelTable, st2.reltables[r]? = some rt2 ∧
          rt2.num_rows = rt.num_rows + 1 ∧
          rt2.init_cosets = push_back rt.init_cosets rt.num_rows (sample_state.cosets.num_cosets : Int) ∧
          rt2.start_cosets = push_back rt.start_cosets rt.num_rows (sample_state.cosets.num_cosets : Int) ∧
          rt2.end_cosets = push_back rt.end_cosets rt.num_rows (sample_state.cosets.num_cosets : Int) ∧
          rt2.start_inds = push_back rt.start_inds rt.num_rows 0 ∧
          rt2.end_inds = push_back rt.end_inds rt.num_rows rt.end_ind ∧
          rt2.coset_poss = rt.coset_poss ++ [(rt.num_rows : Int)] ∧
          rt2.gen0 = rt.gen0 ∧ rt2.gen1 = rt.gen1 ∧ rt2.end_ind = rt.end_ind ∧
          (rt.Lens →
            rt2.row rt.num_rows =
              some ((sample_state.cosets.num_cosets : Int), 0, (sample_state.cosets.num_cosets : Int), rt.end_ind, (sample_state.cosets.num_cosets : Int)) ∧
            ∀ k, k < rt.num_rows → rt2.row k = rt.row k) :=
  add_coset_first_undefined (make_coxeter 2 []) sample_state 0 0 1 rfl rfl (le_refl 0)
    (by decide) (by decide) (by decide)
    (fun c g _ hg h => by
      have hc : c = 0 := by omega
      have hg0 : g = 0 := by omega
      subst hc; subst hg0; decide)

/-! ## Concrete runs -/

theorem run_one_generator :
    solve_tc 2 (make_coxeter 1 []) [] = .ok ⟨[1, 0], 2, 1, 0⟩ := by decide!

/-- C6. For the one-generator group `make_coxeter(1, [])` and the empty
subgroup list, `solve_tc` terminates (two iterations of its loop suffice) with
`num_cosets = 2` and the table `[[1], [0]]`: `T[0, 0] = 1` and `T[1, 0] = 0`. -/
theorem solve_tc_one_generator (k : Nat) :
    ∃ T, solve_tc (2 + k) (make_coxeter 1 []) [] = .ok T ∧
      T.num_cosets = 2 ∧ T.ngens = 1 ∧ T.table = [1, 0] ∧
      T.entry 0 0 = 1 ∧ T.entry 1 0 = 0 :=
  ⟨_, solve_tc_mono run_one_generator (by simp) k, rfl, rfl, rfl, rfl, rfl⟩

theorem hypercube3_init : init_state (hypercube 3) [] = .ok hypercube3_state_0 := by decide!

theorem hypercube3_steps_4 :
    iterate_loop (hypercube 3) 4 0 hypercube3_state_0 = .ok (1, hypercube3_state_4) := by
  decide!

theorem hypercube3_steps_8 :
    iterate_loop (hypercube 3) 4 1 hypercube3_state_4 = .ok (3, hypercube3_state_8) := by
  decide!

theorem hypercube3_steps_12 :
    iterate_loop (hypercube 3) 4 3 hypercube3_state_8 = .ok (6, hypercube3_state_12) := by
  decide!

theorem hypercube3_steps_16 :
    iterate_loop (hypercube 3) 4 6 hypercube3_state_12 = .ok (9, hypercube3_state_16) := by
  decide!

theorem hypercube3_steps_20 :
    iterate_loop (hypercube 3) 4 9 hypercube3_state_16 = .ok (12, hypercube3_state_20) := by
  decide!

theorem hypercube3_steps_24 :
    iterate_loop (hypercube 3) 4 12 hypercube3_state_20 = .ok (16, hypercube3_state_24) := by
  decide!

theorem hypercube3_steps_28 :
    iterate_loop (hypercube 3) 4 16 hypercube3_state_24 = .ok (20, hypercube3_state_28) := by
  decide!

theorem hypercube3_steps_32 :
    iterate_loop (hypercube 3) 4 20 hypercube3_state_28 = .ok (24, hypercube3_state_32) := by
  decide!

theorem hypercube3_steps_36 :
    iterate_loop (hypercube 3) 4 24 hypercube3_state_32 = .ok (28, hypercube3_state_36) := by
  decide!

theorem hypercube3_steps_40 :
    iterate_loop (hypercube 3) 4 28 hypercube3_state_36 = .ok (33, hypercube3_state_40) := by
  decide!

theorem hypercube3_steps_44 :
    iterate_loop (hypercube 3) 4 33 hypercube3_state_40 = .ok (39, hypercube3_state_44) := by
  decide!

theorem hypercube3_steps_48 :
    iterate_loop (hypercube 3) 4 39 hypercube3_state_44 = .ok ((-1), hypercube3_state_48) := by
  decide!

theorem hypercube3_run : solve_state 48 (hypercube 3) [] = .ok hypercube3_state_48 := by
  rw [solve_state_eq_resume hypercube3_init]
  rw [show (48 : Nat) = 4 + 44 from rfl, resume_iterate, hypercube3_steps_4]
  rw [show (44 : Nat) = 4 + 40 from rfl, resume_iterate, hypercube3_steps_8]
  rw [show (40 : Nat) = 4 + 36 from rfl, resume_iterate, hypercube3_steps_12]
  rw [show (36 : Nat) = 4 + 32 from rfl, resume_iterate, hypercube3_steps_16]
  rw [show (32 : Nat) = 4 + 28 from rfl, resume_iterate, hypercube3_steps_20]
  rw [show (28 : Nat) = 4 + 24 from rfl, resume_iterate, hypercube3_steps_24]
  rw [show (24 : Nat) = 4 + 20 from rfl, resume_iterate, hypercube3_steps_28]
  rw [show (20 : Nat) = 4 + 16 from rfl, resume_iterate, hypercube3_steps_32]
  rw [show (16 : Nat) = 4 + 12 from rfl, resume_iterate, hypercube3_steps_36]
  rw [show (12 : Nat) = 4 + 8 from rfl, resume_iterate, hypercube3_steps_40]
  rw [show (8 : Nat) = 4 + 4 from rfl, resume_iterate, hypercube3_steps_44]
  rw [show (4 : Nat) = 4 + 0 from rfl, resume_iterate, hypercube3_steps_48]
  rfl

/-- C5. `solve_tc(hypercube(3), {})` terminates (48 iterations of its loop
suffice) and returns a coset table with `num_cosets = 48`, three generators a
row. -/
theorem solve_tc_hypercube3 (k : Nat) :
    ∃ T, solve_tc (48 + k) (hypercube 3) [] = .ok T ∧
      T.num_cosets = 48 ∧ T.ngens = 3 ∧ T.table.length = 144 :=
  ⟨hypercube3_state_48.cosets,
    solve_tc_mono (solve_tc_of_state hypercube3_run) (by simp [Except.map]) k, rfl, rfl, rfl⟩

theorem torus2_init : init_state (torus 2) [] = .ok torus2_state_0 := by decide!

theorem torus2_steps_6 :
    iterate_loop (torus 2) 6 0 torus2_state_0 = .ok (1, torus2_state_6) := by decide!

theorem torus2_steps_11 :
    iterate_loop (torus 2) 5 1 torus2_state_6 = .ok (5, torus2_state_11) := by decide!

theorem torus2_steps_16 :
    iterate_loop (torus 2) 5 5 torus2_state_11 = .ok ((-1), torus2_state_16) := by decide!

theorem torus2_run : solve_state 16 (torus 2) [] = .ok torus2_state_16 := by
  rw [solve_state_eq_resume torus2_init]
  rw [show (16 : Nat) = 6 + 10 from rfl, resume_iterate, torus2_steps_6]
  rw [show (10 : Nat) = 5 + 5 from rfl, resume_iterate, torus2_steps_11]
  rw [show (5 : Nat) = 5 + 0 from rfl, resume_iterate, torus2_steps_16]
  rfl

/-- The run of `solve_tc(torus(2), {})` ends after 16 iterations of its loop
and returns a coset table with `num_cosets = 16`, four generators a row. -/
theorem solve_tc_torus2 (k : Nat) :
    ∃ T, solve_tc (16 + k) (torus 2) [] = .ok T ∧
      T.num_cosets = 16 ∧ T.ngens = 4 ∧ T.table.length = 64 :=
  ⟨torus2_state_16.cosets,
    solve_tc_mono (solve_tc_of_state torus2_run) (by simp [Except.map]) k, rfl, rfl, rfl⟩

/-! ## Writes that keep the defined entries -/

theorem keeps_refl (ct : CosetTable) : Keeps ct ct :=
  ⟨le_refl _, fun _ _ _ h _ => h⟩

theorem keeps_trans {a b c : CosetTable} (h1 : Keeps a b) (h2 : Keeps b c) : Keeps a c := by
  refine ⟨le_trans h1.1 h2.1, fun h0 i v hv hne => ?_⟩
  have hb : b.overwrites = 0 := by have := h2.1; omega
  exact h2.2 h0 i v (h1.2 hb i v hv hne) hne

theorem set_keeps {ct ct1 : CosetTable} {idx v : Int} (h : ct.set idx v = .ok ct1) :
    Keeps ct ct1 := by
  rw [set_eq_ok] at h
  obtain ⟨old, h0, hg, rfl⟩ := h
  refine ⟨by simp only; split <;> omega, fun hz i w hw hne => ?_⟩
  simp only at hz ⊢
  by_cases hc : idx.toNat = i
  · subst hc
    rw [hg] at hw
    cases hw
    have hov : ¬ (old ≠ -1 ∧ old ≠ v) := by
      intro hh
      rw [if_pos hh] at hz
      omega
    have : old = v := by
      by_contra hne2
      exact hov ⟨hne, hne2⟩
    rw [this]
    exact List.getElem?_set_self (List.getElem?_eq_some.1 hg).1
  · rw [List.getElem?_set_ne hc]; exact hw

theorem closes_keeps {G : Nat → Prop} {n : Nat} {ct ct1 : CosetTable}
    (h : Closes G n ct ct1) : Keeps ct ct1 := by
  induction h with
  | refl => exact keeps_refl _
  | step x y g _ _ _ _ hs1 hs2 ih =>
    exact keeps_trans ih (keeps_trans (set_keeps hs1) (set_keeps hs2))

theorem add_row_keeps (st : State) : Keeps st.cosets (add_row st).cosets := by
  refine ⟨le_refl _, fun _ i v hv _ => ?_⟩
  simp only [add_row, CosetTable.add_row]
  rw [List.getElem?_append_left (List.getElem?_eq_some.1 hv).1]
  exact hv

theorem add_coset_keeps {cox : Coxeter} {st st2 : State} {hint : Nat} {h : Int}
    (hadd : add_coset cox st hint = .ok (h, st2)) : Keeps st.cosets st2.cosets := by
  rcases add_coset_cases hadd with ⟨-, rfl, -⟩ | ⟨c, g, idx, ct1, ct2, -, h1, h2, -, rfl⟩
  · exact keeps_refl _
  · exact keeps_trans (set_keeps h1)
      (keeps_trans (add_row_keeps { st with cosets := ct1 }) (set_keeps h2))

theorem learn_order_keeps {cox : Coxeter} {rs : List Nat} {st st1 : State}
    (h : learn_order cox rs st = .ok st1) (hr : st.RowsOk fun _ => True) :
    Keeps st.cosets st1.cosets :=
  closes_keeps (learn_order_spec rs h hr).1

theorem solve_loop_keeps {cox : Coxeter} :
    ∀ (fuel : Nat) {st stf : State} {hint : Nat},
      solve_loop cox fuel st hint = .ok stf → Inv (fun _ => True) cox st hint →
      Keeps st.cosets stf.cosets
  | 0, _, _, _, h, _ => by unfold solve_loop at h; cases h
  | fuel + 1, st, stf, hint, h, hi => by
    unfold solve_loop at h
    split at h
    · cases h
    · rename_i st1 hl
      have hk1 := learn_order_keeps hl hi.rows
      have hi1 : Inv (fun _ => True) cox st1 hint := inv_learn_order hl hi
      split at h
      · cases h
      · rename_i hh st2 ha
        have hk2 := add_coset_keeps ha
        split at h
        · rename_i hge
          exact keeps_trans hk1
            (keeps_trans hk2 (solve_loop_keeps fuel h ((inv_add_coset ha hi1).1 hge)))
        · cases h
          exact keeps_trans hk1 hk2

theorem set_subgens_zero : ∀ (subgens : List Nat) {ct ct1 : CosetTable},
    set_subgens subgens ct = .ok ct1 →
      (∀ s ∈ subgens, ct1.table[s]? = some 0) ∧
        (∀ i : Nat, ct.table[i]? = some 0 → ct1.table[i]? = some 0)
  | [], ct, ct1, h => by
    unfold set_subgens at h; cases h
    exact ⟨fun s hs => by simp at hs, fun _ h => h⟩
  | gen :: rest, ct, ct1, h => by
    unfold set_subgens at h
    split at h
    · cases h
    · rename_i ct2 hs
      obtain ⟨h1, h2⟩ := set_subgens_zero rest h
      obtain ⟨-, -, -, -, hlt, ht⟩ := set_frame hs
      simp only [Int.toNat_ofNat] at hlt ht
      have hgen : ct2.table[gen]? = some 0 := by
        rw [ht]; exact List.getElem?_set_self hlt
      refine ⟨fun s hs1 => ?_, fun i hi => ?_⟩
      · rcases List.mem_cons.1 hs1 with h3 | h3
        · subst h3; exact h2 _ hgen
        · exact h1 s h3
      · apply h2
        rw [ht]
        by_cases hc : gen = i
        · subst hc; exact List.getElem?_set_self hlt
        · rw [List.getElem?_set_ne hc]; exact hi

/-- When `solve_tc` returns a table `T` and no write of the run replaced a
defined entry by a different value (`overwrites = 0`), row 0 is fixed by every
subgroup generator: `T[0, s] = 0` for every `s` in `subgens`. -/
theorem solve_tc_row0_fixed (fuel : Nat) (cox : Coxeter) (subgens : List Nat)
    (T : CosetTable) (h : solve_tc fuel cox subgens = .ok T) (hclean : T.overwrites = 0) :
    ∀ s ∈ subgens, T.entry 0 s = 0 := by
  intro s hs
  unfold solve_tc at h
  split at h
  · cases h
  · rename_i st hst
    cases h
    unfold solve_state at hst
    split at hst
    · cases hst
    · rename_i st0 h0
      have hi0 : Inv (fun _ => True) cox st0 0 :=
        inv_init (fun _ _ => trivial) (fun _ _ => trivial) h0
      have hk := solve_loop_keeps fuel hst hi0
      have hz : st0.cosets.table[s]? = some 0 := by
        unfold init_state at h0
        split at h0
        · cases h0
        · simp only at h0
          split at h0
          · cases h0
          · rename_i ct hsub
            cases h0
            exact (set_subgens_zero subgens hsub).1 s hs
      have := hk.2 hclean s 0 hz (by decide)
      unfold CosetTable.entry
      rw [List.getD_eq_getElem?_getD]
      simp [this]

theorem run_dihedral3_mod0 :
    solve_tc 3 (make_coxeter 2 [⟨0, 1, 3⟩]) [0] = .ok ⟨[0, 1, 2, 0, 1, 2], 3, 2, 0⟩ := by
  decide!

/-! ## Which writes can replace a defined entry -/

theorem set_subgens_overwrites : ∀ (subgens : List Nat) {ct ct1 : CosetTable},
    set_subgens subgens ct = .ok ct1 → (∀ v ∈ ct.table, v = -1 ∨ v = 0) →
      ct1.overwrites = ct.overwrites
  | [], ct, ct1, h, _ => by unfold set_subgens at h; cases h; rfl
  | gen :: rest, ct, ct1, h, hv => by
    unfold set_subgens at h
    split at h
    · cases h
    · rename_i ct2 hs
      have hs2 := hs
      rw [set_eq_ok] at hs2
      obtain ⟨old, -, hg, rfl⟩ := hs2
      have hold : old = -1 ∨ old = 0 := hv old (List.getElem?_mem hg)
      have hv2 : ∀ v ∈ ct.table.set (gen : Int).toNat 0, v = -1 ∨ v = 0 := by
        intro v hmem
        rcases List.mem_or_eq_of_mem_set hmem with h1 | h1
        · exact hv v h1
        · exact Or.inr h1
      have := set_subgens_overwrites rest h hv2
      rw [this]
      simp only
      rw [if_neg]
      rintro ⟨h1, h2⟩
      rcases hold with h3 | h3
      · exact h1 h3
      · exact h2 h3

theorem init_state_overwrites {cox : Coxeter} {subgens : List Nat} {st : State}
    (h : init_state cox subgens = .ok st) : st.cosets.overwrites = 0 := by
  unfold init_state at h
  split at h
  · cases h
  · simp only at h
    split at h
    · cases h
    · rename_i ct hs
      cases h
      have := set_subgens_overwrites subgens hs (fun v hv => by
        simp only [add_row, CosetTable.add_row, List.nil_append] at hv
        exact Or.inl (List.eq_of_mem_replicate hv))
      rw [this]
      rfl

theorem add_coset_overwrites {G : Nat → Prop} {cox : Coxeter} {st st2 : State} {hint : Nat}
    {h : Int} (hadd : add_coset cox st hint = .ok (h, st2)) (hi : Inv G cox st hint) :
    st2.cosets.overwrites = st.cosets.overwrites := by
  rcases add_coset_cases hadd with ⟨-, rfl, -⟩ | ⟨c, g, idx, ct1, ct2, hs, h1, h2, -, rfl⟩
  · rfl
  · obtain ⟨r, hr, hc, hg, hidx, ht, -⟩ := scan_rows_some _ _ _ hs
    have e1 : ct1 = { st.cosets with table := st.cosets.table.set idx st.cosets.num_cosets } := by
      have := @set_undefined st.cosets idx (st.cosets.num_cosets : Int) ht
      rw [this] at h1
      cases h1; rfl
    subst e1
    have hlen := hi.wf.1
    rw [hi.ngens_eq] at hlen
    have hu2 : ((add_row { st with cosets :=
        { st.cosets with table := st.cosets.table.set idx st.cosets.num_cosets } }).cosets.table)[
          st.cosets.num_cosets * cox.ngens + g]? = some (-1) := by
      simp only [add_row, CosetTable.add_row]
      rw [List.getElem?_append_right (by simp [hlen])]
      simp [hlen, hi.ngens_eq, hg]
    have hcast : (st.cosets.num_cosets : Int) * (cox.ngens : Int) + (g : Int) =
        ((st.cosets.num_cosets * cox.ngens + g : Nat) : Int) := by push_cast; ring
    rw [hcast, set_undefined hu2] at h2
    cases h2
    rfl

theorem iterate_loop_inv {G : Nat → Prop} {cox : Coxeter} :
    ∀ (k : Nat) {h h1 : Int} {st st1 : State},
      iterate_loop cox k h st = .ok (h1, st1) → 0 ≤ h → Inv G cox st h.toNat →
      0 ≤ h1 → Inv G cox st1 h1.toNat
  | 0, h, h1, st, st1, hit, _, hi, _ => by
    unfold iterate_loop at hit; cases hit; exact hi
  | k + 1, h, h1, st, st1, hit, h0, hi, h10 => by
    unfold iterate_loop at hit
    rw [if_pos h0] at hit
    split at hit
    · cases hit
    · rename_i h2 st2 hb
      unfold loop_body at hb
      split at hb
      · cases hb
      · rename_i st3 hl
        have hi3 : Inv G cox st3 h.toNat := inv_learn_order hl hi
        have h4 := inv_add_coset hb hi3
        by_cases h20 : 0 ≤ h2
        · exact iterate_loop_inv k hit h20 (h4.1 h20) h10
        · rcases k with _ | k
          · unfold iterate_loop at hit; cases hit; omega
          · unfold iterate_loop at hit
            rw [if_neg (by omega)] at hit
            cases hit; omega

/-- C8 (code). In every run of `solve_tc` the subgroup self-loops and the two
writes of `add_coset` target slots that are UNDEFINED or already hold the
value written: the history counter is 0 when the main loop is entered, and no
call of `add_coset` made by the loop changes it. The two closure writes of
`learn` are made without looking at the slot: only they can replace a defined
entry. -/
theorem definer_writes_keep_entries (cox : Coxeter) (subgens : List Nat) (st0 : State)
    (hinit : init_state cox subgens = .ok st0) :
    st0.cosets.overwrites = 0 ∧
      ∀ (k : Nat) (h : Int) (st st1 : State) (h2 : Int) (st2 : State),
        iterate_loop cox k 0 st0 = .ok (h, st) → 0 ≤ h → learn cox st = .ok st1 →
        add_coset cox st1 h.toNat = .ok (h2, st2) →
        st2.cosets.overwrites = st1.cosets.overwrites := by
  refine ⟨init_state_overwrites hinit, fun k h st st1 h2 st2 hit h0 hl ha => ?_⟩
  have hi0 : Inv (fun _ => True) cox st0 (0 : Int).toNat :=
    inv_init (fun _ _ => trivial) (fun _ _ => trivial) hinit
  have hi := iterate_loop_inv k hit (le_refl 0) hi0 h0
  exact add_coset_overwrites ha (inv_learn_order hl hi)

theorem loop_body_eq_ok {cox : Coxeter} {st : State} {hint : Nat} {p : Int × State} :
    loop_body cox st hint = .ok p ↔
      ∃ st1, learn cox st = .ok st1 ∧ add_coset cox st1 hint = .ok p := by
  unfold loop_body
  cases learn cox st with
  | error e => simp
  | ok st1 => simp

theorem hypercube3_body_4 :
    (loop_body (hypercube 3) hypercube3_state_4 (1 : Int).toNat).isOk = true := by decide!

theorem hypercube3_body_4_ok :
    ∃ st1 h2 st2, learn (hypercube 3) hypercube3_state_4 = .ok st1 ∧
      add_coset (hypercube 3) st1 (1 : Int).toNat = .ok (h2, st2) := by
  cases hb : loop_body (hypercube 3) hypercube3_state_4 (1 : Int).toNat with
  | error e =>
    have h := hypercube3_body_4
    rw [hb] at h
    cases h
  | ok p =>
    obtain ⟨st1, h1, h2⟩ := loop_body_eq_ok.1 hb
    exact ⟨st1, p.1, p.2, h1, h2⟩

/-- Witness for C8 (code): the fifth iteration of the run on `hypercube(3)`. -/
theorem definer_writes_keep_entries_witness :
    init_state (hypercube 3) [] = .ok hypercube3_state_0 ∧
    iterate_loop (hypercube 3) 4 0 hypercube3_state_0 = .ok (1, hypercube3_state_4) ∧
    ∃ st1 h2 st2, learn (hypercube 3) hypercube3_state_4 = .ok st1 ∧
      add_coset (hypercube 3) st1 (1 : Int).toNat = .ok (h2, st2) ∧
      st2.cosets.overwrites = st1.cosets.overwrites := by
  obtain ⟨st1, h2, st2, hl, ha⟩ := hypercube3_body_4_ok
  exact ⟨hypercube3_init, hypercube3_steps_4, st1, h2, st2, hl, ha,
    (definer_writes_keep_entries (hypercube 3) [] hypercube3_state_0 hypercube3_init).2 4 1
      hypercube3_state_4 st1 h2 st2 hypercube3_steps_4 (by decide) hl ha⟩

/-! ## Involution -/

theorem toNat_index {x : Int} {n g : Nat} (hx : 0 ≤ x) :
    (x * n + g).toNat = x.toNat * n + g := by
  have h1 : x = (x.toNat : Int) := (Int.toNat_of_nonneg hx).symm
  have h2 : x * n + g = ((x.toNat * n + g : Nat) : Int) := by
    push_cast; rw [← h1]
  rw [h2, Int.toNat_ofNat]

theorem set_clean_old {ct ct1 : CosetTable} {idx v : Int} (h : ct.set idx v = .ok ct1)
    (hz : ct1.overwrites = 0) :
    ct.overwrites = 0 ∧ idx.toNat < ct.table.length ∧
      ct1.table = ct.table.set idx.toNat v ∧
      (ct.table[idx.toNat]? = some (-1) ∨ ct.table[idx.toNat]? = some v) ∧
      ct1.ngens = ct.ngens := by
  have hk := set_keeps h
  rw [set_eq_ok] at h
  obtain ⟨old, -, hg, rfl⟩ := h
  simp only at hz
  refine ⟨by have := hk.1; simp only at this; omega, (List.getElem?_eq_some.1 hg).1, rfl, ?_, rfl⟩
  by_cases h1 : old = -1
  · left; rw [hg, h1]
  · by_cases h2 : old = v
    · right; rw [hg, h2]
    · rw [if_pos ⟨h1, h2⟩] at hz; omega

theorem sym_write_involutive {ct1 ct2 ct3 : CosetTable} {n g : Nat} {x y : Int}
    (hinv : Involutive ct1) (hn : ct1.ngens = n) (hx : 0 ≤ x) (hy : 0 ≤ y) (hg : g < n)
    (hs1 : ct1.set (x * n + g) y = .ok ct2) (hs2 : ct2.set (y * n + g) x = .ok ct3)
    (hz : ct3.overwrites = 0) : Involutive ct3 := by
  obtain ⟨hz2, hlt2, ht3, hold2, hn3⟩ := set_clean_old hs2 hz
  obtain ⟨-, hlt1, ht2, hold1, hn2⟩ := set_clean_old hs1 hz2
  rw [toNat_index hx] at hlt1 ht2 hold1
  rw [toNat_index hy] at hlt2 ht3 hold2
  have hxn : ((x.toNat : Nat) : Int) = x := Int.toNat_of_nonneg hx
  have hyn : ((y.toNat : Nat) : Int) = y := Int.toNat_of_nonneg hy
  have hlen2 : ct2.table.length = ct1.table.length := by rw [ht2]; simp
  have hg3 : ∀ i : Nat, ct3.table[i]? =
      if y.toNat * n + g = i then some x
      else if x.toNat * n + g = i then some y else ct1.table[i]? := by
    intro i
    rw [ht3, List.getElem?_set, ht2, List.getElem?_set]
    rw [hlen2] at hlt2
    simp only [List.length_set, hlt2, hlt1, if_true]
  have hn31 : ct3.ngens = n := by rw [hn3, hn2, hn]
  intro c g1 v hg1 hv hv0
  rw [hn31] at hg1 hv ⊢
  rw [hg3] at hv ⊢
  by_cases e2 : y.toNat * n + g = c * n + g1
  · -- the entry read is the second slot written
    obtain ⟨hc, hgg⟩ := index_inj hg hg1 e2
    subst hgg
    rw [if_pos e2] at hv
    cases hv
    by_cases e3 : y.toNat * n + g = x.toNat * n + g
    · rw [if_pos e3]
      have := (index_inj hg hg e3).1
      rw [← hc, this, hxn]
    · rw [if_neg e3, if_pos rfl, ← hc, hyn]
  · rw [if_neg e2] at hv
    by_cases e1 : x.toNat * n + g = c * n + g1
    · -- the entry read is the first slot written
      obtain ⟨hc, hgg⟩ := index_inj hg hg1 e1
      subst hgg
      rw [if_pos e1] at hv
      cases hv
      rw [if_pos rfl, ← hc, hxn]
    · rw [if_neg e1] at hv
      have h1 := hinv c g1 v (by rw [hn]; exact hg1) (by rw [hn]; exact hv) hv0
      rw [hn] at h1
      have hcne : ((c : Nat) : Int) ≠ -1 := by omega
      by_cases f2 : y.toNat * n + g = v.toNat * n + g1
      · exfalso
        obtain ⟨hvy, hgg⟩ := index_inj hg hg1 f2
        subst hgg
        rw [← f2] at h1
        -- the second slot held `c` before the writes
        have h2 : ct2.table[y.toNat * n + g]? = some (c : Int) ∨ x.toNat = y.toNat := by
          rw [ht2, List.getElem?_set]
          by_cases e3 : x.toNat * n + g = y.toNat * n + g
          · exact Or.inr (index_inj hg hg e3).1
          · left; rw [if_neg e3]; exact h1
        rcases h2 with h2 | h2
        · rcases hold2 with h3 | h3
          · rw [h2] at h3; exact absurd (Option.some.inj h3) hcne
          · rw [h2] at h3
            have : (c : Int) = x := Option.some.inj h3
            apply e1
            have hcx : c = x.toNat := by omega
            rw [hcx]
        · rw [← h2] at h1
          rcases hold1 with h3 | h3
          · rw [h1] at h3; exact absurd (Option.some.inj h3) hcne
          · rw [h1] at h3
            have : (c : Int) = y := Option.some.inj h3
            apply e2
            have hcy : c = y.toNat := by omega
            rw [hcy]
      · rw [if_neg f2]
        by_cases f1 : x.toNat * n + g = v.toNat * n + g1
        · exfalso
          obtain ⟨hvx, hgg⟩ := index_inj hg hg1 f1
          subst hgg
          rw [← f1] at h1
          rcases hold1 with h3 | h3
          · rw [h1] at h3; exact absurd (Option.some.inj h3) hcne
          · rw [h1] at h3
            have : (c : Int) = y := Option.some.inj h3
            apply e2
            have hcy : c = y.toNat := by omega
            rw [hcy]
        · rw [if_neg f1]; exact h1

theorem closes_involutive {n : Nat} {ct ct1 : CosetTable}
    (h : Closes (fun g => g < n) n ct ct1) (hn : ct.ngens = n) (hz : ct1.overwrites = 0)
    (hinv : Involutive ct) : Involutive ct1 ∧ ct1.ngens = n := by
  induction h with
  | refl => exact ⟨hinv, hn⟩
  | step x y g hc hx hy hg hs1 hs2 ih =>
    have hk := keeps_trans (set_keeps hs1) (set_keeps hs2)
    obtain ⟨hi1, hn1⟩ := ih (by have := hk.1; omega)
    refine ⟨sym_write_involutive hi1 hn1 hx hy hg hs1 hs2 hz, ?_⟩
    rw [(set_frame hs2).2.1, (set_frame hs1).2.1, hn1]

theorem getElem?_new_table {t : List Int} {n C idx gs i : Nat} {cs : Int}
    (hlen : t.length = C * n) (hidx : idx < C * n) (hgs : gs < n) :
    (((t.set idx (C : Int)) ++ List.replicate n (-1)).set (C * n + gs) cs)[i]? =
      if i = C * n + gs then some cs
      else if i = idx then some (C : Int)
      else if i < C * n then t[i]?
      else if i < C * n + n then some (-1) else none := by
  rw [List.getElem?_set]
  by_cases h1 : C * n + gs = i
  · subst h1
    simp [hlen, hgs]
  · have h1a : ¬ i = C * n + gs := fun h => h1 h.symm
    simp only [h1, h1a, if_false]
    by_cases h2 : i < C * n
    · rw [List.getElem?_append_left (by simp [hlen, h2]), List.getElem?_set]
      by_cases h3 : idx = i
      · subst h3; simp [hlen, h2]
      · have h3a : ¬ i = idx := fun h => h3 h.symm
        simp [h3, h3a, h2]
    · rw [List.getElem?_append_right (by simp [hlen]; omega)]
      have h3a : ¬ i = idx := by omega
      simp only [h3a, h2, if_false, List.getElem?_replicate, List.length_set, hlen]
      by_cases h4 : i < C * n + n
      · rw [if_pos (by omega), if_pos h4]
      · rw [if_neg (by omega), if_neg h4]

theorem add_coset_involutive {G : Nat → Prop} {cox : Coxeter} {st st2 : State} {hint : Nat}
    {h : Int} (hadd : add_coset cox st hint = .ok (h, st2)) (hi : Inv G cox st hint)
    (hinv : Involutive st.cosets) : Involutive st2.cosets := by
  rcases add_coset_cases hadd with ⟨-, rfl, -⟩ | ⟨c, g, idx, ct1, ct2, hs, h1, h2, -, rfl⟩
  · exact hinv
  · obtain ⟨r, hr, hc, hg, hidx, ht, -⟩ := scan_rows_some _ _ _ hs
    have hlen := hi.wf.1
    rw [hi.ngens_eq] at hlen
    have hcC : c < st.cosets.num_cosets := by omega
    have hidx2 : idx = c * cox.ngens + g := by rw [hidx, hc]; ring
    have hidxlt : idx < st.cosets.num_cosets * cox.ngens := by
      rw [← hlen]; exact (List.getElem?_eq_some.1 ht).1
    have e1 : ct1 = { st.cosets with table := st.cosets.table.set idx st.cosets.num_cosets } := by
      have := @set_undefined st.cosets idx (st.cosets.num_cosets : Int) ht
      rw [this] at h1
      cases h1; rfl
    subst e1
    have hu2 : ((add_row { st with cosets :=
        { st.cosets with table := st.cosets.table.set idx st.cosets.num_cosets } }).cosets.table)[
          st.cosets.num_cosets * cox.ngens + g]? = some (-1) := by
      simp only [add_row, CosetTable.add_row]
      rw [List.getElem?_append_right (by simp [hlen])]
      simp [hlen, hi.ngens_eq, hg]
    have hcast : (st.cosets.num_cosets : Int) * (cox.ngens : Int) + (g : Int) =
        ((st.cosets.num_cosets * cox.ngens + g : Nat) : Int) := by push_cast; ring
    rw [hcast, set_undefined hu2] at h2
    cases h2
    simp only [add_row, CosetTable.add_row, hi.ngens_eq]
    intro c1 g1 v hg1 hv hv0
    simp only [hi.ngens_eq] at hg1 hv ⊢
    rw [getElem?_new_table hlen hidxlt hg] at hv ⊢
    have hn := hi.ngens_eq
    by_cases e2 : c1 * cox.ngens + g1 = st.cosets.num_cosets * cox.ngens + g
    · obtain ⟨hc1, hgg⟩ := index_inj hg1 hg e2
      subst hgg
      rw [if_pos e2] at hv
      have hvc : v = (c : Int) := (Option.some.inj hv).symm
      subst hvc
      simp only [Int.toNat_ofNat]
      rw [if_neg (by omega), if_pos hidx2.symm, hc1]
    · rw [if_neg e2] at hv
      by_cases e1 : c1 * cox.ngens + g1 = idx
      · rw [if_pos e1] at hv
        have hvc : v = (st.cosets.num_cosets : Int) := (Option.some.inj hv).symm
        subst hvc
        simp only [Int.toNat_ofNat]
        rw [hidx2] at e1
        obtain ⟨hc1, hgg⟩ := index_inj hg1 hg e1
        subst hgg
        rw [if_pos rfl, hc1]
      · rw [if_neg e1] at hv
        by_cases e3 : c1 * cox.ngens + g1 < st.cosets.num_cosets * cox.ngens
        · rw [if_pos e3] at hv
          have h3 := hinv c1 g1 v (by rw [hn]; exact hg1) (by rw [hn]; exact hv) hv0
          rw [hn] at h3
          have hlt3 : v.toNat * cox.ngens + g1 < st.cosets.num_cosets * cox.ngens := by
            rw [← hlen]; exact (List.getElem?_eq_some.1 h3).1
          rw [if_neg (by omega), if_pos hlt3]
          by_cases e4 : v.toNat * cox.ngens + g1 = idx
          · exfalso
            rw [e4, ht] at h3
            have := Option.some.inj h3
            omega
          · rw [if_neg e4]; exact h3
        · rw [if_neg e3] at hv
          split at hv
          · have := Option.some.inj hv
            omega
          · cases hv

theorem set_subgens_vals : ∀ (subgens : List Nat) {ct ct1 : CosetTable},
    set_subgens subgens ct = .ok ct1 → (∀ v ∈ ct.table, v = -1 ∨ v = 0) →
      ∀ v ∈ ct1.table, v = -1 ∨ v = 0
  | [], ct, ct1, h, hv => by unfold set_subgens at h; cases h; exact hv
  | gen :: rest, ct, ct1, h, hv => by
    unfold set_subgens at h
    split at h
    · cases h
    · rename_i ct2 hs
      refine set_subgens_vals rest h (fun v hmem => ?_)
      rw [(set_frame hs).2.2.2.2.2] at hmem
      rcases List.mem_or_eq_of_mem_set hmem with h1 | h1
      · exact hv v h1
      · exact Or.inr h1

theorem init_state_involutive {cox : Coxeter} {subgens : List Nat} {st : State}
    (h : init_state cox subgens = .ok st) : Involutive st.cosets := by
  have hi : Inv (fun _ => True) cox st 0 :=
    inv_init (fun _ _ => trivial) (fun _ _ => trivial) h
  have hvals : ∀ v ∈ st.cosets.table, v = -1 ∨ v = 0 := by
    unfold init_state at h
    split at h
    · cases h
    · simp only at h
      split at h
      · cases h
      · rename_i ct hs
        cases h
        exact set_subgens_vals subgens hs (fun v hv => by
          simp only [add_row, CosetTable.add_row, List.nil_append] at hv
          exact Or.inl (List.eq_of_mem_replicate hv))
  have hC : st.cosets.num_cosets = 1 := by
    unfold init_state at h
    split at h
    · cases h
    · simp only at h
      split at h
      · cases h
      · rename_i ct hs
        cases h
        exact (set_subgens_spec subgens hs
          ⟨by simp [add_row, CosetTable.add_row], fun v hv => by
            simp only [add_row, CosetTable.add_row, List.nil_append] at hv
            exact Or.inl (List.eq_of_mem_replicate hv)⟩
          (by simp [add_row, CosetTable.add_row])).2.1
  intro c g v hg hv hv0
  have hv1 : v = 0 := by
    rcases hvals v (List.getElem?_mem hv) with h1 | h1
    · omega
    · exact h1
  have hlt := (List.getElem?_eq_some.1 hv).1
  rw [hi.wf.1, hC, Nat.one_mul] at hlt
  have hc0 : c = 0 := by
    rcases Nat.eq_zero_or_pos c with h0 | h0
    · exact h0
    · exfalso
      have : st.cosets.ngens ≤ c * st.cosets.ngens := Nat.le_mul_of_pos_left _ h0
      omega
  subst hc0
  subst hv1
  simpa using hv

theorem solve_loop_involutive {cox : Coxeter} :
    ∀ (fuel : Nat) {st stf : State} {hint : Nat},
      solve_loop cox fuel st hint = .ok stf → stf.cosets.overwrites = 0 →
      Inv (fun g => g < cox.ngens) cox st hint → Involutive st.cosets →
      Involutive stf.cosets
  | 0, _, _, _, h, _, _, _ => by unfold solve_loop at h; cases h
  | fuel + 1, st, stf, hint, h, hz, hi, hinv => by
    have hi0 : Inv (fun _ => True) cox st hint :=
      ⟨hi.ngens_eq, hi.wf, fun rt hrt => ⟨(hi.rows rt hrt).1, (hi.rows rt hrt).2.1, trivial,
        trivial⟩, hi.below⟩
    have hkall := solve_loop_keeps (fuel + 1) h hi0
    unfold solve_loop at h
    split at h
    · cases h
    · rename_i st1 hl
      have hi1 : Inv (fun g => g < cox.ngens) cox st1 hint := inv_learn_order hl hi
      have hi10 : Inv (fun _ => True) cox st1 hint := inv_learn_order hl hi0
      have hcl := (learn_order_spec _ hl hi.rows).1
      split at h
      · cases h
      · rename_i hh st2 ha
        have hk2 := add_coset_keeps ha
        split at h
        · rename_i hge
          have hi2 := (inv_add_coset ha hi1).1 hge
          have hi20 := (inv_add_coset ha hi10).1 hge
          have hk3 := solve_loop_keeps fuel h hi20
          have hz2 : st2.cosets.overwrites = 0 := by have := hk3.1; omega
          have hz1 : st1.cosets.overwrites = 0 := by have := hk2.1; omega
          have hinv1 := (closes_involutive hcl hi.ngens_eq hz1 hinv).1
          exact solve_loop_involutive fuel h hz hi2 (add_coset_involutive ha hi1 hinv1)
        · cases h
          have hz1 : st1.cosets.overwrites = 0 := by have := hk2.1; omega
          have hinv1 := (closes_involutive hcl hi.ngens_eq hz1 hinv).1
          exact add_coset_involutive ha hi1 hinv1

theorem slot_pairs_lt {n : Nat} {p : Nat × Nat} (h : p ∈ slot_pairs n) :
    p.1 < p.2 ∧ p.2 < n := by
  unfold slot_pairs at h
  simp only [List.mem_flatMap, List.mem_range, List.mem_map, List.mem_range'_1] at h
  obtain ⟨i, hi, j, ⟨hj1, hj2⟩, rfl⟩ := h
  exact ⟨by simp only; omega, by simp only; omega⟩

theorem make_coxeter_gens_lt (n : Nat) (ms : List Mult) :
    (∀ g ∈ (make_coxeter n ms).gen0, g < (make_coxeter n ms).ngens) ∧
      (∀ g ∈ (make_coxeter n ms).gen1, g < (make_coxeter n ms).ngens) := by
  constructor
  · intro g hg
    simp only [make_coxeter, List.mem_map] at hg ⊢
    obtain ⟨p, hp, rfl⟩ := hg
    have := slot_pairs_lt hp
    omega
  · intro g hg
    simp only [make_coxeter, List.mem_map] at hg ⊢
    obtain ⟨p, hp, rfl⟩ := hg
    exact (slot_pairs_lt hp).2

/-- C2 (code). For every Coxeter description whose slot generators are below
`ngens` (as `make_coxeter` builds them) and every `subgens`: when `solve_tc`
returns a table `T` with `C` cosets and no write of the run replaced a defined
entry by a different value (`overwrites = 0`), every generator acts as an
involution: `T[T[c, g], g] = c` for every `c < C` and `g < ngens`. The table
can fail to be an involution only through a closure write of `learn` that
replaces a defined entry. -/
theorem solve_tc_involution (fuel : Nat) (cox : Coxeter) (subgens : List Nat)
    (T : CosetTable) (h0 : ∀ g ∈ cox.gen0, g < cox.ngens)
    (h1 : ∀ g ∈ cox.gen1, g < cox.ngens)
    (h : solve_tc fuel cox subgens = .ok T) (hclean : T.overwrites = 0) :
    ∀ c g, c < T.num_cosets → g < cox.ngens → T.entry (T.entry c g).toNat g = c := by
  intro c g hc hg
  obtain ⟨hn, hlen, hent⟩ := table_complete_of_solve h
  obtain ⟨hv0, hvC⟩ := hent c g hc hg
  have hinv : Involutive T := by
    unfold solve_tc at h
    split at h
    · cases h
    · rename_i st hst
      cases h
      unfold solve_state at hst
      split at hst
      · cases hst
      · rename_i st0 hinit
        exact solve_loop_involutive fuel hst hclean (inv_init h0 h1 hinit)
          (init_state_involutive hinit)
  have hlt : c * T.ngens + g < T.table.length := by
    rw [hlen, hn]
    calc c * cox.ngens + g < c * cox.ngens + cox.ngens := by omega
      _ = (c + 1) * cox.ngens := by ring
      _ ≤ T.num_cosets * cox.ngens := Nat.mul_le_mul_right _ hc
  have h3 := hinv c g (T.entry c g) (by rw [hn]; exact hg) (entry_eq_of_lt hlt) hv0
  unfold CosetTable.entry at h3 ⊢
  rw [List.getD_eq_getElem?_getD, h3]
  rfl

/-- Witness for C2 (code): the dihedral group of order 6 modulo generator 0,
at coset 1 and generator 0 (`T[1, 0] = 2` and `T[2, 0] = 1`). -/
theorem solve_tc_involution_witness :
    solve_tc 3 (make_coxeter 2 [⟨0, 1, 3⟩]) [0] = .ok ⟨[0, 1, 2, 0, 1, 2], 3, 2, 0⟩ ∧
      CosetTable.entry ⟨[0, 1, 2, 0, 1, 2], 3, 2, 0⟩
        (CosetTable.entry ⟨[0, 1, 2, 0, 1, 2], 3, 2, 0⟩ 1 0).toNat 0 = (1 : Nat) :=
  ⟨run_dihedral3_mod0,
    solve_tc_involution 3 (make_coxeter 2 [⟨0, 1, 3⟩]) [0] ⟨[0, 1, 2, 0, 1, 2], 3, 2, 0⟩
      (make_coxeter_gens_lt 2 [⟨0, 1, 3⟩]).1 (make_coxeter_gens_lt 2 [⟨0, 1, 3⟩]).2
      run_dihedral3_mod0 rfl 1 0 (by decide) (by decide)⟩

/-! ## Words in a partial table -/

theorem get_of_neg {ct : CosetTable} {c : Int} {g : Nat} (h : c < 0) : ct.get c g = -1 := by
  unfold CosetTable.get; rw [if_pos h]

theorem get_eq_getD {ct : CosetTable} {c : Int} {g : Nat} (h : 0 ≤ c) :
    ct.get c g = ct.table.getD (c.toNat * ct.ngens + g) (-1) := by
  unfold CosetTable.get CosetTable.entry; rw [if_neg (by omega)]

theorem get_eq_of_getElem? {ct : CosetTable} {c g : Nat} {v : Int}
    (h : ct.table[c * ct.ngens + g]? = some v) : ct.get (c : Int) g = v := by
  rw [get_eq_getD (by omega), List.getD_eq_getElem?_getD, Int.toNat_ofNat, h]; rfl

theorem getElem?_of_get {ct : CosetTable} {c : Int} {g : Nat} (h : 0 ≤ ct.get c g) :
    0 ≤ c ∧ ct.table[c.toNat * ct.ngens + g]? = some (ct.get c g) := by
  have hc : 0 ≤ c := by
    by_contra hneg
    rw [get_of_neg (by omega)] at h
    omega
  refine ⟨hc, ?_⟩
  rw [get_eq_getD hc, List.getD_eq_getElem?_getD] at h ⊢
  cases hg : ct.table[c.toNat * ct.ngens + g]? with
  | none => rw [hg] at h; simp at h
  | some v => simp

theorem apply_word_of_neg {ct : CosetTable} {a b : Nat} :
    ∀ (k i : Nat) {c : Int}, c < 0 → apply_word ct a b k i c < 0
  | 0, _, _, h => by unfold apply_word; exact h
  | k + 1, i, c, h => by
    unfold apply_word
    exact apply_word_of_neg k (i + 1) (by rw [get_of_neg h]; omega)

theorem start_nonneg {ct : CosetTable} {a b k i : Nat} {c : Int}
    (h : 0 ≤ apply_word ct a b k i c) : 0 ≤ c := by
  by_contra hneg
  have := @apply_word_of_neg ct a b k i c (by omega)
  omega

theorem apply_word_add {ct : CosetTable} {a b : Nat} :
    ∀ (j k i : Nat) (c : Int),
      apply_word ct a b (j + k) i c = apply_word ct a b k (i + j) (apply_word ct a b j i c)
  | 0, k, i, c => by simp [apply_word]
  | j + 1, k, i, c => by
    rw [show j + 1 + k = (j + k) + 1 by omega]
    simp only [apply_word]
    rw [apply_word_add j k (i + 1), show i + 1 + j = i + (j + 1) by omega]

theorem apply_word_one {ct : CosetTable} {a b i : Nat} {c : Int} :
    apply_word ct a b 1 i c = ct.get c (if i % 2 = 0 then a else b) := by
  unfold apply_word; unfold apply_word; rfl

theorem apply_word_succ_right {ct : CosetTable} {a b : Nat} (k i : Nat) (c : Int) :
    apply_word ct a b (k + 1) i c =
      ct.get (apply_word ct a b k i c) (if (i + k) % 2 = 0 then a else b) := by
  rw [apply_word_add k 1 i c, apply_word_one]

theorem apply_word_parity {ct : CosetTable} {a b : Nat} :
    ∀ (k i j : Nat) (c : Int), i % 2 = j % 2 →
      apply_word ct a b k i c = apply_word ct a b k j c
  | 0, _, _, _, _ => by simp [apply_word]
  | k + 1, i, j, c, h => by
    unfold apply_word
    rw [h]
    exact apply_word_parity k (i + 1) (j + 1) _ (by omega)

theorem apply_word_swap {ct : CosetTable} {a b : Nat} :
    ∀ (k i : Nat) (c : Int), apply_word ct a b k (i + 1) c = apply_word ct b a k i c
  | 0, _, _ => by simp [apply_word]
  | k + 1, i, c => by
    unfold apply_word
    rw [apply_word_swap k (i + 1)]
    congr 1
    rcases Nat.mod_two_eq_zero_or_one i with h | h
    · have h2 : (i + 1) % 2 = 1 := by omega
      simp [h, h2]
    · have h2 : (i + 1) % 2 = 0 := by omega
      simp [h, h2]

theorem ext_trans {a b c : CosetTable} (h1 : Ext a b) (h2 : Ext b c) : Ext a c := by
  refine ⟨by rw [h2.1, h1.1], fun x g hg h0 => ?_⟩
  have e1 := h1.2 x g hg h0
  rw [← e1]
  exact h2.2 x g (by rw [h1.1]; exact hg) (by rw [e1]; exact h0)

theorem apply_word_ext {ct ct1 : CosetTable} {a b : Nat} (he : Ext ct ct1)
    (ha : a < ct.ngens) (hb : b < ct.ngens) :
    ∀ (k i : Nat) (c : Int), 0 ≤ apply_word ct a b k i c →
      apply_word ct1 a b k i c = apply_word ct a b k i c
  | 0, _, _, _ => by simp [apply_word]
  | k + 1, i, c, h => by
    unfold apply_word at h ⊢
    have h1 := start_nonneg h
    have hl : (if i % 2 = 0 then a else b) < ct.ngens := by split <;> assumption
    rw [he.2 c _ hl h1]
    exact apply_word_ext he ha hb k (i + 1) _ h

theorem involutive_get {ct : CosetTable} (hinv : Involutive ct) {c : Int} {g : Nat}
    (hg : g < ct.ngens) (h : 0 ≤ ct.get c g) : ct.get (ct.get c g) g = c := by
  obtain ⟨hc, he⟩ := getElem?_of_get h
  have h1 := hinv c.toNat g _ hg he h
  have h2 := get_eq_of_getElem? h1
  rw [Int.toNat_of_nonneg h] at h2
  rw [h2, Int.toNat_of_nonneg hc]

/-! ## Relator words are cyclic in an involutive table -/

theorem apply_word_reverse {ct : CosetTable} (hinv : Involutive ct) {a b : Nat}
    (ha : a < ct.ngens) (hb : b < ct.ngens) :
    ∀ (k i : Nat) (x : Int), 0 ≤ apply_word ct a b k i x →
      apply_word ct a b k (i + k + 1) (apply_word ct a b k i x) = x
  | 0, _, _, _ => by simp [apply_word]
  | k + 1, i, x, h => by
    have e1 := @apply_word_succ_right ct a b k i x
    rw [e1] at h ⊢
    have hl : (if (i + k) % 2 = 0 then a else b) < ct.ngens := by split <;> assumption
    have hw := involutive_get hinv hl h
    have hw0 : 0 ≤ apply_word ct a b k i x := (getElem?_of_get h).1
    rw [apply_word]
    have hpar : (i + (k + 1) + 1) % 2 = (i + k) % 2 := by omega
    rw [hpar, hw]
    rw [apply_word_parity k (i + (k + 1) + 1 + 1) (i + k + 1) _ (by omega)]
    exact apply_word_reverse hinv ha hb k i x hw0

theorem relator_flip {ct : CosetTable} (hinv : Involutive ct) {a b : Nat}
    (ha : a < ct.ngens) (hb : b < ct.ngens) {m : Nat} {c : Int}
    (h : apply_word ct a b (2 * m) 0 c = c) (hc : 0 ≤ c) :
    apply_word ct b a (2 * m) 0 c = c := by
  have h1 := apply_word_reverse hinv ha hb (2 * m) 0 c (by rw [h]; exact hc)
  rw [h, apply_word_parity (2 * m) (0 + 2 * m + 1) (0 + 1) c (by omega), apply_word_swap] at h1
  exact h1

theorem relator_step_first {ct : CosetTable} (hinv : Involutive ct) {a b : Nat}
    (ha : a < ct.ngens) (hb : b < ct.ngens) {m : Nat} {c : Int}
    (h : apply_word ct a b (2 * m) 0 c = c) (hc : 0 ≤ c) (hz : 0 ≤ ct.get c a) :
    apply_word ct a b (2 * m) 0 (ct.get c a) = ct.get c a := by
  rcases Nat.eq_zero_or_pos m with h0 | h0
  · subst h0; simp [apply_word]
  · have hf := relator_flip hinv ha hb h hc
    rw [← apply_word_swap] at hf
    obtain ⟨j, hj⟩ : ∃ j, 2 * m = j + 1 := ⟨2 * m - 1, by omega⟩
    rw [hj] at hf ⊢
    rw [apply_word_succ_right] at hf
    have hpar : (0 + 1 + j) % 2 = 0 := by omega
    rw [if_pos hpar] at hf
    have hw := involutive_get hinv ha (by rw [hf]; exact hc)
    rw [hf] at hw
    conv_lhs => rw [apply_word]
    rw [if_pos (by rfl), involutive_get hinv ha hz]
    exact hw.symm

theorem relator_step_second {ct : CosetTable} (hinv : Involutive ct) {a b : Nat}
    (ha : a < ct.ngens) (hb : b < ct.ngens) {m : Nat} {c : Int}
    (h : apply_word ct a b (2 * m) 0 c = c) (hc : 0 ≤ c) (hz : 0 ≤ ct.get c b) :
    apply_word ct a b (2 * m) 0 (ct.get c b) = ct.get c b :=
  relator_flip hinv hb ha
    (relator_step_first hinv hb ha (relator_flip hinv ha hb h hc) hc hz) hz

theorem conn_nonneg {ct : CosetTable} {a b : Nat} {x y : Int}
    (h : Conn ct a b x y) (hx : 0 ≤ x) : 0 ≤ y := by
  induction h with
  | refl => exact hx
  | first _ hz _ => exact hz
  | second _ hz _ => exact hz

/-- Pruning is sound: in an involutive table, when the relator of even length
returns to `x`, it returns to every coset reached from `x` through entries of
its two generators. -/
theorem relator_holds_of_conn {ct : CosetTable} (hinv : Involutive ct) {a b : Nat}
    (ha : a < ct.ngens) (hb : b < ct.ngens) {m : Nat} {x y : Int}
    (h : apply_word ct a b (2 * m) 0 x = x) (hx : 0 ≤ x) (hc : Conn ct a b x y) :
    apply_word ct a b (2 * m) 0 y = y := by
  induction hc with
  | refl => exact h
  | first hxy hz ih =>
    exact relator_step_first hinv ha hb ih (conn_nonneg hxy hx) hz
  | second hxy hz ih =>
    exact relator_step_second hinv ha hb ih (conn_nonneg hxy hx) hz

/-! ## Scan rows -/

theorem row_eq_some {rt : RelTable} {k : Nat} {i s_i s_c e_i e_c : Int} :
    rt.row k = some (i, s_i, s_c, e_i, e_c) ↔
      k < rt.num_rows ∧ rt.init_cosets[k]? = some i ∧ rt.start_inds[k]? = some s_i ∧
        rt.start_cosets[k]? = some s_c ∧ rt.end_inds[k]? = some e_i ∧
        rt.end_cosets[k]? = some e_c := by
  unfold RelTable.row
  constructor
  · intro h
    split at h
    · rename_i hk
      split at h
      · rename_i h1 h2 h3 h4 h5
        simp only [Option.some.injEq, Prod.mk.injEq] at h
        obtain ⟨rfl, rfl, rfl, rfl, rfl⟩ := h
        exact ⟨hk, h1, h2, h3, h4, h5⟩
      · cases h
    · cases h
  · rintro ⟨hk, h1, h2, h3, h4, h5⟩
    rw [if_pos hk, h1, h2, h3, h4, h5]

theorem row_lt {rt : RelTable} {k : Nat} {r : Int × Int × Int × Int × Int}
    (h : rt.row k = some r) : k < rt.num_rows := by
  obtain ⟨i, s_i, s_c, e_i, e_c⟩ := r
  exact (row_eq_some.1 h).1

theorem exists_getElem? {l : List Int} {k : Nat} (h : k < l.length) : ∃ x, l[k]? = some x :=
  ⟨l[k], List.getElem?_eq_getElem h⟩

theorem row_of_lt {rt : RelTable} (hl : rt.Lens) {k : Nat} (h : k < rt.num_rows) :
    ∃ i s_i s_c e_i e_c, rt.row k = some (i, s_i, s_c, e_i, e_c) := by
  obtain ⟨i, h1⟩ := @exists_getElem? rt.init_cosets k (lt_of_lt_of_le h hl.init)
  obtain ⟨s_i, h2⟩ := @exists_getElem? rt.start_inds k (lt_of_lt_of_le h hl.si)
  obtain ⟨s_c, h3⟩ := @exists_getElem? rt.start_cosets k (lt_of_lt_of_le h hl.sc)
  obtain ⟨e_i, h4⟩ := @exists_getElem? rt.end_inds k (lt_of_lt_of_le h hl.ei)
  obtain ⟨e_c, h5⟩ := @exists_getElem? rt.end_cosets k (lt_of_lt_of_le h hl.ec)
  exact ⟨i, s_i, s_c, e_i, e_c, row_eq_some.2 ⟨h, h1, h2, h3, h4, h5⟩⟩

theorem row_init {rt : RelTable} {k : Nat} {r : Int × Int × Int × Int × Int}
    (h : rt.row k = some r) : rt.init_cosets[k]? = some r.1 := by
  obtain ⟨i, s_i, s_c, e_i, e_c⟩ := r
  exact (row_eq_some.1 h).2.1

/-- Two tables with the same size and the same slots below it have the same
scan rows. -/
theorem row_congr {rt rt1 : RelTable} {k : Nat} (hn : rt1.num_rows = rt.num_rows)
    (h1 : rt1.init_cosets[k]? = rt.init_cosets[k]?)
    (h2 : rt1.start_inds[k]? = rt.start_inds[k]?)
    (h3 : rt1.start_cosets[k]? = rt.start_cosets[k]?)
    (h4 : rt1.end_inds[k]? = rt.end_inds[k]?)
    (h5 : rt1.end_cosets[k]? = rt.end_cosets[k]?) : rt1.row k = rt.row k := by
  unfold RelTable.row
  rw [hn, h1, h2, h3, h4, h5]

theorem move_last_spec {v w : List Int} {idx n : Nat} (h : move_last v idx n = .ok w) :
    n < v.length ∧ idx < v.length ∧ w.length = v.length ∧
      ∀ k, w[k]? = if k = idx then v[n]? else v[k]? := by
  unfold move_last at h
  simp only [bind_eq_ok, rd_nat_eq_ok, wr_nat_eq_ok] at h
  obtain ⟨x, hx, hidx, rfl⟩ := h
  refine ⟨(List.getElem?_eq_some.1 hx).1, hidx, List.length_set _ _ _, fun k => ?_⟩
  rw [List.getElem?_set]
  by_cases hki : k = idx
  · subst hki
    rw [if_pos rfl, if_pos rfl, if_pos hidx, hx]
  · rw [if_neg (fun h => hki h.symm), if_neg hki]

/-- What `rem_row(idx)` does, for every `idx` at which it has a result: one
row less; a row `k` below the new size is the old last row if `k = idx` and
the old row `k` otherwise; `coset_poss` of the old last row's `init` is `idx`,
then `coset_poss` of the `init` in slot `idx` is `-1`. -/
theorem rem_row_spec {rt rt1 : RelTable} {idx : Nat} (hl : rt.Lens)
    (h : rt.rem_row idx = .ok rt1) :
    0 < rt.num_rows ∧ rt1.num_rows = rt.num_rows - 1 ∧ rt1.Lens ∧
      rt1.gen0 = rt.gen0 ∧ rt1.gen1 = rt.gen1 ∧ rt1.end_ind = rt.end_ind ∧
      (∀ k, rt1.row k =
        if k < rt.num_rows - 1 then
          (if k = idx then rt.row (rt.num_rows - 1) else rt.row k)
        else none) ∧
      ∃ (a b : Int) (cp1 : List Int),
        rt.init_cosets[rt.num_rows - 1]? = some a ∧ rt.init_cosets[idx]? = some b ∧
        wr rt.coset_poss a idx = .ok cp1 ∧ wr cp1 b (-1) = .ok rt1.coset_poss ∧
        ∀ k, rt1.init_cosets[k]? = if k = idx then some a else rt.init_cosets[k]? := by
  unfold RelTable.rem_row at h
  split at h
  · cases h
  · rename_i hne
    simp only [bind_eq_ok, rd_nat_eq_ok] at h
    obtain ⟨a, ha, cp1, hcp1, b, hb, cp2, hcp2, ic, hic, sc, hsc, ec, hec, si, hsi, ei, hei, h⟩ := h
    cases h
    obtain ⟨-, -, h1b, h1c⟩ := move_last_spec hic
    obtain ⟨-, -, h2b, h2c⟩ := move_last_spec hsc
    obtain ⟨-, -, h3b, h3c⟩ := move_last_spec hec
    obtain ⟨-, -, h4b, h4c⟩ := move_last_spec hsi
    obtain ⟨-, -, h5b, h5c⟩ := move_last_spec hei
    have hlt : rt.num_rows - 1 < rt.num_rows := by omega
    refine ⟨by omega, rfl, ⟨?_, ?_, ?_, ?_, ?_⟩, rfl, rfl, rfl, fun k => ?_,
      a, b, cp1, ha, hb, hcp1, hcp2, fun k => ?_⟩
    · show rt.num_rows - 1 ≤ ic.length
      rw [h1b]; exact le_trans (Nat.sub_le _ _) hl.init
    · show rt.num_rows - 1 ≤ si.length
      rw [h4b]; exact le_trans (Nat.sub_le _ _) hl.si
    · show rt.num_rows - 1 ≤ sc.length
      rw [h2b]; exact le_trans (Nat.sub_le _ _) hl.sc
    · show rt.num_rows - 1 ≤ ei.length
      rw [h5b]; exact le_trans (Nat.sub_le _ _) hl.ei
    · show rt.num_rows - 1 ≤ ec.length
      rw [h3b]; exact le_trans (Nat.sub_le _ _) hl.ec
    · unfold RelTable.row
      simp only [h1c, h2c, h3c, h4c, h5c]
      by_cases hk : k < rt.num_rows - 1
      · rw [if_pos hk, if_pos hk]
        by_cases hki : k = idx
        · rw [if_pos hki, if_pos hki, if_pos hki, if_pos hki, if_pos hki, if_pos hki,
            if_pos hlt]
        · rw [if_neg hki, if_neg hki, if_neg hki, if_neg hki, if_neg hki, if_neg hki,
            if_pos (by omega)]
      · rw [if_neg hk, if_neg hk]
    · rw [h1c k, ha]

theorem rem_row_gens_eq {rt rt1 : RelTable} {idx : Nat} (h : rt.rem_row idx = .ok rt1) :
    rt1.num_rows = rt.num_rows - 1 ∧ 0 < rt.num_rows := by
  unfold RelTable.rem_row at h
  split at h
  · cases h
  · rename_i hne
    simp only [bind_eq_ok] at h
    obtain ⟨a, ha, cp1, hcp1, b, hb, cp2, hcp2, ic, hic, sc, hsc, ec, hec, si, hsi, ei, hei, h⟩ := h
    cases h
    exact ⟨rfl, by omega⟩

theorem gens_cases (rt : RelTable) (j : Int) : rt.gens j = rt.gen0 ∨ rt.gens j = rt.gen1 := by
  unfold RelTable.gens
  split
  · exact Or.inl rfl
  · exact Or.inr rfl

theorem gens_congr {rt rt1 : RelTable} (h0 : rt1.gen0 = rt.gen0) (h1 : rt1.gen1 = rt.gen1)
    (j : Int) : rt1.gens j = rt.gens j := by
  unfold RelTable.gens
  rw [h0, h1]

theorem rem_row_lengths {rt rt1 : RelTable} {idx : Nat} (h : rt.rem_row idx = .ok rt1) :
    rt1.init_cosets.length = rt.init_cosets.length ∧
      rt1.start_inds.length = rt.start_inds.length ∧
      rt1.start_cosets.length = rt.start_cosets.length ∧
      rt1.end_inds.length = rt.end_inds.length ∧
      rt1.end_cosets.length = rt.end_cosets.length ∧
      rt1.coset_poss.length = rt.coset_poss.length := by
  unfold RelTable.rem_row at h
  split at h
  · cases h
  · simp only [bind_eq_ok, rd_nat_eq_ok] at h
    obtain ⟨a, ha, cp1, hcp1, b, hb, cp2, hcp2, ic, hic, sc, hsc, ec, hec, si, hsi, ei, hei, h⟩ := h
    cases h
    exact ⟨(move_last_spec hic).2.2.1, (move_last_spec hsi).2.2.1, (move_last_spec hsc).2.2.1,
      (move_last_spec hei).2.2.1, (move_last_spec hec).2.2.1,
      (wr_length hcp2).trans (wr_length hcp1)⟩

/-! ## Reachability and single entries -/

theorem conn_step {ct : CosetTable} {a b g : Nat} {x y : Int} (h : Conn ct a b x y)
    (hg : g = a ∨ g = b) (hz : 0 ≤ ct.get y g) : Conn ct a b x (ct.get y g) := by
  rcases hg with rfl | rfl
  · exact Conn.first h hz
  · exact Conn.second h hz

theorem conn_of_apply_word {ct : CosetTable} {a b : Nat} :
    ∀ (k i : Nat) (x : Int), 0 ≤ apply_word ct a b k i x →
      Conn ct a b x (apply_word ct a b k i x)
  | 0, _, x, _ => by unfold apply_word; exact Conn.refl x
  | k + 1, i, x, h => by
    rw [apply_word_succ_right] at h ⊢
    have h0 := (getElem?_of_get h).1
    refine conn_step (conn_of_apply_word k i x h0) ?_ h
    split
    · exact Or.inl rfl
    · exact Or.inr rfl

theorem gens_eq {rt : RelTable} {j : Int} (hj : 0 ≤ j) :
    rt.gens j = if j.toNat % 2 = 0 then rt.gen0 else rt.gen1 := by
  unfold RelTable.gens
  by_cases h : j % 2 = 0
  · rw [if_pos h, if_pos (by omega)]
  · rw [if_neg h, if_neg (by omega)]

theorem get_of_set {ct ct1 : CosetTable} {c v : Int} {g : Nat} (hc : 0 ≤ c)
    (h : ct.set (c * ct.ngens + g) v = .ok ct1) : ct1.get c g = v := by
  obtain ⟨-, hn, -, -, hlt, ht⟩ := set_frame h
  rw [toNat_index hc] at hlt ht
  rw [get_eq_getD hc, List.getD_eq_getElem?_getD, hn, ht, List.getElem?_set_self hlt]
  rfl

/-! ## The terminal value of `add_coset` and the scan hint -/

theorem scan_rows_skip {table : List Int} {n : Nat} :
    ∀ (r k c idx : Nat), (∀ j < r * n, Defined table (idx + j)) →
      scan_rows table n (r + k) c idx = scan_rows table n k (c + r) (idx + r * n)
  | 0, k, c, idx, _ => by simp
  | r + 1, k, c, idx, hd => by
    have hmul : (r + 1) * n = r * n + n := by ring
    rw [show r + 1 + k = (r + k) + 1 by omega]
    conv_lhs => unfold scan_rows
    rw [scan_gens_all n 0 idx (fun j hj => hd j (by omega))]
    simp only
    rw [scan_rows_skip r k (c + 1) (idx + n) (fun j hj => by
      have := hd (n + j) (by omega)
      rwa [show idx + (n + j) = idx + n + j by omega] at this)]
    rw [show c + 1 + r = c + (r + 1) by omega, show idx + n + r * n = idx + (r + 1) * n by omega]

theorem scan_rows_all {table : List Int} {n : Nat} (k c idx : Nat)
    (hd : ∀ j < k * n, Defined table (idx + j)) : scan_rows table n k c idx = .ok none := by
  have := scan_rows_skip k 0 c idx hd
  rw [Nat.add_zero] at this
  rw [this]
  unfold scan_rows
  rfl

theorem defined_iff_entry {ct : CosetTable} {c g : Nat} :
    Defined ct.table (c * ct.ngens + g) ↔ ct.entry c g ≠ -1 := by
  unfold Defined CosetTable.entry
  rw [List.getD_eq_getElem?_getD]
  constructor
  · rintro ⟨v, hv, hne⟩
    rw [hv]
    exact hne
  · intro h
    cases hg : ct.table[c * ct.ngens + g]? with
    | none => rw [hg] at h; exact absurd rfl h
    | some v => rw [hg] at h; exact ⟨v, rfl, h⟩

theorem defined_rows {t : List Int} {n lo hi : Nat}
    (h : ∀ c g, lo ≤ c → c < hi → g < n → Defined t (c * n + g)) :
    ∀ j < (hi - lo) * n, Defined t (lo * n + j) := by
  intro j hj
  have hpos : 0 < n := by
    rcases Nat.eq_zero_or_pos n with h0 | h0
    · subst h0; simp at hj
    · exact h0
  have hlt : lo < hi := by
    by_contra hc
    have : hi - lo = 0 := by omega
    rw [this] at hj
    simp at hj
  have hsum : lo * n + (hi - lo) * n = hi * n := by
    rw [← Nat.add_mul]; congr 1; omega
  have hdm : (lo * n + j) / n * n + (lo * n + j) % n = lo * n + j := by
    rw [Nat.mul_comm]; exact Nat.div_add_mod _ _
  have h1 : lo ≤ (lo * n + j) / n := by
    rw [Nat.le_div_iff_mul_le hpos]; omega
  have h2 : (lo * n + j) / n < hi := by
    rw [Nat.div_lt_iff_lt_mul hpos]; omega
  have := h _ _ h1 h2 (Nat.mod_lt (lo * n + j) hpos)
  rwa [hdm] at this

theorem rows_defined {t : List Int} {n lo hi : Nat}
    (h : ∀ j < (hi - lo) * n, Defined t (lo * n + j)) :
    ∀ c g, lo ≤ c → c < hi → g < n → Defined t (c * n + g) := by
  intro c g hc1 hc2 hg
  have e1 : lo * n + (c - lo) * n = c * n := by
    rw [← Nat.add_mul]; congr 1; omega
  have e2 : (c - lo) * n + n ≤ (hi - lo) * n := by
    have : (c - lo + 1) * n ≤ (hi - lo) * n := Nat.mul_le_mul_right _ (by omega)
    rwa [Nat.add_mul, Nat.one_mul] at this
  have := h ((c - lo) * n + g) (by omega)
  rwa [show lo * n + ((c - lo) * n + g) = c * n + g by omega] at this

/-- C11. `add_coset` returns the terminal value `-1` if and only if no entry in
the rows `hint .. C-1` is UNDEFINED, and in that case the coset table,
`num_cosets` and every relation table are left unchanged. -/
theorem add_coset_terminal (cox : Coxeter) (st : State) (hint : Nat)
    (hn : st.cosets.ngens = cox.ngens) :
    ((∃ st2, add_coset cox st hint = .ok (-1, st2)) ↔
      ∀ c g, hint ≤ c → c < st.cosets.num_cosets → g < cox.ngens →
        st.cosets.entry c g ≠ -1) ∧
    ∀ st2, add_coset cox st hint = .ok (-1, st2) → st2 = st := by
  have hcase : ∀ st2, add_coset cox st hint = .ok (-1, st2) → st2 = st ∧
      scan_rows st.cosets.table cox.ngens (st.cosets.num_cosets - hint) hint
        (hint * cox.ngens) = .ok none := by
    intro st2 h
    rcases add_coset_cases h with ⟨-, h2, h3⟩ | ⟨c, g, idx, ct1, ct2, -, -, -, hc, -⟩
    · exact ⟨h2, h3⟩
    · omega
  refine ⟨⟨?_, ?_⟩, fun st2 h => (hcase st2 h).1⟩
  · rintro ⟨st2, h⟩ c g hc1 hc2 hg
    have hd := rows_defined (scan_rows_none _ _ _ (hcase st2 h).2) c g hc1 hc2 hg
    rw [← hn] at hd
    exact defined_iff_entry.1 hd
  · intro h
    refine ⟨st, ?_⟩
    have hd : ∀ j < (st.cosets.num_cosets - hint) * cox.ngens,
        Defined st.cosets.table (hint * cox.ngens + j) :=
      defined_rows (fun c g hc1 hc2 hg => by
        have := defined_iff_entry.2 (h c g hc1 hc2 hg)
        rwa [hn] at this)
    unfold add_coset
    simp only
    rw [scan_rows_all _ _ _ hd]

/-- Witness for C11: a complete table of one row. -/
theorem add_coset_terminal_witness :
    ∃ st2, add_coset (make_coxeter 2 []) ⟨⟨[0, 0], 1, 2, 0⟩, []⟩ 0 = .ok (-1, st2) :=
  (add_coset_terminal (make_coxeter 2 []) ⟨⟨[0, 0], 1, 2, 0⟩, []⟩ 0 rfl).1.2
    (fun c g _ hc hg => by
      have hc0 : c = 0 := by simpa using hc
      have hg2 : g < 2 := hg
      subst hc0
      interval_cases g <;> decide)

theorem add_coset_hint_zero {G : Nat → Prop} {cox : Coxeter} {st : State} {hint : Nat}
    (hi : Inv G cox st hint) : add_coset cox st hint = add_coset cox st 0 := by
  have hskip : scan_rows st.cosets.table cox.ngens (st.cosets.num_cosets - hint) hint
      (hint * cox.ngens) =
      scan_rows st.cosets.table cox.ngens (st.cosets.num_cosets - 0) 0 (0 * cox.ngens) := by
    by_cases hle : hint ≤ st.cosets.num_cosets
    · have := @scan_rows_skip st.cosets.table cox.ngens hint (st.cosets.num_cosets - hint) 0 0
        (fun j hj => by rw [Nat.zero_add]; exact hi.below j hj)
      rw [show hint + (st.cosets.num_cosets - hint) = st.cosets.num_cosets - 0 by omega,
        Nat.zero_add, Nat.zero_add] at this
      rw [Nat.zero_mul, this]
    · have h0 : st.cosets.num_cosets - hint = 0 := by omega
      rw [h0, Nat.sub_zero]
      rw [scan_rows_all st.cosets.num_cosets 0 (0 * cox.ngens) (fun j hj => by
        rw [Nat.zero_mul, Nat.zero_add]
        exact hi.below j (lt_of_lt_of_le hj (Nat.mul_le_mul_right _ (by omega))))]
      unfold scan_rows
      rfl
  unfold add_coset
  simp only
  rw [hskip]

/-- C13. At every call of `add_coset` made by `solve_tc`, every row below the
scan hint is fully defined, so `add_coset` with the current hint and with hint
0 give the same result; and the hint it returns is not below the one it got. -/
theorem add_coset_hint_sound (cox : Coxeter) (subgens : List Nat) (st0 : State)
    (hinit : init_state cox subgens = .ok st0) :
    ∀ (k : Nat) (h : Int) (st st1 : State),
      iterate_loop cox k 0 st0 = .ok (h, st) → 0 ≤ h → learn cox st = .ok st1 →
      (∀ c g, c < h.toNat → g < cox.ngens → st1.cosets.entry c g ≠ -1) ∧
      add_coset cox st1 h.toNat = add_coset cox st1 0 ∧
      ∀ (h2 : Int) (st2 : State), add_coset cox st1 h.toNat = .ok (h2, st2) → 0 ≤ h2 →
        h ≤ h2 := by
  intro k h st st1 hit h0 hl
  have hi0 : Inv (fun _ => True) cox st0 (0 : Int).toNat :=
    inv_init (fun _ _ => trivial) (fun _ _ => trivial) hinit
  have hi := iterate_loop_inv k hit (le_refl 0) hi0 h0
  have hi1 : Inv (fun _ => True) cox st1 h.toNat := inv_learn_order hl hi
  refine ⟨fun c g hc hg => ?_, add_coset_hint_zero hi1, fun h2 st2 ha h20 => ?_⟩
  · have hlt : c * cox.ngens + g < h.toNat * cox.ngens := by
      calc c * cox.ngens + g < c * cox.ngens + cox.ngens := by omega
        _ = (c + 1) * cox.ngens := by ring
        _ ≤ h.toNat * cox.ngens := Nat.mul_le_mul_right _ hc
    have := hi1.below _ hlt
    rw [← hi1.ngens_eq] at this
    exact defined_iff_entry.1 this
  · rcases add_coset_cases ha with ⟨hneg, -, -⟩ | ⟨c, g, idx, ct1, ct2, hs, -, -, hc, -⟩
    · omega
    · obtain ⟨r, -, hcr, -⟩ := scan_rows_some _ _ _ hs
      omega

theorem hypercube3_learn_4 :
    (learn (hypercube 3) hypercube3_state_4).isOk = true := by decide!

/-- Witness for C13: the fifth call of `learn` in the run on `hypercube(3)`,
with scan hint 1. -/
theorem add_coset_hint_sound_witness :
    init_state (hypercube 3) [] = .ok hypercube3_state_0 ∧
    iterate_loop (hypercube 3) 4 0 hypercube3_state_0 = .ok (1, hypercube3_state_4) ∧
    ∃ st1, learn (hypercube 3) hypercube3_state_4 = .ok st1 ∧
      (∀ c g, c < (1 : Int).toNat → g < (hypercube 3).ngens → st1.cosets.entry c g ≠ -1) ∧
      add_coset (hypercube 3) st1 (1 : Int).toNat = add_coset (hypercube 3) st1 0 := by
  refine ⟨hypercube3_init, hypercube3_steps_4, ?_⟩
  cases hl : learn (hypercube 3) hypercube3_state_4 with
  | error e =>
    have h := hypercube3_learn_4
    rw [hl] at h
    cases h
  | ok st1 =>
    have h := add_coset_hint_sound (hypercube 3) [] hypercube3_state_0 hypercube3_init 4 1
      hypercube3_state_4 st1 hypercube3_steps_4 (by decide) hl
    exact ⟨st1, rfl, h.1, h.2.1⟩

/-! ## The slots of `make_coxeter` -/

theorem push_back_get {v : List Int} {n : Nat} (x : Int) (h : n ≤ v.length) (k : Nat) :
    (push_back v n x)[k]? = if k = n then some x else v[k]? := by
  by_cases hk : k = n
  · rw [if_pos hk, hk]
    exact push_back_self x h
  · rw [if_neg hk]
    unfold push_back
    split
    · exact List.getElem?_set_ne (fun hc => hk hc.symm)
    · have hn : n = v.length := by omega
      by_cases hlt : k < v.length
      · exact List.getElem?_append_left hlt
      · rw [List.getElem?_eq_none (by simp; omega), List.getElem?_eq_none (by omega)]

theorem move_last_ok {v : List Int} {idx n : Nat} (hn : n < v.length) (hidx : idx < v.length) :
    ∃ w, move_last v idx n = .ok w := by
  obtain ⟨x, hx⟩ := @exists_getElem? v n hn
  refine ⟨v.set idx x, ?_⟩
  unfold move_last
  simp only [bind_eq_ok, rd_nat_eq_ok, wr_nat_eq_ok]
  exact ⟨x, hx, hidx, rfl⟩

theorem rem_row_ok {rt : RelTable} {k : Nat} (hl : rt.Lens) (hk : k < rt.num_rows)
    (hr : ∀ (j : Nat) (x : Int), j < rt.num_rows → rt.init_cosets[j]? = some x →
      0 ≤ x ∧ x.toNat < rt.coset_poss.length) :
    ∃ rt1, rt.rem_row k = .ok rt1 := by
  have hn : rt.num_rows - 1 < rt.num_rows := by omega
  obtain ⟨a, ha⟩ := @exists_getElem? rt.init_cosets (rt.num_rows - 1)
    (lt_of_lt_of_le hn hl.init)
  obtain ⟨b, hb⟩ := @exists_getElem? rt.init_cosets k (lt_of_lt_of_le hk hl.init)
  obtain ⟨ha0, hal⟩ := hr _ a hn ha
  obtain ⟨hb0, hbl⟩ := hr _ b hk hb
  obtain ⟨ic, hic⟩ := @move_last_ok rt.init_cosets k _ (lt_of_lt_of_le hn hl.init)
    (lt_of_lt_of_le hk hl.init)
  obtain ⟨sc, hsc⟩ := @move_last_ok rt.start_cosets k _ (lt_of_lt_of_le hn hl.sc)
    (lt_of_lt_of_le hk hl.sc)
  obtain ⟨ec, hec⟩ := @move_last_ok rt.end_cosets k _ (lt_of_lt_of_le hn hl.ec)
    (lt_of_lt_of_le hk hl.ec)
  obtain ⟨si, hsi⟩ := @move_last_ok rt.start_inds k _ (lt_of_lt_of_le hn hl.si)
    (lt_of_lt_of_le hk hl.si)
  obtain ⟨ei, hei⟩ := @move_last_ok rt.end_inds k _ (lt_of_lt_of_le hn hl.ei)
    (lt_of_lt_of_le hk hl.ei)
  refine ⟨{ rt with
    coset_poss := (rt.coset_poss.set a.toNat k).set b.toNat (-1), init_cosets := ic,
    start_cosets := sc, end_cosets := ec, start_inds := si, end_inds := ei,
    num_rows := rt.num_rows - 1,
    stale := if k ≤ rt.num_rows - 1 then rt.stale else rt.stale + 5 }, ?_⟩
  unfold RelTable.rem_row
  rw [if_neg (by omega)]
  simp only [bind_eq_ok, rd_nat_eq_ok]
  exact ⟨a, ha, _, wr_eq_ok.2 ⟨ha0, hal, rfl⟩, b, hb, _,
    wr_eq_ok.2 ⟨hb0, by simpa using hbl, rfl⟩, ic, hic, sc, hsc, ec, hec, si, hsi, ei, hei, rfl⟩

theorem rem_row_stale {rt rt1 : RelTable} {idx : Nat} (h : rt.rem_row idx = .ok rt1) :
    rt1.stale = if idx ≤ rt.num_rows - 1 then rt.stale else rt.stale + 5 := by
  unfold RelTable.rem_row at h
  split at h
  · cases h
  · simp only [bind_eq_ok] at h
    obtain ⟨a, -, cp1, -, b, -, cp2, -, ic, -, sc, -, ec, -, si, -, ei, -, h⟩ := h
    cases h
    rfl

theorem rem_row_frame_of {rt : RelTable} {k : Nat} (hl : rt.Lens) (hk : k < rt.num_rows)
    (hr : ∀ (j : Nat) (x : Int), j < rt.num_rows → rt.init_cosets[j]? = some x →
      0 ≤ x ∧ x.toNat < rt.coset_poss.length)
    (hnd : ∀ (i j : Nat) (x : Int), i < rt.num_rows → j < rt.num_rows →
      rt.init_cosets[i]? = some x → rt.init_cosets[j]? = some x → i = j) :
    ∃ (rt1 : RelTable) (a b : Int), rt.rem_row k = .ok rt1 ∧
      rt.init_cosets[rt.num_rows - 1]? = some a ∧ rt.init_cosets[k]? = some b ∧
      rt1.num_rows = rt.num_rows - 1 ∧ rt1.Lens ∧
      rt1.gen0 = rt.gen0 ∧ rt1.gen1 = rt.gen1 ∧ rt1.end_ind = rt.end_ind ∧
      (k < rt.num_rows - 1 → rt1.row k = rt.row (rt.num_rows - 1)) ∧
      (∀ j, j < rt.num_rows - 1 → j ≠ k → rt1.row j = rt.row j) ∧
      rt1.coset_poss.length = rt.coset_poss.length ∧
      rt1.coset_poss[b.toNat]? = some (-1) ∧
      (k < rt.num_rows - 1 → rt1.coset_poss[a.toNat]? = some (k : Int)) ∧
      (∀ x, x ≠ a.toNat → x ≠ b.toNat → rt1.coset_poss[x]? = rt.coset_poss[x]?) ∧
      rt1.stale = rt.stale := by
  obtain ⟨rt1, h⟩ := rem_row_ok hl hk hr
  obtain ⟨-, hn, hl1, hg0, hg1, he, hrow, a, b, cp1, ha, hb, hw1, hw2, -⟩ := rem_row_spec hl h
  rw [wr_eq_ok] at hw1 hw2
  obtain ⟨ha0, hal, rfl⟩ := hw1
  obtain ⟨hb0, hbl, hcp⟩ := hw2
  refine ⟨rt1, a, b, h, ha, hb, hn, hl1, hg0, hg1, he, fun hlt => ?_, fun j hj hjk => ?_,
    by rw [hcp]; simp, ?_, fun hlt => ?_, fun x hxa hxb => ?_, ?_⟩
  · rw [hrow, if_pos hlt, if_pos rfl]
  · rw [hrow, if_pos hj, if_neg hjk]
  · rw [hcp]
    exact List.getElem?_set_self hbl
  · have hab : a ≠ b := by
      intro hc
      rw [← hc] at hb
      have := hnd _ _ a (by omega) hk ha hb
      omega
    rw [hcp, List.getElem?_set_ne (by omega)]
    exact List.getElem?_set_self hal
  · rw [hcp, List.getElem?_set_ne (fun hc => hxb hc.symm),
      List.getElem?_set_ne (fun hc => hxa hc.symm)]
  · rw [rem_row_stale h, if_pos (by omega)]

/-- C15. For a relation table with `N ≥ 1` scan rows (each of the five row
arrays holds them; the `init` cosets of the rows are distinct and index
`coset_poss`) and `k < N`, `rem_row(k)` returns a table with `N - 1` rows: row
`k` holds the five fields of the old last row `N - 1` when `k < N - 1`; every
other row `j < N - 1` is unchanged; `coset_poss` of the removed row's `init` is
`-1`; `coset_poss` of the moved row's `init` is `k`; every other `coset_poss`
entry is unchanged; and no assignment went to a slot at or past the size of its
array. -/
theorem rem_row_frame (rt : RelTable) (k : Nat) (hl : rt.Lens) (hk : k < rt.num_rows)
    (hr : ∀ (j : Nat) (x : Int), j < rt.num_rows → rt.init_cosets[j]? = some x →
      0 ≤ x ∧ x.toNat < rt.coset_poss.length)
    (hnd : ∀ (i j : Nat) (x : Int), i < rt.num_rows → j < rt.num_rows →
      rt.init_cosets[i]? = some x → rt.init_cosets[j]? = some x → i = j) :
    ∃ (rt1 : RelTable) (a b : Int), rt.rem_row k = .ok rt1 ∧
      rt.init_cosets[rt.num_rows - 1]? = some a ∧ rt.init_cosets[k]? = some b ∧
      rt1.num_rows = rt.num_rows - 1 ∧ rt1.Lens ∧
      rt1.gen0 = rt.gen0 ∧ rt1.gen1 = rt.gen1 ∧ rt1.end_ind = rt.end_ind ∧
      (k < rt.num_rows - 1 → rt1.row k = rt.row (rt.num_rows - 1)) ∧
      (∀ j, j < rt.num_rows - 1 → j ≠ k → rt1.row j = rt.row j) ∧
      rt1.coset_poss.length = rt.coset_poss.length ∧
      rt1.coset_poss[b.toNat]? = some (-1) ∧
      (k < rt.num_rows - 1 → rt1.coset_poss[a.toNat]? = some (k : Int)) ∧
      (∀ x, x ≠ a.toNat → x ≠ b.toNat → rt1.coset_poss[x]? = rt.coset_poss[x]?) ∧
      rt1.stale = rt.stale :=
  rem_row_frame_of hl hk hr hnd

theorem three_rows_lens : three_rows.Lens :=
  ⟨Nat.le_refl _, Nat.le_refl _, Nat.le_refl _, Nat.le_refl _, Nat.le_refl _⟩

/-- Witness for C15: removing row 0 of three rows moves row 2 into its place. -/
theorem rem_row_frame_witness :
    ∃ (rt1 : RelTable) (a b : Int), three_rows.rem_row 0 = .ok rt1 ∧
      three_rows.init_cosets[three_rows.num_rows - 1]? = some a ∧
      three_rows.init_cosets[0]? = some b ∧
      rt1.num_rows = three_rows.num_rows - 1 ∧ rt1.Lens ∧
      rt1.gen0 = three_rows.gen0 ∧ rt1.gen1 = three_rows.gen1 ∧
      rt1.end_ind = three_rows.end_ind ∧
      (0 < three_rows.num_rows - 1 → rt1.row 0 = three_rows.row (three_rows.num_rows - 1)) ∧
      (∀ j, j < three_rows.num_rows - 1 → j ≠ 0 → rt1.row j = three_rows.row j) ∧
      rt1.coset_poss.length = three_rows.coset_poss.length ∧
      rt1.coset_poss[b.toNat]? = some (-1) ∧
      (0 < three_rows.num_rows - 1 → rt1.coset_poss[a.toNat]? = some ((0 : Nat) : Int)) ∧
      (∀ x, x ≠ a.toNat → x ≠ b.toNat → rt1.coset_poss[x]? = three_rows.coset_poss[x]?) ∧
      rt1.stale = three_rows.stale :=
  rem_row_frame three_rows 0 three_rows_lens (by decide)
    (fun j x hj h => by
      have hj3 : j < 3 := hj
      interval_cases j <;> simp [three_rows] at h <;> subst h <;> decide)
    (fun i j x hi hj h1 h2 => by
      have hi3 : i < 3 := hi
      have hj3 : j < 3 := hj
      interval_cases i <;> interval_cases j <;> simp [three_rows] at h1 h2 <;> omega)

theorem exact_range {rt : RelTable} (hex : rt.Exact) :
    ∀ (j : Nat) (x : Int), j < rt.num_rows → rt.init_cosets[j]? = some x →
      0 ≤ x ∧ x.toNat < rt.coset_poss.length := by
  intro j x hj hx
  have h0 := hex.init_nonneg j x hj hx
  have h1 : rt.init_cosets[j]? = some ((x.toNat : Nat) : Int) := by
    rw [hx, Int.toNat_of_nonneg h0]
  have h2 := (hex.pos x.toNat j).2 ⟨hj, h1⟩
  exact ⟨h0, (List.getElem?_eq_some.1 h2).1⟩

theorem exact_distinct {rt : RelTable} (hex : rt.Exact) :
    ∀ (i j : Nat) (x : Int), i < rt.num_rows → j < rt.num_rows →
      rt.init_cosets[i]? = some x → rt.init_cosets[j]? = some x → i = j := by
  intro i j x hi hj hxi hxj
  have h0 := hex.init_nonneg j x hj hxj
  have e : x = ((x.toNat : Nat) : Int) := (Int.toNat_of_nonneg h0).symm
  rw [e] at hxi hxj
  have h1 := (hex.pos x.toNat i).2 ⟨hi, hxi⟩
  have h2 := (hex.pos x.toNat j).2 ⟨hj, hxj⟩
  rw [h1] at h2
  have := Option.some.inj h2
  omega

theorem rem_row_exact {rt rt1 : RelTable} {k : Nat} (hex : rt.Exact) (hk : k < rt.num_rows)
    (h : rt.rem_row k = .ok rt1) : rt1.Exact := by
  have hl := hex.lens
  have hnd := exact_distinct hex
  obtain ⟨-, hn, hl1, -, -, -, -, a, b, cp1, ha, hb, hw1, hw2, hinit⟩ := rem_row_spec hl h
  rw [wr_eq_ok] at hw1 hw2
  obtain ⟨ha0, hal, rfl⟩ := hw1
  obtain ⟨hb0, hbl, hcp⟩ := hw2
  have hbl2 : b.toNat < rt.coset_poss.length := by simpa using hbl
  have hnl : rt.num_rows - 1 < rt.num_rows := by omega
  have hcpv : ∀ c : Nat, rt1.coset_poss[c]? =
      if c = b.toNat then some (-1)
      else if c = a.toNat then some (k : Int) else rt.coset_poss[c]? := by
    intro c
    rw [hcp, List.getElem?_set]
    by_cases hcb : b.toNat = c
    · rw [if_pos hcb, if_pos hbl, if_pos hcb.symm]
    · rw [if_neg hcb, if_neg (fun hc => hcb hc.symm), List.getElem?_set]
      by_cases hca : a.toNat = c
      · rw [if_pos hca, if_pos hal, if_pos hca.symm]
      · rw [if_neg hca, if_neg (fun hc => hca hc.symm)]
  have hold_a : ∀ j, j < rt.num_rows → rt.init_cosets[j]? = some a → j = rt.num_rows - 1 :=
    fun j hjl hj => hnd _ _ a hjl hnl hj ha
  have hold_b : ∀ j, j < rt.num_rows → rt.init_cosets[j]? = some b → j = k :=
    fun j hjl hj => hnd _ _ b hjl hk hj hb
  refine ⟨hl1, fun j x hj hx => ?_, fun c j => ?_, fun c hc hno => ?_⟩
  · rw [hinit] at hx
    split at hx
    · rw [← Option.some.inj hx]; exact ha0
    · exact hex.init_nonneg j x (by omega) hx
  · rw [hcpv, hinit, hn]
    by_cases hcb : c = b.toNat
    · rw [if_pos hcb]
      have hcb2 : (c : Int) = b := by omega
      constructor
      · intro hh
        have := Option.some.inj hh
        omega
      · rintro ⟨hj, hh⟩
        exfalso
        rw [hcb2] at hh
        split at hh
        · rename_i hjk
          have hab : a = b := Option.some.inj hh
          rw [hab] at ha
          have := hold_b _ hnl ha
          omega
        · rename_i hjk
          exact hjk (hold_b _ (by omega) hh)
    · rw [if_neg hcb]
      by_cases hca : c = a.toNat
      · rw [if_pos hca]
        have hca2 : (c : Int) = a := by omega
        have hab : a ≠ b := by
          intro hc2
          apply hcb
          rw [hca, hc2]
        have hkne : k ≠ rt.num_rows - 1 := by
          intro hc2
          rw [hc2, ha] at hb
          exact hab (Option.some.inj hb)
        constructor
        · intro hh
          have hjk : j = k := by
            have := Option.some.inj hh
            omega
          rw [hjk, if_pos rfl, hca2]
          exact ⟨by omega, rfl⟩
        · rintro ⟨hj, hh⟩
          split at hh
          · rename_i hjk
            rw [hjk]
          · rename_i hjk
            rw [hca2] at hh
            have := hold_a _ (by omega) hh
            omega
      · rw [if_neg hca]
        have hne_a : (c : Int) ≠ a := by omega
        have hne_b : (c : Int) ≠ b := by omega
        rw [hex.pos c j]
        constructor
        · rintro ⟨hjlt, hh⟩
          have hj1 : j ≠ rt.num_rows - 1 := by
            intro hc2
            rw [hc2, ha] at hh
            exact hne_a (Option.some.inj hh).symm
          have hj2 : j ≠ k := by
            intro hc2
            rw [hc2, hb] at hh
            exact hne_b (Option.some.inj hh).symm
          rw [if_neg hj2]
          exact ⟨by omega, hh⟩
        · rintro ⟨hj, hh⟩
          split at hh
          · exact absurd (Option.some.inj hh).symm hne_a
          · exact ⟨by omega, hh⟩
  · rw [hcpv]
    by_cases hcb : c = b.toNat
    · rw [if_pos hcb]
    · rw [if_neg hcb]
      have hne_b : (c : Int) ≠ b := by omega
      by_cases hca : c = a.toNat
      · exfalso
        have hca2 : (c : Int) = a := by omega
        have hkne : k ≠ rt.num_rows - 1 := by
          intro hc2
          rw [hc2, ha] at hb
          exact hne_b (hca2.trans (Option.some.inj hb))
        apply hno k (by omega)
        rw [hinit, if_pos rfl, hca2]
      · rw [if_neg hca]
        have hne_a : (c : Int) ≠ a := by omega
        have hc0 : c < rt.coset_poss.length := by
          rw [hcp] at hc
          simpa using hc
        apply hex.absent c hc0
        intro j hjlt hj
        have hj1 : j ≠ rt.num_rows - 1 := by
          intro hc2
          rw [hc2, ha] at hj
          exact hne_a (Option.some.inj hj).symm
        have hj2 : j ≠ k := by
          intro hc2
          rw [hc2, hb] at hj
          exact hne_b (Option.some.inj hj).symm
        apply hno j (by omega)
        rw [hinit, if_neg hj2]
        exact hj

theorem add_row_exact {rt : RelTable} (hex : rt.Exact) :
    (rt.add_row (rt.coset_poss.length : Int)).Exact := by
  have hl := hex.lens
  have hcpv : ∀ c : Nat, (rt.add_row (rt.coset_poss.length : Int)).coset_poss[c]? =
      if c < rt.coset_poss.length then rt.coset_poss[c]?
      else if c = rt.coset_poss.length then some (rt.num_rows : Int) else none := by
    intro c
    show (rt.coset_poss ++ [(rt.num_rows : Int)])[c]? = _
    by_cases h1 : c < rt.coset_poss.length
    · rw [if_pos h1, List.getElem?_append_left h1]
    · rw [if_neg h1, List.getElem?_append_right (by omega)]
      by_cases h2 : c = rt.coset_poss.length
      · rw [if_pos h2, h2, Nat.sub_self]; rfl
      · rw [if_neg h2]
        have h3 : c - rt.coset_poss.length = (c - rt.coset_poss.length - 1) + 1 := by omega
        rw [h3]; rfl
  have hinv : ∀ j : Nat, (rt.add_row (rt.coset_poss.length : Int)).init_cosets[j]? =
      if j = rt.num_rows then some (rt.coset_poss.length : Int) else rt.init_cosets[j]? :=
    fun j => push_back_get _ hl.init j
  have hnum : (rt.add_row (rt.coset_poss.length : Int)).num_rows = rt.num_rows + 1 := rfl
  have hin : ∀ (j c : Nat), j < rt.num_rows → rt.init_cosets[j]? = some (c : Int) →
      c < rt.coset_poss.length :=
    fun j c hjl hj => (List.getElem?_eq_some.1 ((hex.pos c j).2 ⟨hjl, hj⟩)).1
  refine ⟨add_row_lens hl _, fun j x hj hx => ?_, fun c j => ?_, fun c hc hno => ?_⟩
  · rw [hinv] at hx
    split at hx
    · rw [← Option.some.inj hx]; omega
    · exact hex.init_nonneg j x (by rw [hnum] at hj; omega) hx
  · rw [hcpv, hinv, hnum]
    by_cases h1 : c < rt.coset_poss.length
    · rw [if_pos h1]
      constructor
      · intro hh
        have hj := (hex.pos c j).1 hh
        rw [if_neg (by omega)]
        exact ⟨by omega, hj.2⟩
      · rintro ⟨hjl, hh⟩
        split at hh
        · have := Option.some.inj hh
          omega
        · exact (hex.pos c j).2 ⟨by omega, hh⟩
    · rw [if_neg h1]
      by_cases h2 : c = rt.coset_poss.length
      · rw [if_pos h2]
        constructor
        · intro hh
          have hj : j = rt.num_rows := by
            have := Option.some.inj hh
            omega
          rw [hj, if_pos rfl, h2]
          exact ⟨by omega, rfl⟩
        · rintro ⟨hjl, hh⟩
          split at hh
          · rename_i hj
            rw [hj]
          · have := hin _ _ (by omega) hh
            omega
      · rw [if_neg h2]
        constructor
        · intro hh; cases hh
        · rintro ⟨hjl, hh⟩
          exfalso
          split at hh
          · have := Option.some.inj hh
            omega
          · exact h1 (hin _ _ (by omega) hh)
  · rw [hcpv]
    have hc2 : c < rt.coset_poss.length + 1 := by
      have : (rt.add_row (rt.coset_poss.length : Int)).coset_poss.length =
          rt.coset_poss.length + 1 := by simp [RelTable.add_row]
      omega
    by_cases h1 : c < rt.coset_poss.length
    · rw [if_pos h1]
      apply hex.absent c h1
      intro j hjl hj
      apply hno j (by rw [hnum]; omega)
      rw [hinv, if_neg (by omega)]
      exact hj
    · exfalso
      have h2 : c = rt.coset_poss.length := by omega
      apply hno rt.num_rows (by rw [hnum]; omega)
      rw [hinv, if_pos rfl, h2]

/-- C16, amended. When the side index of a relation table is exact, it is
exact again after `add_row(c)` for the coset `c = coset_poss.size()` (the new
coset the free function `add_row` passes), with `coset_poss[c]` the index of the
new row, and after `rem_row(k)` for every row index `k < num_rows`, which
returns. -/
theorem side_index_exact (rt : RelTable) (hex : rt.Exact) :
    ((rt.add_row (rt.coset_poss.length : Int)).Exact ∧
      (rt.add_row (rt.coset_poss.length : Int)).coset_poss[rt.coset_poss.length]? =
        some (rt.num_rows : Int) ∧
      (rt.add_row (rt.coset_poss.length : Int)).init_cosets[rt.num_rows]? =
        some (rt.coset_poss.length : Int)) ∧
    ∀ k, k < rt.num_rows → ∃ rt1, rt.rem_row k = .ok rt1 ∧ rt1.Exact := by
  have hx := add_row_exact hex
  have h1 : (rt.add_row (rt.coset_poss.length : Int)).init_cosets[rt.num_rows]? =
      some (rt.coset_poss.length : Int) := push_back_self _ hex.lens.init
  refine ⟨⟨hx, (hx.pos _ _).2 ⟨Nat.lt_succ_self _, h1⟩, h1⟩, fun k hk => ?_⟩
  obtain ⟨rt1, h⟩ := rem_row_ok hex.lens hk (exact_range hex)
  exact ⟨rt1, h, rem_row_exact hex hk h⟩

theorem three_rows_exact : three_rows.Exact := by
  refine ⟨three_rows_lens, fun j x hj h => ?_, fun c k => ?_, fun c hc hno => ?_⟩
  · have hj3 : j < 3 := hj
    interval_cases j <;> simp [three_rows] at h <;> subst h <;> decide
  · have hc : c < 3 ∨ 3 ≤ c := by omega
    have hk : k < 3 ∨ 3 ≤ k := by omega
    have hnum : three_rows.num_rows = 3 := rfl
    rw [hnum]
    rcases hc with hc | hc
    · rcases hk with hk | hk
      · interval_cases c <;> interval_cases k <;> simp [three_rows]
      · have e1 : three_rows.init_cosets[k]? = none :=
          List.getElem?_eq_none (by simp [three_rows]; omega)
        rw [e1]
        interval_cases c <;> simp [three_rows] <;> omega
    · have e1 : three_rows.coset_poss[c]? = none :=
        List.getElem?_eq_none (by simp [three_rows]; omega)
      rw [e1]
      rcases hk with hk | hk
      · interval_cases k <;> simp [three_rows] <;> omega
      · simp; omega
  · exfalso
    have hc3 : c < 3 := hc
    apply hno c hc3
    interval_cases c <;> rfl

/-- Witness for C16, amended: a table with the rows of the cosets 0, 1, 2. -/
theorem side_index_exact_witness :
    ((three_rows.add_row (three_rows.coset_poss.length : Int)).Exact ∧
      (three_rows.add_row (three_rows.coset_poss.length : Int)).coset_poss[
        three_rows.coset_poss.length]? = some (three_rows.num_rows : Int) ∧
      (three_rows.add_row (three_rows.coset_poss.length : Int)).init_cosets[
        three_rows.num_rows]? = some (three_rows.coset_poss.length : Int)) ∧
    ∀ k, k < three_rows.num_rows → ∃ rt1, three_rows.rem_row k = .ok rt1 ∧ rt1.Exact :=
  side_index_exact three_rows three_rows_exact

theorem closed_table_exact : closed_table.Exact := by
  refine ⟨⟨Nat.le_refl _, Nat.le_refl _, Nat.le_refl _, Nat.le_refl _, Nat.le_refl _⟩,
    fun j x hj _ => absurd hj (Nat.not_lt_zero _), fun c k => ?_, fun c hc _ => ?_⟩
  · have hnum : closed_table.num_rows = 0 := rfl
    rw [hnum]
    rcases c with _ | c
    · simp [closed_table]
    · simp [closed_table]
  · have hc1 : c < 1 := hc
    interval_cases c
    rfl

/-- C16 fails as stated. In `closed_table` the side index is exact and coset 0
has no scan row; after `add_row(0)` row 0 has `init = 0` but `coset_poss[0]` is
still `-1` (the index of the new row went to the new entry `coset_poss[1]`), so
the side index is no longer exact. -/
theorem add_row_breaks_side_index :
    closed_table.Exact ∧ (∀ k : Nat, closed_table.init_cosets[k]? ≠ some 0) ∧
      (closed_table.add_row 0).num_rows = 1 ∧
      (closed_table.add_row 0).init_cosets[0]? = some 0 ∧
      (closed_table.add_row 0).coset_poss[0]? = some (-1) ∧
      (closed_table.add_row 0).coset_poss[1]? = some 0 ∧
      ¬ (closed_table.add_row 0).Exact := by
  refine ⟨closed_table_exact, fun k hk => (by cases hk), rfl, rfl, rfl, rfl, fun hex => ?_⟩
  have h := (hex.pos 0 0).2 ⟨Nat.zero_lt_one, rfl⟩
  have h2 : (closed_table.add_row 0).coset_poss[0]? = some (-1) := rfl
  rw [h2] at h
  cases h

/-! ## Termination of one pass of `learn` -/

theorem rem_row_num {rt rt1 : RelTable} {idx : Nat} (h : rt.rem_row idx = .ok rt1) :
    rt.num_rows ≠ 0 ∧ rt1.num_rows = rt.num_rows - 1 := by
  unfold RelTable.rem_row at h
  split at h
  · cases h
  · rename_i hne
    simp only [bind_eq_ok] at h
    obtain ⟨a, -, cp1, -, b, -, cp2, -, ic, -, sc, -, ec, -, si, -, ei, -, h⟩ := h
    cases h
    exact ⟨hne, rfl⟩

theorem prune_num {rt rt1 : RelTable} {x i_c : Int} (h : prune rt x i_c = .ok rt1) :
    rt1.num_rows ≤ rt.num_rows := by
  unfold prune at h
  split at h
  · split at h
    · cases h
    · split at h
      · have := (rem_row_num h).2
        omega
      · cases h; exact le_refl _
  · cases h; exact le_refl _

theorem scan_fwd_num {table : List Int} {ngens : Nat} {i_c : Int} :
    ∀ (d : Nat) {s_i s_c : Int} {rt : RelTable} {s_i1 s_c1 : Int} {rt1 : RelTable},
      scan_fwd table ngens i_c d s_i s_c rt = .ok (s_i1, s_c1, rt1) →
      rt1.num_rows ≤ rt.num_rows ∧ s_i ≤ s_i1 ∧ s_i1 ≤ s_i + d
  | 0, _, _, _, _, _, _, h => by
    unfold scan_fwd at h; cases h; exact ⟨le_refl _, le_refl _, by simp⟩
  | d + 1, s_i, s_c, rt, s_i1, s_c1, rt1, h => by
    unfold scan_fwd at h
    split at h
    · cases h
    · split at h
      · cases h; exact ⟨le_refl _, le_refl _, by omega⟩
      · split at h
        · cases h
        · rename_i rt2 hp
          have h1 := prune_num hp
          obtain ⟨h2, h3, h4⟩ := scan_fwd_num d h
          exact ⟨le_trans h2 h1, by omega, by push_cast; omega⟩

theorem scan_bwd_num {table : List Int} {ngens : Nat} {i_c : Int} :
    ∀ (d : Nat) {e_i e_c : Int} {rt : RelTable} {e_i1 e_c1 : Int} {rt1 : RelTable},
      scan_bwd table ngens i_c d e_i e_c rt = .ok (e_i1, e_c1, rt1) →
      rt1.num_rows ≤ rt.num_rows ∧ e_i1 ≤ e_i ∧ e_i - d ≤ e_i1
  | 0, _, _, _, _, _, _, h => by
    unfold scan_bwd at h; cases h; exact ⟨le_refl _, le_refl _, by simp⟩
  | d + 1, e_i, e_c, rt, e_i1, e_c1, rt1, h => by
    unfold scan_bwd at h
    split at h
    · cases h
    · split at h
      · cases h; exact ⟨le_refl _, le_refl _, by omega⟩
      · split at h
        · cases h
        · rename_i rt2 hp
          have h1 := prune_num hp
          obtain ⟨h2, h3, h4⟩ := scan_bwd_num d h
          exact ⟨le_trans h2 h1, by omega, by push_cast; omega⟩

theorem learn_row_num {ngens : Nat} {ct ct1 : CosetTable} {rt rt1 : RelTable} {c : Nat}
    {closed : Bool} (h : learn_row ngens ct rt c = .ok (ct1, rt1, closed)) :
    rt1.num_rows ≤ rt.num_rows ∧ (closed = true → rt1.num_rows < rt.num_rows) := by
  unfold learn_row at h
  simp only [bind_eq_ok, rd_nat_eq_ok] at h
  obtain ⟨s_i, -, e_i, -, s_c, -, e_c, -, i_c, -, ⟨s_i1, s_c1, rta⟩, hf, h⟩ := h
  have hf1 := (scan_fwd_num _ hf).1
  simp only [bind_eq_ok, wr_nat_eq_ok] at h
  obtain ⟨si, ⟨-, rfl⟩, sc, ⟨-, rfl⟩, ⟨e_i1, e_c1, rtb⟩, hb, h⟩ := h
  have hb1 : rtb.num_rows ≤ rta.num_rows := (scan_bwd_num _ hb).1
  simp only [bind_eq_ok, wr_nat_eq_ok] at h
  obtain ⟨ei, ⟨-, rfl⟩, ec, ⟨-, rfl⟩, h⟩ := h
  split at h
  · simp only [bind_eq_ok] at h
    obtain ⟨⟨ct2, rt2⟩, hc, h⟩ := h
    cases h
    unfold close_row at hc
    simp only [bind_eq_ok] at hc
    obtain ⟨ct3, -, ct4, -, rt3, hrem, h4⟩ := hc
    cases h4
    obtain ⟨h5, h6⟩ := rem_row_num hrem
    have h5a : rtb.num_rows ≠ 0 := h5
    have h6a : rt2.num_rows = rtb.num_rows - 1 := h6
    refine ⟨?_, fun _ => ?_⟩
    · show rt2.num_rows ≤ rt.num_rows
      omega
    · show rt2.num_rows < rt.num_rows
      omega
  · cases h
    refine ⟨?_, fun hc => by cases hc⟩
    show rtb.num_rows ≤ rt.num_rows
    omega

theorem no_fuel_bind {α β : Type} {x : Except Err α} {f : α → Except Err β}
    (hx : x ≠ .error .fuel) (hf : ∀ a, f a ≠ .error .fuel) : x >>= f ≠ .error .fuel := by
  cases x with
  | error e => simpa [bind, Except.bind] using hx
  | ok a => simpa [bind, Except.bind] using hf a

theorem rd_no_fuel (v : List Int) (i : Int) : rd v i ≠ .error .fuel := by
  unfold rd
  split
  · exact fun h => by cases h
  · split <;> exact fun h => by cases h

theorem wr_no_fuel (v : List Int) (i x : Int) : wr v i x ≠ .error .fuel := by
  unfold wr
  split
  · exact fun h => by cases h
  · split <;> exact fun h => by cases h

theorem move_last_no_fuel (v : List Int) (idx n : Nat) : move_last v idx n ≠ .error .fuel := by
  unfold move_last
  exact no_fuel_bind (rd_no_fuel _ _) fun x => wr_no_fuel _ _ _

theorem rem_row_no_fuel (rt : RelTable) (idx : Nat) : rt.rem_row idx ≠ .error .fuel := by
  unfold RelTable.rem_row
  split
  · exact fun h => by cases h
  · exact no_fuel_bind (rd_no_fuel _ _) fun a =>
      no_fuel_bind (wr_no_fuel _ _ _) fun cp1 =>
      no_fuel_bind (rd_no_fuel _ _) fun b =>
      no_fuel_bind (wr_no_fuel _ _ _) fun cp2 =>
      no_fuel_bind (move_last_no_fuel _ _ _) fun ic =>
      no_fuel_bind (move_last_no_fuel _ _ _) fun sc =>
      no_fuel_bind (move_last_no_fuel _ _ _) fun ec =>
      no_fuel_bind (move_last_no_fuel _ _ _) fun si =>
      no_fuel_bind (move_last_no_fuel _ _ _) fun ei => fun h => by cases h

theorem prune_no_fuel (rt : RelTable) (x i_c : Int) : prune rt x i_c ≠ .error .fuel := by
  unfold prune
  split
  · split
    · rename_i e hrd
      intro h
      have he : e = .fuel := by cases h; rfl
      subst he
      exact rd_no_fuel _ _ hrd
    · split
      · exact rem_row_no_fuel _ _
      · exact fun h => by cases h
  · exact fun h => by cases h

theorem scan_fwd_no_fuel {table : List Int} {ngens : Nat} {i_c : Int} :
    ∀ (d : Nat) (s_i s_c : Int) (rt : RelTable),
      scan_fwd table ngens i_c d s_i s_c rt ≠ .error .fuel
  | 0, _, _, _ => by unfold scan_fwd; exact fun h => by cases h
  | d + 1, s_i, s_c, rt => by
    unfold scan_fwd
    split
    · rename_i e hrd
      intro h
      have he : e = .fuel := by cases h; rfl
      subst he
      exact rd_no_fuel _ _ hrd
    · split
      · exact fun h => by cases h
      · split
        · rename_i e hp
          intro h
          have he : e = .fuel := by cases h; rfl
          subst he
          exact prune_no_fuel _ _ _ hp
        · exact scan_fwd_no_fuel d _ _ _

theorem scan_bwd_no_fuel {table : List Int} {ngens : Nat} {i_c : Int} :
    ∀ (d : Nat) (e_i e_c : Int) (rt : RelTable),
      scan_bwd table ngens i_c d e_i e_c rt ≠ .error .fuel
  | 0, _, _, _ => by unfold scan_bwd; exact fun h => by cases h
  | d + 1, e_i, e_c, rt => by
    unfold scan_bwd
    split
    · rename_i e hrd
      intro h
      have he : e = .fuel := by cases h; rfl
      subst he
      exact rd_no_fuel _ _ hrd
    · split
      · exact fun h => by cases h
      · split
        · rename_i e hp
          intro h
          have he : e = .fuel := by cases h; rfl
          subst he
          exact prune_no_fuel _ _ _ hp
        · exact scan_bwd_no_fuel d _ _ _

theorem set_no_fuel (ct : CosetTable) (idx v : Int) : ct.set idx v ≠ .error .fuel := by
  unfold CosetTable.set
  exact no_fuel_bind (rd_no_fuel _ _) fun old =>
    no_fuel_bind (wr_no_fuel _ _ _) fun t => fun h => by cases h

theorem close_row_no_fuel (ngens : Nat) (ct : CosetTable) (rt : RelTable) (c : Nat)
    (s_i s_c e_c : Int) : close_row ngens ct rt c s_i s_c e_c ≠ .error .fuel := by
  unfold close_row
  exact no_fuel_bind (set_no_fuel _ _ _) fun ct1 =>
    no_fuel_bind (set_no_fuel _ _ _) fun ct2 =>
    no_fuel_bind (rem_row_no_fuel _ _) fun rt1 => fun h => by cases h

theorem learn_row_no_fuel (ngens : Nat) (ct : CosetTable) (rt : RelTable) (c : Nat) :
    learn_row ngens ct rt c ≠ .error .fuel := by
  unfold learn_row
  refine no_fuel_bind (rd_no_fuel _ _) fun s_i =>
    no_fuel_bind (rd_no_fuel _ _) fun e_i =>
    no_fuel_bind (rd_no_fuel _ _) fun s_c =>
    no_fuel_bind (rd_no_fuel _ _) fun e_c =>
    no_fuel_bind (rd_no_fuel _ _) fun i_c =>
    no_fuel_bind (scan_fwd_no_fuel _ _ _ _) fun p => ?_
  obtain ⟨s_i1, s_c1, rta⟩ := p
  refine no_fuel_bind (wr_no_fuel _ _ _) fun si =>
    no_fuel_bind (wr_no_fuel _ _ _) fun sc =>
    no_fuel_bind (scan_bwd_no_fuel _ _ _ _) fun q => ?_
  obtain ⟨e_i1, e_c1, rtb⟩ := q
  refine no_fuel_bind (wr_no_fuel _ _ _) fun ei =>
    no_fuel_bind (wr_no_fuel _ _ _) fun ec => ?_
  simp only
  split
  · refine no_fuel_bind (close_row_no_fuel _ _ _ _ _ _ _) fun r => ?_
    obtain ⟨ct1, rt1⟩ := r
    exact fun h => by cases h
  · exact fun h => by cases h

theorem learn_rows_no_fuel {ngens : Nat} :
    ∀ (k c : Nat) (ct : CosetTable) (rt : RelTable), rt.num_rows ≤ c + k →
      learn_rows ngens k c ct rt ≠ .error .fuel
  | 0, c, ct, rt, hk => by
    unfold learn_rows
    rw [if_neg (by omega)]
    exact fun h => by cases h
  | k + 1, c, ct, rt, hk => by
    unfold learn_rows
    split
    · rename_i hc
      split
      · rename_i e hl
        intro h
        have he : e = .fuel := by cases h; rfl
        subst he
        exact learn_row_no_fuel _ _ _ _ hl
      · rename_i ct1 rt1 closed hl
        obtain ⟨h1, h2⟩ := learn_row_num hl
        cases closed with
        | true =>
          have := h2 rfl
          exact learn_rows_no_fuel k c ct1 rt1 (by omega)
        | false => exact learn_rows_no_fuel k (c + 1) ct1 rt1 (by omega)
    · exact fun h => by cases h

theorem learn_rel_no_fuel (cox : Coxeter) (st : State) (r : Nat) :
    learn_rel cox st r ≠ .error .fuel := by
  unfold learn_rel
  split
  · exact fun h => by cases h
  · rename_i rt hrt
    split
    · rename_i e hl
      intro h
      have he : e = .fuel := by cases h; rfl
      subst he
      exact learn_rows_no_fuel rt.num_rows 0 st.cosets rt (by omega) hl
    · exact fun h => by cases h

theorem learn_order_no_fuel (cox : Coxeter) :
    ∀ (rs : List Nat) (st : State), learn_order cox rs st ≠ .error .fuel
  | [], _ => by unfold learn_order; exact fun h => by cases h
  | r :: rs, st => by
    unfold learn_order
    split
    · rename_i e hl
      intro h
      have he : e = .fuel := by cases h; rfl
      subst he
      exact learn_rel_no_fuel cox st r hl
    · exact learn_order_no_fuel cox rs _

/-! ## A pass of `learn` on a well-formed state has a result -/

theorem index_lt {C n g : Nat} {x : Int} (h0 : 0 ≤ x) (hx : x < (C : Int)) (hg : g < n) :
    0 ≤ x * (n : Int) + (g : Int) ∧ (x * (n : Int) + (g : Int)).toNat < C * n := by
  have h1 : 0 ≤ x * (n : Int) := mul_nonneg h0 (by positivity)
  refine ⟨by omega, ?_⟩
  rw [toNat_index h0]
  have hlt : x.toNat < C := by omega
  calc x.toNat * n + g < x.toNat * n + n := by omega
    _ = (x.toNat + 1) * n := by ring
    _ ≤ C * n := Nat.mul_le_mul_right _ hlt

theorem rd_table_ok {ct : CosetTable} (hct : ct.WF) {x : Int} {g : Nat} (h0 : 0 ≤ x)
    (hx : x < (ct.num_cosets : Int)) (hg : g < ct.ngens) :
    ∃ v, rd ct.table ((g : Int) + x * (ct.ngens : Int)) = .ok v ∧
      (v = -1 ∨ (0 ≤ v ∧ v < (ct.num_cosets : Int))) := by
  obtain ⟨hi0, hil⟩ := index_lt h0 hx hg
  rw [← hct.1] at hil
  rw [add_comm]
  obtain ⟨v, hv⟩ := @exists_getElem? ct.table _ hil
  exact ⟨v, rd_eq_ok.2 ⟨hi0, hv⟩, hct.2 v (List.getElem?_mem hv)⟩

theorem set_total {ct : CosetTable} (hct : ct.WF) {x v : Int} {g : Nat} (h0 : 0 ≤ x)
    (hx : x < (ct.num_cosets : Int)) (hg : g < ct.ngens)
    (hv : 0 ≤ v ∧ v < (ct.num_cosets : Int)) :
    ∃ ct1, ct.set (x * (ct.ngens : Int) + (g : Int)) v = .ok ct1 ∧ ct1.WF ∧
      ct1.num_cosets = ct.num_cosets ∧ ct1.ngens = ct.ngens := by
  obtain ⟨hi0, hil⟩ := index_lt h0 hx hg
  rw [← hct.1] at hil
  obtain ⟨old, hold⟩ := @exists_getElem? ct.table _ hil
  have h : ct.set (x * (ct.ngens : Int) + (g : Int)) v = .ok _ :=
    set_eq_ok.2 ⟨old, hi0, hold, rfl⟩
  exact ⟨_, h, set_wf h hct (Or.inr hv), rfl, rfl⟩

/-- `rem_row(idx)` has a result when the table has a row, slot `idx` exists in
each row array, and the two `init` cosets it reads index `coset_poss`. -/
theorem rem_row_total {rt : RelTable} {idx : Nat} (hl : rt.Lens) (hn : 0 < rt.num_rows)
    (h1 : idx < rt.init_cosets.length) (h2 : idx < rt.start_inds.length)
    (h3 : idx < rt.start_cosets.length) (h4 : idx < rt.end_inds.length)
    (h5 : idx < rt.end_cosets.length)
    (hr : ∀ x, (rt.init_cosets[rt.num_rows - 1]? = some x ∨ rt.init_cosets[idx]? = some x) →
      0 ≤ x ∧ x.toNat < rt.coset_poss.length) :
    ∃ rt1, rt.rem_row idx = .ok rt1 := by
  have hnl : rt.num_rows - 1 < rt.num_rows := by omega
  obtain ⟨a, ha⟩ := @exists_getElem? rt.init_cosets (rt.num_rows - 1)
    (lt_of_lt_of_le hnl hl.init)
  obtain ⟨b, hb⟩ := @exists_getElem? rt.init_cosets idx h1
  obtain ⟨ha0, hal⟩ := hr a (Or.inl ha)
  obtain ⟨hb0, hbl⟩ := hr b (Or.inr hb)
  obtain ⟨ic, hic⟩ := @move_last_ok rt.init_cosets idx _ (lt_of_lt_of_le hnl hl.init) h1
  obtain ⟨sc, hsc⟩ := @move_last_ok rt.start_cosets idx _ (lt_of_lt_of_le hnl hl.sc) h3
  obtain ⟨ec, hec⟩ := @move_last_ok rt.end_cosets idx _ (lt_of_lt_of_le hnl hl.ec) h5
  obtain ⟨si, hsi⟩ := @move_last_ok rt.start_inds idx _ (lt_of_lt_of_le hnl hl.si) h2
  obtain ⟨ei, hei⟩ := @move_last_ok rt.end_inds idx _ (lt_of_lt_of_le hnl hl.ei) h4
  refine ⟨{ rt with
    coset_poss := (rt.coset_poss.set a.toNat idx).set b.toNat (-1), init_cosets := ic,
    start_cosets := sc, end_cosets := ec, start_inds := si, end_inds := ei,
    num_rows := rt.num_rows - 1,
    stale := if idx ≤ rt.num_rows - 1 then rt.stale else rt.stale + 5 }, ?_⟩
  unfold RelTable.rem_row
  rw [if_neg (by omega)]
  simp only [bind_eq_ok, rd_nat_eq_ok]
  exact ⟨a, ha, _, wr_eq_ok.2 ⟨ha0, hal, rfl⟩, b, hb, _,
    wr_eq_ok.2 ⟨hb0, by simpa using hbl, rfl⟩, ic, hic, sc, hsc, ec, hec, si, hsi, ei, hei, rfl⟩

theorem scanned_refl {C ngens : Nat} {i_c : Int} {rt : RelTable}
    (hwf : rt.WellFormed C ngens) : Scanned C ngens i_c rt rt :=
  ⟨hwf, rfl, rfl, rfl, le_refl _, fun _ _ _ h _ => h, fun h => h, fun _ h => h,
    rfl, rfl, rfl, rfl, rfl⟩

theorem scanned_trans {C ngens : Nat} {i_c : Int} {rt rt1 rt2 : RelTable}
    (h1 : Scanned C ngens i_c rt rt1) (h2 : Scanned C ngens i_c rt1 rt2) :
    Scanned C ngens i_c rt rt2 :=
  ⟨h2.wf, by rw [h2.g0, h1.g0], by rw [h2.g1, h1.g1], by rw [h2.e, h1.e],
    le_trans h2.le h1.le,
    fun c r hc hr hri => h2.stay c r hc (h1.stay c r (lt_of_lt_of_le hc h2.le) hr hri) hri,
    fun h => h2.has (h1.has h), fun c h => h2.buf c (h1.buf c h),
    by rw [h2.len_init, h1.len_init], by rw [h2.len_si, h1.len_si],
    by rw [h2.len_sc, h1.len_sc], by rw [h2.len_ei, h1.len_ei],
    by rw [h2.len_ec, h1.len_ec]⟩

theorem rem_row_wellFormed {C ngens : Nat} {rt rt1 : RelTable} {k : Nat}
    (hwf : rt.WellFormed C ngens) (hk : k < rt.num_rows) (h : rt.rem_row k = .ok rt1) :
    rt1.WellFormed C ngens := by
  obtain ⟨-, hn, -, hg0, hg1, -, hrow, -⟩ := rem_row_spec hwf.exact.lens h
  refine ⟨rem_row_exact hwf.exact hk h, by rw [(rem_row_lengths h).2.2.2.2.2, hwf.poss_len],
    by rw [hg0]; exact hwf.ga, by rw [hg1]; exact hwf.gb, fun j r hr => ?_⟩
  rw [hrow] at hr
  split at hr
  · split at hr
    · exact hwf.cosets _ r hr
    · exact hwf.cosets _ r hr
  · cases hr

theorem prune_total {C ngens : Nat} {rt : RelTable} {x i_c : Int}
    (hwf : rt.WellFormed C ngens) (hx0 : 0 ≤ x) (hxC : x < (C : Int)) :
    ∃ rt1, prune rt x i_c = .ok rt1 ∧ Scanned C ngens i_c rt rt1 := by
  unfold prune
  split
  · rename_i hgt
    have hxl : x.toNat < rt.coset_poss.length := by rw [hwf.poss_len]; omega
    obtain ⟨idx, hidx⟩ := @exists_getElem? rt.coset_poss _ hxl
    have hrd : rd rt.coset_poss x = .ok idx := rd_eq_ok.2 ⟨hx0, hidx⟩
    rw [hrd]
    simp only
    split
    · rename_i hge
      have e1 : idx = ((idx.toNat : Nat) : Int) := (Int.toNat_of_nonneg hge).symm
      rw [e1] at hidx
      obtain ⟨hlt, hinit⟩ := (hwf.exact.pos x.toNat idx.toNat).1 hidx
      rw [Int.toNat_of_nonneg hx0] at hinit
      obtain ⟨rt1, h⟩ := rem_row_ok hwf.exact.lens hlt (exact_range hwf.exact)
      obtain ⟨-, hn, -, hg0, hg1, he, hrowv, a, b, cp1, ha, hb, -, -, hin⟩ :=
        rem_row_spec hwf.exact.lens h
      obtain ⟨l1, l2, l3, l4, l5, -⟩ := rem_row_lengths h
      refine ⟨rt1, h, rem_row_wellFormed hwf hlt h, hg0, hg1, he, by omega,
        fun c r hc hr hri => ?_, ?_, fun c hc => ?_, l1, l2, l3, l4, l5⟩
      · rw [hrowv, if_pos (by omega), if_neg]
        · exact hr
        · intro hcc
          have := row_init hr
          rw [hcc, hinit, hri] at this
          have := Option.some.inj this
          omega
      · rintro ⟨k, hk, hki⟩
        have hkne : k ≠ idx.toNat := by
          intro hcc
          rw [hcc, hinit] at hki
          have := Option.some.inj hki
          omega
        by_cases hkn : k = rt.num_rows - 1
        · refine ⟨idx.toNat, ?_, ?_⟩
          · omega
          · rw [hin, if_pos rfl, ← ha, ← hkn, hki]
        · refine ⟨k, by omega, ?_⟩
          rw [hin, if_neg hkne]
          exact hki
      · rw [hin, if_neg]
        · exact hc
        · intro hcc
          rw [hcc, hinit] at hc
          have := Option.some.inj hc
          omega
    · exact ⟨rt, rfl, scanned_refl hwf⟩
  · exact ⟨rt, rfl, scanned_refl hwf⟩

theorem scan_fwd_total {ct : CosetTable} (hct : ct.WF) {i_c : Int} :
    ∀ (d : Nat) (s_i s_c : Int) (rt : RelTable),
      rt.WellFormed ct.num_cosets ct.ngens → 0 ≤ s_c → s_c < (ct.num_cosets : Int) →
      ∃ s_i1 s_c1 rt1, scan_fwd ct.table ct.ngens i_c d s_i s_c rt = .ok (s_i1, s_c1, rt1) ∧
        Scanned ct.num_cosets ct.ngens i_c rt rt1 ∧ 0 ≤ s_c1 ∧ s_c1 < (ct.num_cosets : Int)
  | 0, s_i, s_c, rt, hwf, h0, h1 => by
    unfold scan_fwd
    exact ⟨s_i, s_c, rt, rfl, scanned_refl hwf, h0, h1⟩
  | d + 1, s_i, s_c, rt, hwf, h0, h1 => by
    unfold scan_fwd
    have hg : rt.gens s_i < ct.ngens := by
      rcases gens_cases rt s_i with h | h <;> rw [h]
      · exact hwf.ga
      · exact hwf.gb
    obtain ⟨v, hv, hvv⟩ := rd_table_ok hct h0 h1 hg
    rw [hv]
    simp only
    split
    · exact ⟨s_i, s_c, rt, rfl, scanned_refl hwf, h0, h1⟩
    · rename_i hneg
      have hv2 : 0 ≤ v ∧ v < (ct.num_cosets : Int) := by
        rcases hvv with h | h
        · omega
        · exact h
      obtain ⟨rt1, hp, hs1⟩ := @prune_total _ _ rt v i_c hwf hv2.1 hv2.2
      rw [hp]
      simp only
      obtain ⟨s_i2, s_c2, rt2, h2, hs2, h3, h4⟩ :=
        scan_fwd_total hct d (s_i + 1) v rt1 hs1.wf hv2.1 hv2.2
      exact ⟨s_i2, s_c2, rt2, h2, scanned_trans hs1 hs2, h3, h4⟩

theorem scan_bwd_total {ct : CosetTable} (hct : ct.WF) {i_c : Int} :
    ∀ (d : Nat) (e_i e_c : Int) (rt : RelTable),
      rt.WellFormed ct.num_cosets ct.ngens → 0 ≤ e_c → e_c < (ct.num_cosets : Int) →
      ∃ e_i1 e_c1 rt1, scan_bwd ct.table ct.ngens i_c d e_i e_c rt = .ok (e_i1, e_c1, rt1) ∧
        Scanned ct.num_cosets ct.ngens i_c rt rt1 ∧ 0 ≤ e_c1 ∧ e_c1 < (ct.num_cosets : Int)
  | 0, e_i, e_c, rt, hwf, h0, h1 => by
    unfold scan_bwd
    exact ⟨e_i, e_c, rt, rfl, scanned_refl hwf, h0, h1⟩
  | d + 1, e_i, e_c, rt, hwf, h0, h1 => by
    unfold scan_bwd
    have hg : rt.gens e_i < ct.ngens := by
      rcases gens_cases rt e_i with h | h <;> rw [h]
      · exact hwf.ga
      · exact hwf.gb
    obtain ⟨v, hv, hvv⟩ := rd_table_ok hct h0 h1 hg
    rw [hv]
    simp only
    split
    · exact ⟨e_i, e_c, rt, rfl, scanned_refl hwf, h0, h1⟩
    · rename_i hneg
      have hv2 : 0 ≤ v ∧ v < (ct.num_cosets : Int) := by
        rcases hvv with h | h
        · omega
        · exact h
      obtain ⟨rt1, hp, hs1⟩ := @prune_total _ _ rt v i_c hwf hv2.1 hv2.2
      rw [hp]
      simp only
      obtain ⟨e_i2, e_c2, rt2, h2, hs2, h3, h4⟩ :=
        scan_bwd_total hct d (e_i - 1) v rt1 hs1.wf hv2.1 hv2.2
      exact ⟨e_i2, e_c2, rt2, h2, scanned_trans hs1 hs2, h3, h4⟩

theorem wellFormed_set_start {C ngens : Nat} {rt : RelTable} (hwf : rt.WellFormed C ngens)
    (c : Nat) (x y : Int) (st : Nat) (hy : 0 ≤ y ∧ y < (C : Int)) :
    RelTable.WellFormed C ngens { rt with
      start_inds := rt.start_inds.set c x, start_cosets := rt.start_cosets.set c y,
      stale := st } := by
  have hl := hwf.exact.lens
  refine ⟨⟨⟨hl.init, ?_, ?_, hl.ei, hl.ec⟩, hwf.exact.init_nonneg, hwf.exact.pos,
    hwf.exact.absent⟩, hwf.poss_len, hwf.ga, hwf.gb, fun k r hr => ?_⟩
  · show rt.num_rows ≤ (rt.start_inds.set c x).length
    rw [List.length_set]; exact hl.si
  · show rt.num_rows ≤ (rt.start_cosets.set c y).length
    rw [List.length_set]; exact hl.sc
  · obtain ⟨i, a, b, e, f⟩ := r
    obtain ⟨hk, h1, h2, h3, h4, h5⟩ := row_eq_some.1 hr
    obtain ⟨i0, a0, b0, e0, f0, hold⟩ := row_of_lt hl (show k < rt.num_rows from hk)
    have hv := hwf.cosets k _ hold
    obtain ⟨-, o1, o2, o3, o4, o5⟩ := row_eq_some.1 hold
    have hf : f = f0 := by
      have h5a : rt.end_cosets[k]? = some f := h5
      rw [o5] at h5a
      exact (Option.some.inj h5a).symm
    have hb : b = y ∨ b = b0 := by
      have h3a : (rt.start_cosets.set c y)[k]? = some b := h3
      rw [List.getElem?_set] at h3a
      split at h3a
      · split at h3a
        · exact Or.inl (Option.some.inj h3a).symm
        · cases h3a
      · rw [o3] at h3a
        exact Or.inr (Option.some.inj h3a).symm
    show 0 ≤ b ∧ b < (C : Int) ∧ 0 ≤ f ∧ f < (C : Int)
    rw [hf]
    rcases hb with hb | hb <;> rw [hb]
    · exact ⟨hy.1, hy.2, hv.2.2.1, hv.2.2.2⟩
    · exact hv

theorem wellFormed_set_end {C ngens : Nat} {rt : RelTable} (hwf : rt.WellFormed C ngens)
    (c : Nat) (x y : Int) (st : Nat) (hy : 0 ≤ y ∧ y < (C : Int)) :
    RelTable.WellFormed C ngens { rt with
      end_inds := rt.end_inds.set c x, end_cosets := rt.end_cosets.set c y,
      stale := st } := by
  have hl := hwf.exact.lens
  refine ⟨⟨⟨hl.init, hl.si, hl.sc, ?_, ?_⟩, hwf.exact.init_nonneg, hwf.exact.pos,
    hwf.exact.absent⟩, hwf.poss_len, hwf.ga, hwf.gb, fun k r hr => ?_⟩
  · show rt.num_rows ≤ (rt.end_inds.set c x).length
    rw [List.length_set]; exact hl.ei
  · show rt.num_rows ≤ (rt.end_cosets.set c y).length
    rw [List.length_set]; exact hl.ec
  · obtain ⟨i, a, b, e, f⟩ := r
    obtain ⟨hk, h1, h2, h3, h4, h5⟩ := row_eq_some.1 hr
    obtain ⟨i0, a0, b0, e0, f0, hold⟩ := row_of_lt hl (show k < rt.num_rows from hk)
    have hv := hwf.cosets k _ hold
    obtain ⟨-, o1, o2, o3, o4, o5⟩ := row_eq_some.1 hold
    have hb : b = b0 := by
      have h3a : rt.start_cosets[k]? = some b := h3
      rw [o3] at h3a
      exact (Option.some.inj h3a).symm
    have hf : f = y ∨ f = f0 := by
      have h5a : (rt.end_cosets.set c y)[k]? = some f := h5
      rw [List.getElem?_set] at h5a
      split at h5a
      · split at h5a
        · exact Or.inl (Option.some.inj h5a).symm
        · cases h5a
      · rw [o5] at h5a
        exact Or.inr (Option.some.inj h5a).symm
    show 0 ≤ b ∧ b < (C : Int) ∧ 0 ≤ f ∧ f < (C : Int)
    rw [hb]
    rcases hf with hf | hf <;> rw [hf]
    · exact ⟨hv.1, hv.2.1, hy.1, hy.2⟩
    · exact hv

/-- One iteration of the row loop of `learn` on a well-formed relation table
has a result; the relation table it leaves is well formed whenever the row loop
goes on to another row. -/
theorem learn_row_total {ct : CosetTable} (hct : ct.WF) {rt : RelTable}
    (hwf : rt.WellFormed ct.num_cosets ct.ngens) {c : Nat} (hc : c < rt.num_rows) :
    ∃ ct1 rt1 closed, learn_row ct.ngens ct rt c = .ok (ct1, rt1, closed) ∧ ct1.WF ∧
      ct1.num_cosets = ct.num_cosets ∧ ct1.ngens = ct.ngens ∧
      ((if closed = true then c else c + 1) < rt1.num_rows →
        rt1.WellFormed ct.num_cosets ct.ngens) := by
  have hl := hwf.exact.lens
  obtain ⟨i_c, s_i, s_c, e_i, e_c, hrow⟩ := row_of_lt hl hc
  obtain ⟨-, r1, r2, r3, r4, r5⟩ := row_eq_some.1 hrow
  have hval := hwf.cosets c _ hrow
  have hic := exact_range hwf.exact c i_c hc r1
  obtain ⟨s_i1, s_c1, rta, hf, hsa, hs0, hs1⟩ :=
    @scan_fwd_total ct hct i_c (e_i - s_i).toNat s_i s_c rt hwf hval.1 hval.2.1
  have hca2 : c < rta.start_inds.length := by rw [hsa.len_si]; exact lt_of_lt_of_le hc hl.si
  have hca3 : c < rta.start_cosets.length := by
    rw [hsa.len_sc]; exact lt_of_lt_of_le hc hl.sc
  have hwa := wellFormed_set_start hsa.wf c s_i1 s_c1
    (if c < rta.num_rows then rta.stale else rta.stale + 2) ⟨hs0, hs1⟩
  obtain ⟨e_i1, e_c1, rtb, hb, hsb, he0, he1⟩ :=
    @scan_bwd_total ct hct i_c (e_i - s_i1).toNat e_i e_c _ hwa hval.2.2.1 hval.2.2.2
  have hcb4 : c < rtb.end_inds.length := by
    rw [hsb.len_ei]
    show c < rta.end_inds.length
    rw [hsa.len_ei]; exact lt_of_lt_of_le hc hl.ei
  have hcb5 : c < rtb.end_cosets.length := by
    rw [hsb.len_ec]
    show c < rta.end_cosets.length
    rw [hsa.len_ec]; exact lt_of_lt_of_le hc hl.ec
  have hwb := wellFormed_set_end hsb.wf c e_i1 e_c1
    (if c < rtb.num_rows then rtb.stale else rtb.stale + 2) ⟨he0, he1⟩
  have hhas : ∃ k, k < rtb.num_rows ∧ rtb.init_cosets[k]? = some i_c :=
    hsb.has (hsa.has ⟨c, hc, r1⟩)
  have hbuf : rtb.init_cosets[c]? = some i_c := hsb.buf c (hsa.buf c r1)
  have hstart : ∀ (res : CosetTable × RelTable × Bool),
      (if s_i1 = e_i1 then
        (do
          let p ← close_row ct.ngens ct { rtb with
            end_inds := rtb.end_inds.set c e_i1, end_cosets := rtb.end_cosets.set c e_c1,
            stale := if c < rtb.num_rows then rtb.stale else rtb.stale + 2 } c s_i1 s_c1 e_c1
          Except.ok (p.1, p.2, true) : Except Err (CosetTable × RelTable × Bool))
      else .ok (ct, { rtb with
            end_inds := rtb.end_inds.set c e_i1, end_cosets := rtb.end_cosets.set c e_c1,
            stale := if c < rtb.num_rows then rtb.stale else rtb.stale + 2 }, false)) = .ok res →
      learn_row ct.ngens ct rt c = .ok res := by
    intro res hres
    unfold learn_row
    simp only [bind_eq_ok, rd_nat_eq_ok]
    refine ⟨s_i, r2, e_i, r4, s_c, r3, e_c, r5, i_c, r1, (s_i1, s_c1, rta), hf, ?_⟩
    simp only [bind_eq_ok, wr_nat_eq_ok]
    refine ⟨_, ⟨hca2, rfl⟩, _, ⟨hca3, rfl⟩, (e_i1, e_c1, rtb), hb, ?_⟩
    simp only [bind_eq_ok, wr_nat_eq_ok]
    refine ⟨_, ⟨hcb4, rfl⟩, _, ⟨hcb5, rfl⟩, ?_⟩
    rw [← hres]
  by_cases heq : s_i1 = e_i1
  · have hg : RelTable.gens { rtb with
          end_inds := rtb.end_inds.set c e_i1, end_cosets := rtb.end_cosets.set c e_c1,
          stale := if c < rtb.num_rows then rtb.stale else rtb.stale + 2 } s_i1 < ct.ngens := by
      rcases gens_cases _ s_i1 with h | h <;> rw [h]
      · exact hwb.ga
      · exact hwb.gb
    obtain ⟨ct2, hset1, hct2, hn2, hg2⟩ := set_total hct hs0 hs1 hg ⟨he0, he1⟩
    obtain ⟨ct3, hset2, hct3, hn3, hg3⟩ :=
      set_total hct2 (show 0 ≤ e_c1 from he0) (by rw [hn2]; exact he1) (by rw [hg2]; exact hg)
        (show 0 ≤ s_c1 ∧ s_c1 < (ct2.num_cosets : Int) from ⟨hs0, by rw [hn2]; exact hs1⟩)
    rw [hg2] at hset2
    obtain ⟨k, hk, hki⟩ := hhas
    have hnl : rtb.num_rows - 1 < rtb.num_rows := by omega
    obtain ⟨rt2, hrem⟩ := @rem_row_total { rtb with
        end_inds := rtb.end_inds.set c e_i1, end_cosets := rtb.end_cosets.set c e_c1,
        stale := if c < rtb.num_rows then rtb.stale else rtb.stale + 2 } c hwb.exact.lens
      (show 0 < rtb.num_rows by omega)
      (show c < rtb.init_cosets.length by
        rw [hsb.len_init]
        show c < rta.init_cosets.length
        rw [hsa.len_init]; exact lt_of_lt_of_le hc hl.init)
      (show c < rtb.start_inds.length by
        rw [hsb.len_si]
        show c < (rta.start_inds.set c s_i1).length
        rw [List.length_set]; exact hca2)
      (show c < rtb.start_cosets.length by
        rw [hsb.len_sc]
        show c < (rta.start_cosets.set c s_c1).length
        rw [List.length_set]; exact hca3)
      (show c < (rtb.end_inds.set c e_i1).length by rw [List.length_set]; exact hcb4)
      (show c < (rtb.end_cosets.set c e_c1).length by rw [List.length_set]; exact hcb5)
      (fun x hx => by
        rcases hx with hx | hx
        · exact exact_range hsb.wf.exact (rtb.num_rows - 1) x hnl hx
        · have hx2 : rtb.init_cosets[c]? = some x := hx
          rw [hbuf] at hx2
          rw [← Option.some.inj hx2]
          have := hic
          rw [hwf.poss_len] at this
          show 0 ≤ i_c ∧ i_c.toNat < rtb.coset_poss.length
          rw [hsb.wf.poss_len]
          exact this)
    refine ⟨ct3, rt2, true, hstart _ ?_, hct3, by rw [hn3, hn2], by rw [hg3, hg2],
      fun hlt => ?_⟩
    · rw [if_pos heq]
      simp only [bind_eq_ok]
      refine ⟨(ct3, rt2), ?_, rfl⟩
      unfold close_row
      simp only [bind_eq_ok]
      exact ⟨ct2, hset1, ct3, hset2, rt2, hrem, rfl⟩
    · rw [if_pos rfl] at hlt
      have hn := (rem_row_gens_eq hrem).1
      exact rem_row_wellFormed hwb (show c < rtb.num_rows by
        have hn2 : rt2.num_rows = rtb.num_rows - 1 := hn
        omega) hrem
  · refine ⟨ct, _, false, hstart _ (by rw [if_neg heq]), hct, rfl, rfl, fun _ => hwb⟩

theorem learn_rows_total {ct0 : CosetTable} :
    ∀ (k c : Nat) (ct : CosetTable) (rt : RelTable), ct.WF →
      ct.num_cosets = ct0.num_cosets → ct.ngens = ct0.ngens →
      (c < rt.num_rows → rt.WellFormed ct0.num_cosets ct0.ngens) → rt.num_rows ≤ c + k →
      ∃ ct1 rt1, learn_rows ct0.ngens k c ct rt = .ok (ct1, rt1) ∧ ct1.WF ∧
        ct1.num_cosets = ct0.num_cosets ∧ ct1.ngens = ct0.ngens
  | 0, c, ct, rt, hct, hn, hg, _, hk => by
    unfold learn_rows
    rw [if_neg (by omega)]
    exact ⟨ct, rt, rfl, hct, hn, hg⟩
  | k + 1, c, ct, rt, hct, hn, hg, hwf, hk => by
    unfold learn_rows
    split
    · rename_i hc
      have hwf1 := hwf hc
      rw [← hn, ← hg] at hwf1
      obtain ⟨ct1, rt1, closed, hl, hct1, hn1, hg1, hnext⟩ := learn_row_total hct hwf1 hc
      rw [← hg, hl]
      simp only
      obtain ⟨h1, h2⟩ := learn_row_num hl
      have := @learn_rows_total ct0 k (if closed = true then c else c + 1) ct1 rt1 hct1
        (by rw [hn1, hn]) (by rw [hg1, hg])
        (fun hlt => by have := hnext hlt; rwa [hn, hg] at this)
        (by
          cases closed with
          | true => have := h2 rfl; simp only [if_true]; omega
          | false => simp only [Bool.false_eq_true, if_false]; omega)
      rw [hg]
      exact this
    · exact ⟨ct, rt, rfl, hct, hn, hg⟩

theorem learn_rel_total {cox : Coxeter} {st : State} {r : Nat} {rt : RelTable}
    (hn : st.cosets.ngens = cox.ngens) (hct : st.cosets.WF) (hr : st.reltables[r]? = some rt)
    (hwf : rt.WellFormed st.cosets.num_cosets st.cosets.ngens) :
    ∃ ct1 rt1, learn_rel cox st r = .ok { cosets := ct1, reltables := st.reltables.set r rt1 } ∧
      ct1.WF ∧ ct1.num_cosets = st.cosets.num_cosets ∧ ct1.ngens = st.cosets.ngens := by
  obtain ⟨ct1, rt1, h, h1, h2, h3⟩ :=
    @learn_rows_total st.cosets rt.num_rows 0 st.cosets rt hct rfl rfl (fun _ => hwf) (by omega)
  refine ⟨ct1, rt1, ?_, h1, h2, h3⟩
  unfold learn_rel
  rw [hr]
  simp only
  rw [← hn, h]

theorem learn_order_total {cox : Coxeter} :
    ∀ (rs : List Nat) (st : State), rs.Nodup → st.cosets.ngens = cox.ngens → st.cosets.WF →
      (∀ r ∈ rs, ∃ rt, st.reltables[r]? = some rt ∧
        rt.WellFormed st.cosets.num_cosets st.cosets.ngens) →
      ∃ st1, learn_order cox rs st = .ok st1
  | [], st, _, _, _, _ => ⟨st, by unfold learn_order; rfl⟩
  | r :: rs, st, hnd, hn, hct, hwf => by
    obtain ⟨rt, hr, hrt⟩ := hwf r (List.mem_cons_self _ _)
    obtain ⟨ct1, rt1, h, h1, h2, h3⟩ := learn_rel_total hn hct hr hrt
    unfold learn_order
    rw [h]
    simp only
    have hnd2 := List.nodup_cons.1 hnd
    refine learn_order_total rs _ hnd2.2 (by rw [h3]; exact hn) h1 (fun q hq => ?_)
    obtain ⟨rtq, hq1, hq2⟩ := hwf q (List.mem_cons_of_mem _ hq)
    have hne : r ≠ q := fun hc => hnd2.1 (hc ▸ hq)
    refine ⟨rtq, ?_, ?_⟩
    · show (st.reltables.set r rt1)[q]? = some rtq
      rw [List.getElem?_set_ne hne]
      exact hq1
    · show rtq.WellFormed ct1.num_cosets ct1.ngens
      rw [h2, h3]
      exact hq2

theorem learn_total {cox : Coxeter} {st : State} (hwf : WellFormed cox st) :
    ∃ st1, learn cox st = .ok st1 := by
  unfold learn
  refine learn_order_total _ st (List.nodup_range _) hwf.ngens_eq hwf.wf (fun r hr => ?_)
  have hlt : r < st.reltables.length := lt_of_lt_of_le (List.mem_range.1 hr) hwf.nrels
  exact ⟨st.reltables[r], List.getElem?_eq_getElem hlt,
    hwf.rts _ (List.getElem_mem _)⟩

/-- C17. One pass of `learn` terminates. On every state the bound `num_rows`
that the embedding gives the row loop of a relation is never used up, so
`learn` never yields `Err.fuel`; and on every well-formed state (the row arrays
of each relation table hold its `num_rows` rows, `coset_poss` is exact with one
entry per coset, the entries of the coset table are `-1` or coset indices, the
generators of each relation are columns of the table and the frontier cosets of
its scan rows are cosets) `learn` returns a state. The reason is the
one of the claim: an iteration of the row loop that closes its row removes a
row, and one that does not moves to the next row index without adding rows; the
two scans are recursions on `end_index - start_index`, which every step lowers
by one. -/
theorem learn_terminates (cox : Coxeter) (st : State) :
    learn cox st ≠ .error .fuel ∧
    (WellFormed cox st → ∃ st1, learn cox st = .ok st1) ∧
    (∀ (ct ct1 : CosetTable) (rt rt1 : RelTable) (c : Nat) (closed : Bool),
      learn_row cox.ngens ct rt c = .ok (ct1, rt1, closed) →
        rt1.num_rows ≤ rt.num_rows ∧ (closed = true → rt1.num_rows < rt.num_rows)) ∧
    (∀ (ct : CosetTable) (rt : RelTable) (c k : Nat), rt.num_rows ≤ c + k →
      learn_rows cox.ngens k c ct rt ≠ .error .fuel) ∧
    (∀ (table : List Int) (i_c : Int) (d : Nat) (s_i s_c : Int) (rt : RelTable)
        (s_i1 s_c1 : Int) (rt1 : RelTable),
      scan_fwd table cox.ngens i_c d s_i s_c rt = .ok (s_i1, s_c1, rt1) →
        s_i ≤ s_i1 ∧ s_i1 ≤ s_i + d) ∧
    (∀ (table : List Int) (i_c : Int) (d : Nat) (e_i e_c : Int) (rt : RelTable)
        (e_i1 e_c1 : Int) (rt1 : RelTable),
      scan_bwd table cox.ngens i_c d e_i e_c rt = .ok (e_i1, e_c1, rt1) →
        e_i1 ≤ e_i ∧ e_i - d ≤ e_i1) :=
  ⟨learn_order_no_fuel cox _ st,
    fun hwf => learn_total hwf,
    fun _ _ _ _ _ _ h => learn_row_num h,
    fun ct rt c k hk => learn_rows_no_fuel k c ct rt hk,
    fun _ _ d _ _ _ _ _ _ h => (scan_fwd_num d h).2,
    fun _ _ d _ _ _ _ _ _ h => (scan_bwd_num d h).2⟩

theorem stale_state_exact :
    RelTable.Exact ⟨[-1, 1, 0], [2, 1], [2, 1], [2, 1], [0, 0], [3, 3], 2, 0, 1, 3, 0⟩ := by
  refine ⟨⟨Nat.le_refl _, Nat.le_refl _, Nat.le_refl _, Nat.le_refl _, Nat.le_refl _⟩,
    fun j x hj h => ?_, fun c k => ?_, fun c hc hno => ?_⟩
  · have hj2 : j < 2 := hj
    interval_cases j <;> simp at h <;> subst h <;> decide
  · have hc : c < 3 ∨ 3 ≤ c := by omega
    have hk : k < 2 ∨ 2 ≤ k := by omega
    show ([-1, 1, 0] : List Int)[c]? = some (k : Int) ↔
      (k < 2 ∧ ([2, 1] : List Int)[k]? = some (c : Int))
    rcases hc with hc | hc
    · rcases hk with hk | hk
      · interval_cases c <;> interval_cases k <;> simp
      · interval_cases c <;> simp <;> omega
    · have e1 : ([-1, 1, 0] : List Int)[c]? = none := List.getElem?_eq_none (by simp; omega)
      rw [e1]
      rcases hk with hk | hk
      · interval_cases k <;> simp <;> omega
      · simp; omega
  · have hc3 : c < 3 := hc
    interval_cases c
    · rfl
    · exact absurd rfl (hno 1 (by decide))
    · exact absurd rfl (hno 0 (by decide))

theorem stale_state_wellFormed : WellFormed (make_coxeter 2 []) stale_state := by
  refine ⟨rfl, ⟨rfl, by decide⟩, by decide, fun rt hrt => ?_⟩
  have hrt2 : rt = ⟨[-1, 1, 0], [2, 1], [2, 1], [2, 1], [0, 0], [3, 3], 2, 0, 1, 3, 0⟩ := by
    simpa [stale_state] using hrt
  subst hrt2
  refine ⟨stale_state_exact, rfl, by decide, by decide, fun k r hr => ?_⟩
  have hk : k < 2 := row_lt hr
  interval_cases k
  · have e : r = (2, 0, 2, 3, 2) := by
      have : RelTable.row ⟨[-1, 1, 0], [2, 1], [2, 1], [2, 1], [0, 0], [3, 3], 2, 0, 1, 3, 0⟩ 0 =
        some (2, 0, 2, 3, 2) := by decide
      rw [this] at hr
      exact (Option.some.inj hr).symm
    subst e
    decide
  · have e : r = (1, 0, 1, 3, 1) := by
      have : RelTable.row ⟨[-1, 1, 0], [2, 1], [2, 1], [2, 1], [0, 0], [3, 3], 2, 0, 1, 3, 0⟩ 1 =
        some (1, 0, 1, 3, 1) := by decide
      rw [this] at hr
      exact (Option.some.inj hr).symm
    subst e
    decide

/-- Witness for C17: the well-formed state `stale_state`, on which `learn`
prunes row 0 while it scans row 1, the last row. -/
theorem learn_terminates_witness :
    WellFormed (make_coxeter 2 []) stale_state ∧
      ∃ st1, learn (make_coxeter 2 []) stale_state = .ok st1 :=
  ⟨stale_state_wellFormed,
    (learn_terminates (make_coxeter 2 []) stale_state).2.1 stale_state_wellFormed⟩

/-! ## Soundness of pruning -/

/-- C18. In a table that is an involution on its defined entries, for a
relation `(a, b, L)` with `L = 2 * m` even: if the alternating word of length
`L` leads from the coset `c` back to `c`, then it leads back to itself from
every coset the walk visits, and from every coset reached from `c` through
defined entries of `a` and `b` (the cosets whose scan rows `learn` removes while
it scans from `init = c`). -/
theorem pruning_sound (ct : CosetTable) (hinv : Involutive ct) (a b : Nat)
    (ha : a < ct.ngens) (hb : b < ct.ngens) (m : Nat) (c : Int) (hc : 0 ≤ c)
    (h : apply_word ct a b (2 * m) 0 c = c) :
    (∀ j, j ≤ 2 * m →
      apply_word ct a b (2 * m) 0 (apply_word ct a b j 0 c) = apply_word ct a b j 0 c) ∧
    ∀ y, Conn ct a b c y → apply_word ct a b (2 * m) 0 y = y := by
  refine ⟨fun j hj => ?_, fun y hy => relator_holds_of_conn hinv ha hb h hc hy⟩
  have hsplit := @apply_word_add ct a b j (2 * m - j) 0 c
  rw [show j + (2 * m - j) = 2 * m by omega, h] at hsplit
  have h0 : 0 ≤ apply_word ct a b j 0 c :=
    start_nonneg (by rw [← hsplit]; exact hc :
      0 ≤ apply_word ct a b (2 * m - j) (0 + j) (apply_word ct a b j 0 c))
  exact relator_holds_of_conn hinv ha hb h hc (conn_of_apply_word j 0 c h0)

theorem swap_table_involutive : Involutive swap_table := by
  intro c g v hg h hv
  have hg2 : g < 2 := hg
  have hlt : c * 2 + g < 4 := (List.getElem?_eq_some.1 h).1
  have hc : c < 2 := by omega
  interval_cases c <;> interval_cases g <;>
    · simp [swap_table] at h
      subst h
      rfl

/-- Witness for C18: in `swap_table` the word `(0 1)^2` leads from coset 0 back
to coset 0, and also from coset 1, which the walk visits, back to coset 1. -/
theorem pruning_sound_witness :
    apply_word swap_table 0 1 (2 * 2) 0 (apply_word swap_table 0 1 2 0 0) =
      apply_word swap_table 0 1 2 0 0 ∧ apply_word swap_table 0 1 2 0 0 = 1 :=
  ⟨(pruning_sound swap_table swap_table_involutive 0 1 (by decide) (by decide) 2 0
    (le_refl 0) (by decide)).1 2 (by decide), by decide⟩

/-! ## Closures -/

theorem set_ext {ct ct1 : CosetTable} {idx v : Int} (h : ct.set idx v = .ok ct1)
    (hold : ct.table[idx.toNat]? = some (-1) ∨ ct.table[idx.toNat]? = some v) :
    Ext ct ct1 := by
  obtain ⟨-, hn, -, -, hlt, ht⟩ := set_frame h
  refine ⟨hn, fun c g _ h0 => ?_⟩
  obtain ⟨hc, hg⟩ := getElem?_of_get h0
  rw [get_eq_getD hc, get_eq_getD hc, List.getD_eq_getElem?_getD, List.getD_eq_getElem?_getD,
    hn, ht]
  by_cases hi : idx.toNat = c.toNat * ct.ngens + g
  · rw [← hi] at hg ⊢
    rw [List.getElem?_set_self hlt]
    rcases hold with h1 | h1
    · rw [h1] at hg
      have := Option.some.inj hg
      omega
    · rw [h1]
  · rw [List.getElem?_set_ne hi]

theorem get_eq_table {ct : CosetTable} {c : Int} {g : Nat} (hc : 0 ≤ c)
    (hlt : (c * ct.ngens + g).toNat < ct.table.length) :
    ct.table[(c * ct.ngens + g).toNat]? = some (ct.get c g) := by
  rw [get_eq_getD hc, List.getD_eq_getElem?_getD, toNat_index hc]
  rw [toNat_index hc] at hlt
  rw [List.getElem?_eq_getElem hlt]
  rfl

theorem close_row_holds {ct ct1 : CosetTable} {rt rt1 : RelTable} {c : Nat}
    {i s_i s_c e_c : Int} (ha : rt.gen0 < ct.ngens) (hb : rt.gen1 < ct.ngens)
    (hi : 0 ≤ i) (hsi : 0 ≤ s_i) (hsiE : s_i ≤ rt.end_ind) (hsc : 0 ≤ s_c) (hec : 0 ≤ e_c)
    (hfwd : apply_word ct rt.gen0 rt.gen1 s_i.toNat 0 i = s_c)
    (hbwd : apply_word ct rt.gen0 rt.gen1 (rt.end_ind - s_i).toNat (s_i + 1).toNat e_c = i)
    (hfree1 : ct.get s_c (rt.gens s_i) = -1 ∨ ct.get s_c (rt.gens s_i) = e_c)
    (hfree2 : ct.get e_c (rt.gens s_i) = -1 ∨ ct.get e_c (rt.gens s_i) = s_c)
    (h : close_row ct.ngens ct rt c s_i s_c e_c = .ok (ct1, rt1)) :
    Ext ct ct1 ∧ ct1.get s_c (rt.gens s_i) = e_c ∧ ct1.get e_c (rt.gens s_i) = s_c ∧
      apply_word ct1 rt.gen0 rt.gen1 (rt.end_ind + 1).toNat 0 i = i := by
  unfold close_row at h
  simp only [bind_eq_ok] at h
  obtain ⟨ct2, hs1, ct3, hs2, rt2, -, h4⟩ := h
  cases h4
  obtain ⟨-, hn2, -, -, hlt1, -⟩ := set_frame hs1
  have hn2' := hn2
  rw [← hn2] at hs2
  obtain ⟨-, hn3, -, -, hlt2, -⟩ := set_frame hs2
  have hglt : rt.gens s_i < ct.ngens := by
    rcases gens_cases rt s_i with h1 | h1
    · rw [h1]; exact ha
    · rw [h1]; exact hb
  have hx1 : Ext ct ct2 := by
    apply set_ext hs1
    rw [get_eq_table hsc hlt1]
    rcases hfree1 with h1 | h1
    · left; rw [h1]
    · right; rw [h1]
  have hg2 : ct2.get s_c (rt.gens s_i) = e_c := get_of_set hsc hs1
  have hx2 : Ext ct2 ct1 := by
    apply set_ext hs2
    rw [get_eq_table hec hlt2]
    by_cases hse : s_c = e_c
    · right
      rw [← hse] at hg2 ⊢
      rw [hg2]
    · have hslot : ct2.get e_c (rt.gens s_i) = ct.get e_c (rt.gens s_i) := by
        obtain ⟨-, -, -, -, -, ht⟩ := set_frame hs1
        rw [get_eq_getD hec, get_eq_getD hec, List.getD_eq_getElem?_getD,
          List.getD_eq_getElem?_getD, hn2', ht, toNat_index hsc, List.getElem?_set_ne]
        intro hc
        apply hse
        have := (index_inj hglt hglt hc).1
        omega
      rw [hslot]
      rcases hfree2 with h1 | h1
      · left; rw [h1]
      · right; rw [h1]
  have hx : Ext ct ct1 := ext_trans hx1 hx2
  have hg1 : ct1.get e_c (rt.gens s_i) = s_c := get_of_set hec hs2
  have hg3 : ct1.get s_c (rt.gens s_i) = e_c := by
    rw [hx2.2 s_c _ (by rw [hn2']; exact hglt) (by rw [hg2]; exact hec), hg2]
  refine ⟨hx, hg3, hg1, ?_⟩
  have e1 : apply_word ct1 rt.gen0 rt.gen1 s_i.toNat 0 i = s_c := by
    rw [apply_word_ext hx ha hb s_i.toNat 0 i (by rw [hfwd]; exact hsc)]
    exact hfwd
  have e2 : apply_word ct1 rt.gen0 rt.gen1 (rt.end_ind - s_i).toNat (s_i + 1).toNat e_c =
      i := by
    rw [apply_word_ext hx ha hb _ _ e_c (by rw [hbwd]; exact hi)]
    exact hbwd
  rw [show (rt.end_ind + 1).toNat = s_i.toNat + (1 + (rt.end_ind - s_i).toNat) by omega,
    apply_word_add, apply_word_add, e1, apply_word_one, Nat.zero_add, ← gens_eq hsi, hg3,
    show s_i.toNat + 1 = (s_i + 1).toNat by omega, e2]

/-- C20, amended. Let a scan row `(init, start_coset, start_index, end_coset,
end_index)` of the relation `(a, b, L)` be consistent with the table
(`start_coset` is reached from `init` by the first `start_index` letters, `init`
from `end_coset` by the letters `end_index + 1 .. L - 1`) and have
`start_index = end_index`. If each of the two slots that the closure of `learn`
writes, `T[start_coset, g]` and `T[end_coset, g]`, is UNDEFINED or already holds
the value written, then after the closure the two entries hold
`T[start_coset, g] = end_coset` and `T[end_coset, g] = start_coset`, no defined
entry has changed, and the word of length `L` leads from `init` back to `init`. -/
theorem closure_establishes_relation (ct ct1 : CosetTable) (rt rt1 : RelTable) (c : Nat)
    (i s_i s_c e_c : Int) (ha : rt.gen0 < ct.ngens) (hb : rt.gen1 < ct.ngens)
    (hi : 0 ≤ i) (hsi : 0 ≤ s_i) (hsiE : s_i ≤ rt.end_ind) (hsc : 0 ≤ s_c) (hec : 0 ≤ e_c)
    (hfwd : apply_word ct rt.gen0 rt.gen1 s_i.toNat 0 i = s_c)
    (hbwd : apply_word ct rt.gen0 rt.gen1 (rt.end_ind - s_i).toNat (s_i + 1).toNat e_c = i)
    (hfree1 : ct.get s_c (rt.gens s_i) = -1 ∨ ct.get s_c (rt.gens s_i) = e_c)
    (hfree2 : ct.get e_c (rt.gens s_i) = -1 ∨ ct.get e_c (rt.gens s_i) = s_c)
    (h : close_row ct.ngens ct rt c s_i s_c e_c = .ok (ct1, rt1)) :
    Ext ct ct1 ∧ ct1.get s_c (rt.gens s_i) = e_c ∧ ct1.get e_c (rt.gens s_i) = s_c ∧
      apply_word ct1 rt.gen0 rt.gen1 (rt.end_ind + 1).toNat 0 i = i :=
  close_row_holds ha hb hi hsi hsiE hsc hec hfwd hbwd hfree1 hfree2 h

/-- Witness for C20, amended: in `half_table` the row of coset 0 of the
relation `(0, 1, 2)` closes on two UNDEFINED slots. -/
theorem closure_establishes_relation_witness :
    Ext half_table ⟨[1, 1, 0, 0], 2, 2, 0⟩ ∧
      CosetTable.get ⟨[1, 1, 0, 0], 2, 2, 0⟩ 1 (last_letter_row.gens 1) = 0 ∧
      CosetTable.get ⟨[1, 1, 0, 0], 2, 2, 0⟩ 0 (last_letter_row.gens 1) = 1 ∧
      apply_word ⟨[1, 1, 0, 0], 2, 2, 0⟩ last_letter_row.gen0 last_letter_row.gen1
        (last_letter_row.end_ind + 1).toNat 0 0 = 0 :=
  closure_establishes_relation half_table ⟨[1, 1, 0, 0], 2, 2, 0⟩ last_letter_row
    ⟨[-1, -1], [0], [1], [0], [1], [1], 0, 0, 1, 1, 0⟩ 0 0 1 1 0 (by decide) (by decide) (by decide)
    (by decide) (by decide) (by decide) (by decide) (by decide) (by decide) (by decide)
    (by decide) (by decide)

/-- C20 fails as stated. `swap_table` is an involution, and the scan row
`(init, start_index, start_coset, end_index, end_coset) = (0, 3, 1, 3, 1)` of
the relation `(0, 1, 6)` is consistent with it: the letters 0, 1, 2 lead from
coset 0 to coset 1 and the letters 4, 5 lead from coset 1 to coset 0. `learn`
closes the row by writing `T[1, 1] = 1`, which replaces the defined entry
`T[1, 1] = 0`, and in the resulting table the word of length 6 leads from coset
0 to coset 1. -/
theorem closure_breaks_relation :
    Involutive swap_table ∧ meeting_row.row 0 = some (0, 3, 1, 3, 1) ∧
      apply_word swap_table meeting_row.gen0 meeting_row.gen1 3 0 0 = 1 ∧
      apply_word swap_table meeting_row.gen0 meeting_row.gen1 2 4 1 = 0 ∧
      swap_table.get 1 (meeting_row.gens 3) = 0 ∧
      learn_row 2 swap_table meeting_row 0 =
        .ok (⟨[0, 1, 1, 1], 2, 2, 1⟩, ⟨[-1, -1], [0], [1], [1], [3], [3], 0, 0, 1, 5, 0⟩, true) ∧
      apply_word ⟨[0, 1, 1, 1], 2, 2, 1⟩ meeting_row.gen0 meeting_row.gen1
        (meeting_row.end_ind + 1).toNat 0 0 = 1 ∧
      apply_word ⟨[0, 1, 1, 1], 2, 2, 1⟩ meeting_row.gen0 meeting_row.gen1
        (meeting_row.end_ind + 1).toNat 0 0 ≠ 0 :=
  ⟨swap_table_involutive, by decide, by decide, by decide, by decide, by decide, by decide,
    by decide⟩

/-! ## How far `learn` scans a row -/

theorem unscanned_trace :
    (do
      let st0 ← init_state (make_coxeter 3 []) [0, 1]
      let p ← iterate_loop (make_coxeter 3 []) 1 0 st0
      let st1 ← learn (make_coxeter 3 []) p.2
      pure (p.1, st1) : Except Err (Int × State)) = .ok (0, unscanned_state) := by decide!

theorem stale_learn :
    learn (make_coxeter 2 []) stale_state =
      .ok ⟨stale_state.cosets,
        [⟨[-1, 0, -1], [1, 1], [1, 2], [1, 1], [0, 1], [3, 3], 1, 0, 1, 3, 4⟩]⟩ := by decide!

/-- C14 (code): `learn` leaves scan rows that are not scanned as far as the
table allows. For three generators, all multiplicities 2, modulo the generators
0 and 1, the first call of `learn` after the first `add_coset` leaves in the
table of relation 0 the scan row `(init 1, start_index 0, start_coset 1,
end_index 3, end_coset 1)`, while the resulting coset table has
`T[1, gen[0]] = T[1, 0] = 1` and `T[1, gen[1]] = T[1, 1] = 1`, both defined:
they were deduced by the closures of the relations 1 and 2, after relation 0
had been scanned. And in `stale_state`, where the scan of the last row prunes
row 0, the scanned row moves to index 0 and the scan's result is written to the
slot it has left: `learn` leaves the row `(init 1, start_index 0, start_coset
1, end_index 3, end_coset 1)` although `T[1, gen[0]] = T[1, 0] = 2` is defined
in the table, which `learn` has not changed. -/
theorem learn_leaves_row_unscanned :
    (∃ (st0 : State) (h : Int) (st st1 : State) (rt : RelTable),
      init_state (make_coxeter 3 []) [0, 1] = .ok st0 ∧
      iterate_loop (make_coxeter 3 []) 1 0 st0 = .ok (h, st) ∧ 0 ≤ h ∧
      learn (make_coxeter 3 []) st = .ok st1 ∧
      st1.reltables[0]? = some rt ∧ rt.row 0 = some (1, 0, 1, 3, 1) ∧
      rd st1.cosets.table ((rt.gens 0 : Int) + 1 * (3 : Nat)) = .ok 1 ∧
      rd st1.cosets.table ((rt.gens 3 : Int) + 1 * (3 : Nat)) = .ok 1) ∧
    ∃ (st1 : State) (rt : RelTable),
      learn (make_coxeter 2 []) stale_state = .ok st1 ∧ st1.cosets = stale_state.cosets ∧
      st1.reltables[0]? = some rt ∧ rt.row 0 = some (1, 0, 1, 3, 1) ∧
      rd st1.cosets.table ((rt.gens 0 : Int) + 1 * (2 : Nat)) = .ok 2 := by
  have h := unscanned_trace
  simp only [bind_eq_ok] at h
  obtain ⟨st0, h0, ⟨hh, st⟩, h1, st1, h2, h3⟩ := h
  simp only [pure, Except.pure, Except.ok.injEq, Prod.mk.injEq] at h3
  obtain ⟨h3, rfl⟩ := h3
  exact ⟨⟨st0, hh, st, _, _, h0, h1, by omega, h2, rfl, by decide, by decide, by decide⟩,
    ⟨_, _, stale_learn, rfl, rfl, by decide, by decide⟩⟩

/-! ## The write-back of `learn` after a pruning swap -/

theorem iterate_loop_add (cox : Coxeter) :
    ∀ (k l : Nat) (h : Int) (st : State) (h1 : Int) (st1 : State),
      iterate_loop cox k h st = .ok (h1, st1) →
      iterate_loop cox (k + l) h st = iterate_loop cox l h1 st1
  | 0, l, h, st, h1, st1, hk => by
    unfold iterate_loop at hk
    cases hk
    rw [Nat.zero_add]
  | k + 1, l, h, st, h1, st1, hk => by
    rw [show k + 1 + l = (k + l) + 1 from by omega]
    rw [iterate_loop] at hk
    rw [iterate_loop]
    split at hk
    · rename_i hh
      rw [if_pos hh]
      split at hk
      · cases hk
      · rename_i h2 st2 hb
        exact iterate_loop_add cox k l h2 st2 h1 st1 hk
    · rename_i hh
      cases hk
      rw [if_neg hh]
      cases l with
      | zero => rw [iterate_loop]
      | succ l => rw [iterate_loop, if_neg hh]

theorem stale_learn_row_0 :
    learn_row 2 stale_state.cosets
        ⟨[-1, 1, 0], [2, 1], [2, 1], [2, 1], [0, 0], [3, 3], 2, 0, 1, 3, 0⟩ 0 =
      .ok (stale_state.cosets,
        ⟨[-1, 1, 0], [2, 1], [1, 1], [2, 1], [1, 0], [3, 3], 2, 0, 1, 3, 0⟩, false) := by
  decide!

theorem stale_scan_fwd_1 :
    scan_fwd stale_state.cosets.table 2 1 3 0 1
        ⟨[-1, 1, 0], [2, 1], [1, 1], [2, 1], [1, 0], [3, 3], 2, 0, 1, 3, 0⟩ =
      .ok (1, 2, ⟨[-1, 0, -1], [1, 1], [1, 1], [1, 1], [0, 0], [3, 3], 1, 0, 1, 3, 0⟩) := by
  decide!

theorem stale_learn_row_1 :
    learn_row 2 stale_state.cosets
        ⟨[-1, 1, 0], [2, 1], [1, 1], [2, 1], [1, 0], [3, 3], 2, 0, 1, 3, 0⟩ 1 =
      .ok (stale_state.cosets,
        ⟨[-1, 0, -1], [1, 1], [1, 2], [1, 1], [0, 1], [3, 3], 1, 0, 1, 3, 4⟩, false) := by
  decide!

theorem torus2_trace_11 :
    (learn (torus 2) torus2_state_11).map
        (fun st => st.reltables.map fun rt => (rt.gen0, rt.gen1, rt.stale)) =
      .ok [(0, 1, 0), (0, 2, 0), (0, 3, 0), (1, 2, 2), (1, 3, 0), (2, 3, 0)] := by decide!

/-- C19 (code): the write-back of `learn` can index a row array at or past its
size. In `stale_state` (three cosets, one relation table of two rows; the table
entries are `-1` or coset indices, the five row arrays have length `num_rows`,
the side index is exact with one entry per coset) `learn` processes row 0
without closing it and then row 1, the last row, of coset 1: the forward scan
reads `T[1, 0] = 2 > 1` and prunes the row of coset 2 by `rem_row(0)`, which
moves row 1 to index 0 and leaves `num_rows = 1`; the four write-backs
`start_inds[1]`, `start_cosets[1]`, `end_inds[1]`, `end_cosets[1]` then go to
index 1 of arrays of size 1 (`stale = 4`), and the row of coset 1, now row 0,
keeps its old `start_index`. The run of `solve_tc` on `torus(2)` with no
subgroup generators reaches such a state: after 11 iterations of the main loop,
with 12 cosets and no such assignment made so far, the next call of `learn`
makes two of them in the table of the relation of the generators 1 and 2
(`stale = 2`). -/
theorem learn_write_back_out_of_range :
    (WellFormed (make_coxeter 2 []) stale_state ∧
      stale_state.reltables =
        [⟨[-1, 1, 0], [2, 1], [2, 1], [2, 1], [0, 0], [3, 3], 2, 0, 1, 3, 0⟩] ∧
      learn_row 2 stale_state.cosets
          ⟨[-1, 1, 0], [2, 1], [2, 1], [2, 1], [0, 0], [3, 3], 2, 0, 1, 3, 0⟩ 0 =
        .ok (stale_state.cosets,
          ⟨[-1, 1, 0], [2, 1], [1, 1], [2, 1], [1, 0], [3, 3], 2, 0, 1, 3, 0⟩, false) ∧
      scan_fwd stale_state.cosets.table 2 1 3 0 1
          ⟨[-1, 1, 0], [2, 1], [1, 1], [2, 1], [1, 0], [3, 3], 2, 0, 1, 3, 0⟩ =
        .ok (1, 2, ⟨[-1, 0, -1], [1, 1], [1, 1], [1, 1], [0, 0], [3, 3], 1, 0, 1, 3, 0⟩) ∧
      learn_row 2 stale_state.cosets
          ⟨[-1, 1, 0], [2, 1], [1, 1], [2, 1], [1, 0], [3, 3], 2, 0, 1, 3, 0⟩ 1 =
        .ok (stale_state.cosets,
          ⟨[-1, 0, -1], [1, 1], [1, 2], [1, 1], [0, 1], [3, 3], 1, 0, 1, 3, 4⟩, false) ∧
      learn (make_coxeter 2 []) stale_state =
        .ok ⟨stale_state.cosets,
          [⟨[-1, 0, -1], [1, 1], [1, 2], [1, 1], [0, 1], [3, 3], 1, 0, 1, 3, 4⟩]⟩) ∧
    ∃ (st0 : State) (h : Int) (st st1 : State),
      init_state (torus 2) [] = .ok st0 ∧
      iterate_loop (torus 2) 11 0 st0 = .ok (h, st) ∧ 0 ≤ h ∧ st.cosets.num_cosets = 12 ∧
      (∀ rt ∈ st.reltables, rt.stale = 0) ∧
      learn (torus 2) st = .ok st1 ∧
      (st1.reltables.map fun rt => (rt.gen0, rt.gen1, rt.stale)) =
        [(0, 1, 0), (0, 2, 0), (0, 3, 0), (1, 2, 2), (1, 3, 0), (2, 3, 0)] := by
  refine ⟨⟨stale_state_wellFormed, rfl, stale_learn_row_0, stale_scan_fwd_1,
    stale_learn_row_1, stale_learn⟩, ?_⟩
  have h3 := iterate_loop_add (torus 2) 6 5 0 torus2_state_0 1 torus2_state_6 torus2_steps_6
  rw [torus2_steps_11] at h3
  have h := torus2_trace_11
  cases hl : learn (torus 2) torus2_state_11 with
  | error e =>
    rw [hl] at h
    cases h
  | ok st1 =>
    rw [hl] at h
    have h4 : (st1.reltables.map fun rt => (rt.gen0, rt.gen1, rt.stale)) =
        [(0, 1, 0), (0, 2, 0), (0, 3, 0), (1, 2, 2), (1, 3, 0), (2, 3, 0)] := by
      simpa [Except.map] using h
    exact ⟨_, 5, torus2_state_11, st1, torus2_init, h3, by decide, rfl, by decide, hl, h4⟩

/-! ## The relation tables and the coset table -/

end ToddCox
